import Mathlib

set_option autoImplicit false

namespace Alidnsslim

/-! # Documents, Go types and reflected values

The extraction engine of `alidns.go` works on three kinds of data: the JSON
document of a response body, the Go type synthesised from a path
(`reflect.SliceOf`, `reflect.MapOf`), and the `reflect.Value` obtained by
decoding the document into that type.
-/

/-- A JSON document. `num n` is a number literal in integer syntax, `real lit` a
number literal with a fraction or an exponent. Object members are kept in
document order, duplicates included. -/
inductive JSON where
  | null
  | bool (b : Bool)
  | num (n : Int)
  | real (lit : String)
  | str (s : String)
  | arr (items : List JSON)
  | obj (members : List (String × JSON))

/-- The Go types a destination can have here: `string`, `int` (64 bit), `bool`,
`[]T` and `map[string]T`. `reflect.SliceOf t` is `slice t` and
`reflect.MapOf(reflect.TypeOf(key), t)` is `map t`, the key type always being
`string`. -/
inductive GoType where
  | string
  | int
  | bool
  | slice (elem : GoType)
  | map (elem : GoType)
  deriving DecidableEq, Repr

/-- A `reflect.Value`. `invalid` is the zero Value (what `MapIndex` returns for
an absent key). A nil slice or map and an empty one are not told apart: `Len`,
`MapIndex`, `Append` and `range` treat them alike. -/
inductive Val where
  | invalid
  | str (s : String)
  | int (n : Int)
  | bool (b : Bool)
  | slice (items : List Val)
  | map (entries : List (String × Val))

/-- Why a run stops with a Go panic. -/
inductive Panic where
  /-- A `reflect` method called on the zero Value. -/
  | zeroValue
  /-- A `reflect` method called on a value of the wrong kind. -/
  | wrongKind
  /-- The failed type assertion `dest[2*n+1].(string)`. -/
  | typeAssertion
  /-- The call `reflect.TypeOf(target).Elem()` on something that is not a pointer. -/
  | notPointer
  /-- An index that addresses no variable. No Go pointer is like that: a pointer
  is nil or addresses a variable. -/
  | badPointer
  deriving DecidableEq, Repr

/-- The value of `reflect.New(t).Elem()`: the zero value of type `t`. -/
def zeroValue : GoType → Val
  | .string => .str ""
  | .int => .int 0
  | .bool => .bool false
  | .slice _ => .slice []
  | .map _ => .map []

/-- Predicate `Val.IsValid`. -/
def Val.IsValid : Val → Bool
  | .invalid => false
  | _ => true

/-! ## `json.Unmarshal` into a synthesised type -/

/-- The `v.SetMapIndex(key, elem)` step: bind `key` to `elem`, replacing an earlier
binding of the same key. -/
def setMapIndex : List (String × Val) → String → Val → List (String × Val)
  | [], k, v => [(k, v)]
  | (k', v') :: rest, k, v =>
    if k' = k then (k, v) :: rest else (k', v') :: setMapIndex rest k v

/-- Range of the Go type `int`. -/
def inIntRange (n : Int) : Bool :=
  decide (-(2 : Int) ^ 63 ≤ n) && decide (n < (2 : Int) ^ 63)

/-- Decoding of a syntactically valid document into a fresh zero value of type
`t`, as `encoding/json` does it: the result is the decoded value together with
a flag telling whether an `UnmarshalTypeError` was recorded. A mismatch does
not stop the decoder: the offending part keeps its zero value and the rest of
the document is still decoded. `null` leaves a zero value everywhere. -/
def decode : GoType → JSON → Val × Bool
  | .string, .str s => (.str s, false)
  | .string, .null => (.str "", false)
  | .string, _ => (.str "", true)
  | .int, .num n => if inIntRange n then (.int n, false) else (.int 0, true)
  | .int, .null => (.int 0, false)
  | .int, _ => (.int 0, true)
  | .bool, .bool b => (.bool b, false)
  | .bool, .null => (.bool false, false)
  | .bool, _ => (.bool false, true)
  | .slice e, .arr items =>
    (.slice (items.map (fun j => (decode e j).1)),
      items.any (fun j => (decode e j).2))
  | .slice _, .null => (.slice [], false)
  | .slice _, _ => (.slice [], true)
  | .map e, .obj members =>
    (.map (members.foldl (fun m kv => setMapIndex m kv.1 (decode e kv.2).1) []),
      members.any (fun kv => (decode e kv.2).2))
  | .map _, .null => (.map [], false)
  | .map _, _ => (.map [], true)

/-- The call `json.Unmarshal(data, d.Interface())` on `d := reflect.New(typ)`:
`data` is the document the bytes parse to, `none` when they are not valid JSON
(then nothing is written and a syntax error is returned). The pair is
`d.Elem()` after the call and whether the returned error is non-nil. -/
def unmarshal (typ : GoType) : Option JSON → Val × Bool
  | none => (zeroValue typ, true)
  | some j => decode typ j

/-! ## `collect` and `arrange` -/

/-- The scan of `strings.Split(s, ".")` over the characters of `s`: `cur` is the
segment being read, in reverse. -/
def splitDots : List Char → List Char → List String
  | [], cur => [String.mk cur.reverse]
  | c :: cs, cur =>
    if c = '.' then String.mk cur.reverse :: splitDots cs []
    else splitDots cs (c :: cur)

/-- The call `strings.Split(key, ".")`. -/
def splitKey (key : String) : List String :=
  splitDots key.data []

/-- The call `x.MapIndex(reflect.ValueOf(key))`. -/
def mapIndex : Val → String → Except Panic Val
  | .map entries, key =>
    match entries.lookup key with
    | some v => .ok v
    | none => .ok .invalid
  | .invalid, _ => .error .zeroValue
  | _, _ => .error .wrongKind

/-- The elements `x.Index(0)`, ..., `x.Index(x.Len()-1)` of the wildcard loop. -/
def elements : Val → Except Panic (List Val)
  | .slice items => .ok items
  | .invalid => .error .zeroValue
  | _ => .error .wrongKind

/-- Concatenation `out = append(out, ...)` of the branch results, in order; the
first panic ends the run. -/
def appendAll : List (Except Panic (List Val)) → Except Panic (List Val)
  | [] => .ok []
  | .error e :: _ => .error e
  | .ok vs :: rest =>
    match appendAll rest with
    | .ok ws => .ok (vs ++ ws)
    | .error e => .error e

/-- Function `collect` (alidns.go:268). -/
def collect : Val → List String → Except Panic (List Val)
  | x, [] => .ok [x]
  | x, key :: k =>
    if key = "*" then
      match elements x with
      | .error e => .error e
      | .ok items => appendAll (items.map (fun item => collect item k))
    else if key ≠ "" then
      match mapIndex x key with
      | .error e => .error e
      | .ok x' => collect x' k
    else collect x k

/-- A variable of the caller: its static type and its current value. A `Cell` is
what a (non-nil) pointer destination points to. -/
structure Cell where
  typ : GoType
  val : Val

/-- The type built by the loop of alidns.go:243-250, last key first. -/
def buildType (baseType : GoType) (keys : List String) : GoType :=
  keys.foldr (fun key typ =>
    if key = "*" then GoType.slice typ
    else if key ≠ "" then GoType.map typ
    else typ) baseType

/-- The `baseType` of alidns.go:238-241. -/
def baseTypeOf : GoType → GoType
  | .slice e => e
  | t => t

/-- One round of the loop of alidns.go:255-265 on the destination value `v` of
static type `typ`. -/
def bind (typ baseType : GoType) (v : Val) (item : Val) : Val :=
  let item := if !item.IsValid then zeroValue baseType else item
  match typ, v with
  | .slice _, .slice items => .slice (items ++ [item])
  | .slice _, _ => .slice [item]
  | _, _ => item

/-- Function `arrange` (alidns.go:236) on the variable `target` points to. -/
def arrange (data : Option JSON) (target : Cell) (key : String) : Except Panic Cell :=
  let keys := splitKey key
  let baseType := baseTypeOf target.typ
  let typ := buildType baseType keys
  let d := (unmarshal typ data).1
  match collect d keys with
  | .error e => .error e
  | .ok items => .ok { target with val := items.foldl (bind target.typ baseType) target.val }

/-- Function `arrange` (alidns.go:236) on a nil pointer of type `*T`. The shape is
built from `T` and the body is decoded and walked as for every target;
`reflect.Indirect` of the nil pointer is the zero Value, whose `Kind` is not
`Slice`, and `v.Set` panics on it for the first item of the walk. When the
walk has collected nothing the call returns. -/
def arrangeNil (data : Option JSON) (T : GoType) (key : String) : Option Panic :=
  let keys := splitKey key
  let typ := buildType (baseTypeOf T) keys
  match collect (unmarshal typ data).1 keys with
  | .error e => some e
  | .ok [] => none
  | .ok (_ :: _) => some .zeroValue

/-! # Request parameters (`url.Values`) -/

/-- The Go type `url.Values`, a `map[string][]string`, as the list of its
entries. Only non-nil maps are modelled: every builder of the package returns
one. -/
abbrev Values := List (String × List String)

/-- Method `url.Values.Get`: the first value of `key`, or the empty string. -/
def Values.Get (v : Values) (key : String) : String :=
  match v.lookup key with
  | some (x :: _) => x
  | _ => ""

/-- Method `url.Values.Set`: `key` is bound to the one value `value`. -/
def Values.Set : Values → String → String → Values
  | [], key, value => [(key, [value])]
  | (k, vs) :: rest, key, value =>
    if k = key then (key, [value]) :: rest else (k, vs) :: Values.Set rest key value

/-- Function `merge` (alidns.go:189). -/
def merge (params : Values) (values : List Values) : Values :=
  values.foldl (fun params value =>
    value.foldl (fun params entry => params.Set entry.1 (value.Get entry.1)) params) params

/-- The conversion `strconv.Itoa`. -/
def itoa (n : Int) : String :=
  toString n

/-- Function `Page` (alidns.go:101). -/
def Page (page : Int) (values : List Values) : Values :=
  merge (Values.Set [] "PageNumber" (itoa page)) values

/-- Function `PageSize` (alidns.go:108). -/
def PageSize (size : Int) (values : List Values) : Values :=
  merge (Values.Set [] "PageSize" (itoa size)) values

/-! ## Canonical query string -/

/-- Upper-case hexadecimal digit. -/
def hexDigit (n : Nat) : Char :=
  "0123456789ABCDEF".data.getD n '0'

/-- The escape `%XX` of one byte. -/
def escapeByte (b : UInt8) : List Char :=
  ['%', hexDigit (b.toNat / 16), hexDigit (b.toNat % 16)]

/-- What `url.QueryEscape` writes for one character: letters, digits and `-_.~`
stay, a space becomes `+`, every other character is the escape of its UTF-8
bytes. -/
def queryEscapeChar (c : Char) : List Char :=
  if c.isAlphanum || c = '-' || c = '_' || c = '.' || c = '~' then [c]
  else if c = ' ' then ['+']
  else (String.utf8EncodeChar c).flatMap escapeByte

/-- The library function `url.QueryEscape`. -/
def queryEscape (s : String) : String :=
  String.mk (s.data.flatMap queryEscapeChar)

/-- Function `urlEncode` (alidns.go:204): `+` is rewritten to `%20`. -/
def urlEncode (input : String) : String :=
  String.mk ((queryEscape input).data.flatMap (fun c => if c = '+' then ['%', '2', '0'] else [c]))

/-- The order of Go strings, byte by byte; on UTF-8 it is the order of the code
points. -/
def charsLe : List Char → List Char → Bool
  | [], _ => true
  | _ :: _, [] => false
  | a :: as, b :: bs =>
    if a.toNat < b.toNat then true
    else if a.toNat = b.toNat then charsLe as bs
    else false

/-- The library function `sort.Strings`. -/
def sortStrings (keys : List String) : List String :=
  keys.insertionSort (fun a b => charsLe a.data b.data = true)

/-- Function `buildQueryString` (alidns.go:208). -/
def buildQueryString (params : Values) : String :=
  let keys := (params.map Prod.fst).filter (fun key => key ≠ "Signature")
  let keys := sortStrings keys
  let queries := keys.map (fun key => urlEncode key ++ "=" ++ urlEncode (params.Get key))
  "&".intercalate queries

/-! # Responses -/

/-- The struct `ResponseError` (alidns.go:38). -/
structure ResponseError where
  Message : String
  Code : String
  deriving DecidableEq, Repr

/-- Case folding of `encoding/json` when it matches an object key against a
struct field: ASCII letters are upper-cased, and the two non-ASCII characters
that fold to an ASCII letter (long s, Kelvin sign) go to that letter. -/
def foldChar (c : Char) : Char :=
  if c = Char.ofNat 0x17F then 'S' else if c = Char.ofNat 0x212A then 'K' else c.toUpper

/-- Whether the object key `key` selects the struct field named `field`. -/
def fieldMatches (field key : String) : Bool :=
  field.data.map foldChar == key.data.map foldChar

/-- One member of the envelope object stored into a `ResponseError`: a string
goes into the field its key selects, anything else leaves the struct as it
is. -/
def storeMember (r : ResponseError) (member : String × JSON) : ResponseError :=
  match member.2 with
  | .str s =>
    if fieldMatches "Message" member.1 then { r with Message := s }
    else if fieldMatches "Code" member.1 then { r with Code := s }
    else r
  | _ => r

/-- The probe `json.Unmarshal(b, &rerr)` of alidns.go:165-166 on the zero
`ResponseError`; its error is dropped by the code. -/
def decodeEnvelope : Option JSON → ResponseError
  | some (.obj members) => members.foldl storeMember { Message := "", Code := "" }
  | _ => { Message := "", Code := "" }

/-- The Go `error` values the package returns. -/
inductive GoError where
  /-- Value `errors.New("dest size must not be 1")`. -/
  | arity
  /-- An error of the HTTP exchange (`Do`, `ReadAll`). -/
  | transport (msg : String)
  /-- A `ResponseError`. -/
  | response (e : ResponseError)
  /-- Value `fmt.Errorf("returned status %d instead of 200", status)`. -/
  | status (code : Int)
  /-- An error of `json.Unmarshal` on a single destination. -/
  | decode
  deriving DecidableEq, Repr

/-- How a call ends: `nil`, an error, or a panic. -/
inductive Outcome where
  | ok
  | error (e : GoError)
  | panic (p : Panic)
  deriving DecidableEq, Repr

/-- What the HTTP exchange of one request gives: an error, or a status code and
the document the body parses to (`none`: not valid JSON). -/
inductive Exchange where
  | failed (msg : String)
  | response (status : Int) (body : Option JSON)

/-- An element of the variadic `dest ...interface{}`: a pointer to the variable
with the given index, a nil pointer of type `*T`, or a string. -/
inductive Arg where
  | ptr (i : Nat)
  | nil (T : GoType)
  | str (s : String)
  deriving DecidableEq, Repr

/-- The struct `Client` (alidns.go:24). -/
structure Client where
  accessKeyId : String
  accessKeySecret : String

/-- Everything outside the package that a request depends on. Requests are
numbered from 0 in the order they are sent. -/
structure World where
  /-- The formatted `time.Now()` of request `n`. -/
  timestamp : Nat → String
  /-- The `randomString(64)` of request `n`. -/
  nonce : Nat → String
  /-- Base64 of the HMAC-SHA1 of a message under a key. -/
  hmacSha1 : String → String → String
  /-- The exchange of request `n`, sent with the given parameters. -/
  transport : Nat → Values → Exchange
  /-- The call `json.Unmarshal(b, dest[0])` into an existing variable. -/
  unmarshalInto : Option JSON → Cell → Cell × Bool
  /-- The conversion `int(f)` of a `float64` whose value is outside the range of
  `int`: Go leaves the result to the implementation. -/
  intOfFloat : Int → Int

/-- Function `sign` (alidns.go:198). -/
def sign (w : World) (secret query : String) : String :=
  w.hmacSha1 (secret ++ "&") ("GET&%2F&" ++ query)

/-- The state a call works on: the params map it shares with its caller, the
variables the destinations point into, and the requests sent so far. -/
structure State where
  params : Values
  mem : List Cell
  requests : List Values

/-- The loop of alidns.go:177-179 over the pairs of `dest`: the variables after
the loop, and the panic that ended it if there was one. The type assertion on
the path is evaluated before `arrange` is entered; a trailing unpaired element
is not visited. A `ptr i` whose `i` is no index of `mem` is no value of Go; the
loop is stopped there, so that the function is total, and the statements
exclude it (`ValidDest`). -/
def arrangePairs (data : Option JSON) : List Arg → List Cell → List Cell × Option Panic
  | target :: key :: rest, mem =>
    match key with
    | .ptr _ => (mem, some .typeAssertion)
    | .nil _ => (mem, some .typeAssertion)
    | .str k =>
      match target with
      | .str _ => (mem, some .notPointer)
      | .nil T =>
        match arrangeNil data T k with
        | some p => (mem, some p)
        | none => arrangePairs data rest mem
      | .ptr i =>
        match mem[i]? with
        | none => (mem, some .badPointer)
        | some cell =>
          match arrange data cell k with
          | .error e => (mem, some e)
          | .ok cell' => arrangePairs data rest (mem.set i cell')
  | _, mem => (mem, none)

/-- How a loop that may panic ends. -/
def Outcome.ofPanic : Option Panic → Outcome
  | some p => .panic p
  | none => .ok

/-- The tail of `Get` (alidns.go:165-186), once the exchange has given a status
and a body. A single destination is handed to `json.Unmarshal` as a whole, an
error for a string or a nil pointer (and here for an index that addresses no
variable, which is no value of Go); the `*[]byte` case of
alidns.go:182 does not arise, the types modelled here having no byte slice. -/
def handleResponse (w : World) (status : Int) (body : Option JSON) (dest : List Arg)
    (mem : List Cell) : List Cell × Outcome :=
  let rerr := decodeEnvelope body
  if rerr.Code ≠ "" then (mem, .error (.response rerr))
  else if status ≠ 200 then (mem, .error (.status status))
  else
    match dest with
    | [] => (mem, .ok)
    | [.str _] => (mem, .error .decode)
    | [.nil _] => (mem, .error .decode)
    | [.ptr i] =>
      match mem[i]? with
      | none => (mem, .error .decode)
      | some cell =>
        let r := w.unmarshalInto body cell
        (mem.set i r.1, if r.2 then .error .decode else .ok)
    | _ =>
      let r := arrangePairs body dest mem
      (r.1, Outcome.ofPanic r.2)

/-- The parameters of request `n` as `Get` sends them (alidns.go:141-151): the
protocol fields are set on the caller's map, then the signature of the
canonical query string. -/
def requestParams (w : World) (client : Client) (n : Nat) (params : Values) : Values :=
  let ts := w.timestamp n
  let params := params.Set "Format" "json"
  let params := params.Set "Version" "2015-01-09"
  let params := params.Set "AccessKeyId" client.accessKeyId
  let params := params.Set "SignatureMethod" "HMAC-SHA1"
  let params := params.Set "Timestamp" ts
  let params := params.Set "SignatureVersion" "1.0"
  let params := params.Set "SignatureNonce" (w.nonce n)
  let query := buildQueryString params
  let signature := sign w client.accessKeySecret (urlEncode query)
  params.Set "Signature" signature

/-- Method `Client.Get` (alidns.go:140). The request is recorded in `requests`
when it is handed to the transport. -/
def Get (w : World) (client : Client) (dest : List Arg) (s : State) : State × Outcome :=
  let n := s.requests.length
  let params := requestParams w client n s.params
  let s := { s with params := params, requests := s.requests ++ [params] }
  match w.transport n params with
  | .failed msg => (s, .error (.transport msg))
  | .response status body =>
    let r := handleResponse w status body dest s.mem
    ({ s with mem := r.1 }, r.2)

/-- Method `Client.Do` (alidns.go:135). -/
def Do (w : World) (client : Client) (dest : List Arg) (s : State) : State × Outcome :=
  Get w client dest s

/-! # Pagination -/

/-- The value of a variable of type `int`. -/
def Val.toInt : Val → Int
  | .int n => n
  | _ => 0

/-- Addition of Go `int`s: the sum wraps around at 64 bits. -/
def wrapInt (n : Int) : Int :=
  (n + 2 ^ 63) % 2 ^ 64 - 2 ^ 63

/-- Rounding of the quotient `N / D` to the nearest natural number, a tie going to
the even one: the rounding mode of `float64` arithmetic. -/
def roundHalfEven (N D : Nat) : Nat :=
  if D < 2 * (N % D) ∨ (2 * (N % D) = D ∧ (N / D) % 2 = 1) then N / D + 1 else N / D

/-- The scan of the binary digits of `n`, at most `fuel` of them. -/
def log2Aux : Nat → Nat → Nat
  | 0, _ => 0
  | fuel + 1, n => if n < 2 then 0 else log2Aux fuel (n / 2) + 1

/-- The position of the leading binary digit of `n`. -/
def log2 (n : Nat) : Nat :=
  log2Aux n n

/-- The conversion `float64(n)` of the absolute value `n` of an `int`: `n` itself
when it has at most 53 binary digits, and else the nearest number with 53
significant digits. -/
def toFloat64 (n : Nat) : Nat :=
  if n < 2 ^ 53 then n
  else roundHalfEven n (2 ^ (log2 n - 52)) * 2 ^ (log2 n - 52)

/-- The `float64` quotient `A / B` of two positive whole numbers, as a pair
`(x, P)` that stands for the fraction `x / P` with `P` a power of two: the exact
quotient is scaled by a power of two to a number of 53 binary digits before
the point, rounded there, and scaled back. The quotients that arise from two
`int`s lie between `2 ^ (-63)` and `2 ^ 63`, so that the exponent never leaves
the range of `float64`. -/
def float64Quotient (A B : Nat) : Nat × Nat :=
  let up := (log2 B + 52) - log2 A
  let down := log2 A - (log2 B + 52)
  let D := B * 2 ^ down
  let extra := if (A * 2 ^ up) / D < 2 ^ 52 then 1 else 0
  (roundHalfEven (A * 2 ^ (up + extra)) D * 2 ^ down, 2 ^ (up + extra))

/-- The expression `int(math.Ceil(float64(a) / float64(b)))` of alidns.go:129. The
two `int`s are converted to `float64`, the quotient is rounded to a `float64`,
`math.Ceil` is exact, and the conversion to `int` is the value itself when it
is in the range of `int`; `big` gives what the implementation returns when it
is not. For `b = 0` the quotient is no number; the source does not get there
(alidns.go:126). -/
def ceilDiv (big : Int → Int) (a b : Int) : Int :=
  let A := toFloat64 a.natAbs
  let B := toFloat64 b.natAbs
  if B = 0 then big 0
  else
    let q := float64Quotient A B
    let c : Int :=
      if decide (a < 0) = decide (b < 0) then ((q.1 + q.2 - 1) / q.2 : Nat)
      else -((q.1 / q.2 : Nat) : Int)
    if -(2 : Int) ^ 63 ≤ c ∧ c < 2 ^ 63 then c else big c

/-- The loop of `GetAll` (alidns.go:122-131). `base` is the index of the local
`currentPage`; `totalCount` and `pageSize` follow it. `fuel` bounds the number
of rounds, each of which sends one request: `none` means that the loop
condition still holds when the bound is reached. -/
def getAllLoop (w : World) (client : Client) (dest : List Arg) (base : Nat) :
    Nat → Int → State → Option (State × Outcome)
  | 0, totalPages, s =>
    let currentPage := (s.mem[base]?.map (fun c => c.val.toInt)).getD 0
    if currentPage < totalPages then none else some (s, .ok)
  | fuel + 1, totalPages, s =>
    let currentPage := (s.mem[base]?.map (fun c => c.val.toInt)).getD 0
    if currentPage < totalPages then
      let s := { s with params := merge s.params [Page (wrapInt (currentPage + 1)) []] }
      match Get w client dest s with
      | (s, .ok) =>
        let totalCount := (s.mem[base + 1]?.map (fun c => c.val.toInt)).getD 0
        let pageSize := (s.mem[base + 2]?.map (fun c => c.val.toInt)).getD 0
        if totalCount = 0 ∨ pageSize = 0 then some (s, .ok)
        else getAllLoop w client dest base fuel (ceilDiv w.intOfFloat totalCount pageSize) s
      | (s, out) => some (s, out)
    else some (s, .ok)

/-- The six elements that alidns.go:121 appends to `dest`: the addresses of the
locals `currentPage`, `totalCount` and `pageSize`, each with its path. -/
def localArgs (base : Nat) : List Arg :=
  [.ptr base, .str "PageNumber", .ptr (base + 1), .str "TotalCount",
    .ptr (base + 2), .str "PageSize"]

/-- Method `Client.GetAll` (alidns.go:115). The three locals are allocated after
the caller's variables and dropped again when the call returns. -/
def GetAll (w : World) (client : Client) (dest : List Arg) (fuel : Nat) (s : State) :
    Option (State × Outcome) :=
  match dest with
  | [_] => some (s, .error .arity)
  | _ =>
    let base := s.mem.length
    let locals : List Cell := [⟨.int, .int 0⟩, ⟨.int, .int 0⟩, ⟨.int, .int 0⟩]
    let dest := dest ++ localArgs base
    match getAllLoop w client dest base fuel 1 { s with mem := s.mem ++ locals } with
    | none => none
    | some (s, out) => some ({ s with mem := s.mem.take base }, out)

/-! # The documents and paths the statements speak about -/

/-- The member `doc[key]` of a document: the value of the last member named `key`
when `doc` is an object, nothing otherwise. -/
def JSON.member : JSON → String → Option JSON
  | .obj members, key => members.reverse.lookup key
  | _, _ => none

/-- The direct field access `doc[k1]...[kn]`. -/
def JSON.path : JSON → List String → Option JSON
  | j, [] => some j
  | j, k :: ks => (j.member k).bind (fun j' => j'.path ks)

/-- A literal key of a path: a segment that is not empty, is not the wildcard and
holds no dot. -/
def IsLiteral (k : String) : Prop :=
  k ≠ "" ∧ k ≠ "*" ∧ '.' ∉ k.data

instance (k : String) : Decidable (IsLiteral k) := by
  unfold IsLiteral; infer_instance

/-- The characters of the segments joined by dots. -/
def joinDots : List String → List Char
  | [] => []
  | [k] => k.data
  | k :: k' :: ks => k.data ++ '.' :: joinDots (k' :: ks)

/-- The path string `k1.k2.….kn` of the segments `keys`. -/
def pathString (keys : List String) : String :=
  String.mk (joinDots keys)

/-- The error an exchange makes `Get` return before it looks at a destination:
a transport error, the error code of the envelope, or a status other than
200, in this order of precedence. -/
def Exchange.failure : Exchange → Option GoError
  | .failed msg => some (.transport msg)
  | .response status body =>
    if (decodeEnvelope body).Code ≠ "" then some (.response (decodeEnvelope body))
    else if status ≠ 200 then some (.status status)
    else none

/-- The body of an exchange. -/
def Exchange.body : Exchange → Option JSON
  | .failed _ => none
  | .response _ body => body

/-- The exchanges of the requests `reqs`, sent in this order, the first of them
being request number `n`. -/
def exchanges (w : World) : Nat → List Values → List Exchange
  | _, [] => []
  | n, ps :: rest => w.transport n ps :: exchanges w (n + 1) rest

/-- The values that one response adds to a destination of element type `T` for
the path `path`: what the walk collects, with the zero value of `T` in the
place of every absent item. -/
def collected (T : GoType) (path : String) (body : Option JSON) : List Val :=
  match collect (unmarshal (buildType T (splitKey path)) body).1 (splitKey path) with
  | .ok items => items.map (fun item => if item.IsValid then item else zeroValue T)
  | .error _ => []

/-- The caller's variables after the pairs of `dest` have been filled from each of
the bodies in turn. -/
def bindPages (dest : List Arg) (bodies : List (Option JSON)) (mem : List Cell) : List Cell :=
  bodies.foldl (fun mem body => (arrangePairs body dest mem).1) mem

/-- The `int` that a response binds to a counter destination through the
one-key path `key`: the member decoded as an `int`, and 0 when the member is
missing or is not an integer. -/
def counterOf (body : Option JSON) (key : String) : Int :=
  match body with
  | none => 0
  | some j =>
    match j.member key with
    | some j' => (decode .int j').1.toInt
    | none => 0

/-- The cells of the three locals of `GetAll` holding `a`, `b` and `c`. -/
def localCells (a b c : Int) : List Cell :=
  [⟨.int, .int a⟩, ⟨.int, .int b⟩, ⟨.int, .int c⟩]

/-- The request of the round of `GetAll` that starts with `currentPage = a`. -/
def pageRequest (w : World) (client : Client) (n : Nat) (params : Values) (a : Int) : Values :=
  requestParams w client n (merge params [Page (wrapInt (a + 1)) []])

/-- The response `body` is a document whose member `key` is the integer `n`. -/
def Reports (body : Option JSON) (key : String) (n : Int) : Prop :=
  ∃ j, body = some j ∧ j.member key = some (.num n)

/-- All pointers of `dest` address one of the first `n` variables. -/
def ValidDest (n : Nat) (dest : List Arg) : Prop :=
  ∀ i, Arg.ptr i ∈ dest → i < n

/-- A world in which only the transport matters. -/
def worldOf (transport : Nat → Values → Exchange) : World where
  timestamp := fun _ => "2024-05-01T08:00:00Z"
  nonce := fun _ => "Zk3"
  hmacSha1 := fun _ _ => "c2lnbmF0dXJl"
  transport := transport
  unmarshalInto := fun _ cell => (cell, false)
  intOfFloat := fun _ => -(2 : Int) ^ 63

/-- The client of the examples. -/
def testClient : Client :=
  ⟨"LTAI4Fexample", "s3cr3t"⟩

/-- One page of a listing of seven domains in pages of three. -/
def listingDoc (page : Int) (names : List String) : JSON :=
  .obj [("RequestId", .str "F2A1"), ("TotalCount", .num 7), ("PageSize", .num 3),
    ("PageNumber", .num page),
    ("Domains", .obj [("Domain", .arr (names.map (fun d => .obj [("DomainName", .str d)])))])]

/-- The body a server holding seven domains sends for the requested page. -/
def listingPage (page : String) : Option JSON :=
  if page = "1" then some (listingDoc 1 ["a.com", "b.com", "c.com"])
  else if page = "2" then some (listingDoc 2 ["d.com", "e.com", "f.com"])
  else some (listingDoc 3 ["g.com"])

/-- A server that answers every request with the page it asks for. -/
def listingWorld : World :=
  worldOf (fun _ ps => .response 200 (listingPage (ps.Get "PageNumber")))

/-- The destination list of `TestSign`: one slice of names. -/
def listingDest : List Arg :=
  [.ptr 0, .str "Domains.Domain.*.DomainName"]

/-- The caller's state before the listing: params that already name a page, and
a slice that already holds one name. -/
def listingStart : State :=
  ⟨[("Action", ["DescribeDomains"]), ("PageSize", ["3"]), ("PageNumber", ["9"])],
    [⟨.slice .string, .slice [.str "old.com"]⟩], []⟩

/-- The state in which the listing against `listingWorld` ends. -/
def listingEnd : State :=
  ((GetAll listingWorld testClient listingDest 4 listingStart).map Prod.fst).getD listingStart

/-- An error envelope, as the service sends it for an unknown access key. -/
def errorDoc : JSON :=
  .obj [("RequestId", .str "0A3F"), ("HostId", .str "alidns.aliyuncs.com"),
    ("Code", .str "InvalidAccessKeyId.NotFound"),
    ("Message", .str "Specified access key is not found.")]

/-- A server that answers every request with the error envelope and status 200. -/
def errorWorld : World :=
  worldOf (fun _ _ => .response 200 (some errorDoc))

/-- A response whose `RecordId` is a number where a string is expected. -/
def mismatchDoc : JSON :=
  .obj [("RequestId", .str "77C1"), ("RecordId", .num 5)]

/-- An empty listing that leaves the pagination counters out. -/
def emptyDoc : JSON :=
  .obj [("RequestId", .str "B0D2"), ("Domains", .obj [("Domain", .arr [])])]

/-- The document of the scenario of the specification. -/
def domainsDoc : JSON :=
  .obj [("Domains", .obj [("Domain",
    .arr [.obj [("DomainName", .str "a.com")], .obj [("DomainName", .str "b.com")]])])]

/-- A response with a top-level `RecordId` and a nested counter. -/
def recordDoc : JSON :=
  .obj [("RequestId", .str "536E9CAD"), ("RecordId", .str "9999"),
    ("Paging", .obj [("Page", .obj [("Number", .num 2)])])]

/-- A listing in which the second of three entries has no `DomainName`. -/
def gappedDoc : JSON :=
  .obj [("Domains", .obj [("Domain",
    .arr [.obj [("DomainName", .str "a.com")], .obj [("RR", .str "www")],
      .obj [("DomainName", .str "c.com")]])])]

/-- The path `p` with its empty segments deleted: the remaining segments joined by
dots. -/
def deleteEmpty (p : String) : String :=
  pathString ((splitKey p).filter (fun k => k ≠ ""))

/-- A document with the member chain `a.b`. -/
def chainDoc : JSON :=
  .obj [("a", .obj [("b", .str "v")]), ("c", .num 1)]

/-- The zero value that `arrange` puts in the place of an absent item. -/
def orZero (T : GoType) (item : Val) : Val :=
  if item.IsValid then item else zeroValue T

/-- Function `GetDomains` (alidns.go:48). -/
def GetDomains (values : List Values) : Values :=
  let params : Values := []
  let params := params.Set "Action" "DescribeDomains"
  merge params values

/-- Function `GetDomainRecords` (alidns.go:55). -/
def GetDomainRecords (domainName : String) (values : List Values) : Values :=
  let params : Values := []
  let params := params.Set "Action" "DescribeDomainRecords"
  let params := params.Set "DomainName" domainName
  merge params values

/-- Function `GetDomainRecord` (alidns.go:63). -/
def GetDomainRecord (id : String) (values : List Values) : Values :=
  let params : Values := []
  let params := params.Set "Action" "DescribeDomainRecordInfo"
  let params := params.Set "RecordId" id
  merge params values

/-- Function `AddDomainRecord` (alidns.go:71). -/
def AddDomainRecord (record domainName typeValue value : String) (values : List Values) :
    Values :=
  let params : Values := []
  let params := params.Set "Action" "AddDomainRecord"
  let params := params.Set "RR" record
  let params := params.Set "DomainName" domainName
  let params := params.Set "Type" typeValue
  let params := params.Set "Value" value
  merge params values

/-- Function `UpdateDomainRecord` (alidns.go:82). -/
def UpdateDomainRecord (id record typeValue value : String) (values : List Values) : Values :=
  let params : Values := []
  let params := params.Set "Action" "UpdateDomainRecord"
  let params := params.Set "RecordId" id
  let params := params.Set "RR" record
  let params := params.Set "Type" typeValue
  let params := params.Set "Value" value
  merge params values

/-- Function `DeleteDomainRecord` (alidns.go:93). -/
def DeleteDomainRecord (id : String) (values : List Values) : Values :=
  let params : Values := []
  let params := params.Set "Action" "DeleteDomainRecord"
  let params := params.Set "RecordId" id
  merge params values

/-- Whether `key` is a key of the map `v`. -/
def Values.hasKey (v : Values) (key : String) : Bool :=
  (v.lookup key).isSome

/-- No overlay of `values` has the key `key`. -/
def Untouched (values : List Values) (key : String) : Prop :=
  ∀ v ∈ values, v.hasKey key = false

instance (values : List Values) (key : String) : Decidable (Untouched values key) := by
  unfold Untouched; infer_instance

/-- The order in which `sort.Strings` leaves two keys. -/
def keyLe (a b : String) : Prop :=
  charsLe a.data b.data = true

instance : DecidableRel keyLe :=
  fun a b => inferInstanceAs (Decidable (charsLe a.data b.data = true))

/-- The strict order of keys. -/
def keyLt (a b : String) : Prop :=
  keyLe a b ∧ a ≠ b

/-- The entry of the key `key` in the canonical query string of `params`. -/
def queryEntry (params : Values) (key : String) : String :=
  urlEncode key ++ "=" ++ urlEncode (params.Get key)

/-- Whether the value `x` is a well-formed instance of the type `t`. -/
def hasType : GoType → Val → Bool
  | .string, .str _ => true
  | .int, .int n => inIntRange n
  | .bool, .bool _ => true
  | .slice e, .slice items => items.all (fun item => hasType e item)
  | .map e, .map entries => entries.all (fun entry => hasType e entry.2)
  | _, _ => false

/-- Whether every literal key of the path `keys` is present wherever the walk
from `x` looks it up. -/
def keysPresent : List String → Val → Bool
  | [], _ => true
  | key :: k, x =>
    if key = "*" then
      match x with
      | .slice items => items.all (fun item => keysPresent k item)
      | _ => true
    else if key ≠ "" then
      match x with
      | .map entries =>
        match entries.lookup key with
        | some v => keysPresent k v
        | none => false
      | _ => false
    else keysPresent k x

/-- The value reached from `x` by looking up the keys `keys` one after the other,
when every one of them is found. -/
def Val.walk : Val → List String → Option Val
  | x, [] => some x
  | .map entries, key :: k =>
    match entries.lookup key with
    | some v => v.walk k
    | none => none
  | _, _ :: _ => none

/-- A document with an array of objects that each hold an array. -/
def nestedDoc : JSON :=
  .obj [("a", .arr [.obj [("b", .arr [.num 1, .num 2])], .obj [("b", .arr [])],
    .obj [("b", .arr [.num 3])]])]

/-- A page of the listing of seven domains whose `PageNumber` is left out. -/
def noPageDoc : JSON :=
  .obj [("RequestId", .str "9C41"), ("TotalCount", .num 7), ("PageSize", .num 3),
    ("Domains", .obj [("Domain", .arr [.obj [("DomainName", .str "a.com")]])])]

/-- A server that answers every request with `noPageDoc`. -/
def noPageWorld : World :=
  worldOf (fun _ _ => .response 200 (some noPageDoc))

/-- A destination list of three entries: the trailing sink has no path. -/
def unpairedDest : List Arg :=
  [.ptr 0, .str "Domains.Domain.*.DomainName", .ptr 0]

/-- One page of a listing whose counters are beyond the 53 binary digits that a
`float64` keeps: `TotalCount = 2 ^ 53 + 1`, `PageSize = 2 ^ 53`. -/
def hugeDoc (page : Int) (names : List String) : JSON :=
  .obj [("RequestId", .str "5D07"), ("TotalCount", .num (2 ^ 53 + 1)),
    ("PageSize", .num (2 ^ 53)), ("PageNumber", .num page),
    ("Domains", .obj [("Domain", .arr (names.map (fun d => .obj [("DomainName", .str d)])))])]

/-- The body the server of that listing sends for the requested page. -/
def hugePage (page : String) : Option JSON :=
  if page = "1" then some (hugeDoc 1 ["a.com"]) else some (hugeDoc 2 ["z.com"])

/-- A server that answers every request with the page it asks for. -/
def hugeWorld : World :=
  worldOf (fun _ ps => .response 200 (hugePage (ps.Get "PageNumber")))

/-- The request that the loop of `GetAll` (alidns.go:122-131) sends in its round
`k + 1`: the loop is followed through `k` rounds that each end with a
successful `Get` and go on, and the request of the next round is returned.
There is none when the loop has ended before. -/
def nextRequestLoop (w : World) (client : Client) (dest : List Arg) (base : Nat) :
    Nat → Int → State → Option Values
  | 0, totalPages, s =>
    let currentPage := (s.mem[base]?.map (fun c => c.val.toInt)).getD 0
    if currentPage < totalPages then
      some (requestParams w client s.requests.length
        (merge s.params [Page (wrapInt (currentPage + 1)) []]))
    else none
  | k + 1, totalPages, s =>
    let currentPage := (s.mem[base]?.map (fun c => c.val.toInt)).getD 0
    if currentPage < totalPages then
      let s := { s with params := merge s.params [Page (wrapInt (currentPage + 1)) []] }
      match Get w client dest s with
      | (s, .ok) =>
        let totalCount := (s.mem[base + 1]?.map (fun c => c.val.toInt)).getD 0
        let pageSize := (s.mem[base + 2]?.map (fun c => c.val.toInt)).getD 0
        if totalCount = 0 ∨ pageSize = 0 then none
        else nextRequestLoop w client dest base k (ceilDiv w.intOfFloat totalCount pageSize) s
      | _ => none
    else none

/-- The request that `GetAll` sends in its round `k + 1`, if it gets there. -/
def nextRequest (w : World) (client : Client) (dest : List Arg) (k : Nat) (s : State) :
    Option Values :=
  match dest with
  | [_] => none
  | _ =>
    let base := s.mem.length
    let locals : List Cell := [⟨.int, .int 0⟩, ⟨.int, .int 0⟩, ⟨.int, .int 0⟩]
    nextRequestLoop w client (dest ++ localArgs base) base k 1 { s with mem := s.mem ++ locals }

/-- The listing server, out of order for page 2 and for nothing else. -/
def pageTwoDownWorld : World :=
  worldOf (fun _ ps =>
    if ps.Get "PageNumber" = "2" then .response 503 none
    else .response 200 (listingPage (ps.Get "PageNumber")))

/-! # Theorems -/

theorem lookup_setMapIndex (m : List (String × Val)) (k k' : String) (v : Val) :
    (setMapIndex m k' v).lookup k = if k = k' then some v else m.lookup k := by
  induction m with
  | nil =>
    by_cases h : k = k'
    · simp [setMapIndex, List.lookup, h]
    · have : (k == k') = false := by simpa using h
      simp [setMapIndex, List.lookup, h, this]
  | cons hd tl ih =>
    obtain ⟨a, b⟩ := hd
    by_cases h1 : a = k'
    · by_cases h : k = k'
      · simp [setMapIndex, h1, h, List.lookup]
      · have : (k == k') = false := by simpa using h
        simp [setMapIndex, h1, h, List.lookup, this]
    · by_cases h : k = k'
      · subst h
        have : (k == a) = false := by simpa using fun h' => h1 h'.symm
        simp [setMapIndex, h1, List.lookup, this, ih]
      · simp only [setMapIndex, h1, if_false, List.lookup, ih, h]

theorem lookup_foldl_setMapIndex (f : JSON → Val) (members : List (String × JSON)) (k : String) :
    ∀ m : List (String × Val),
      (members.foldl (fun m kv => setMapIndex m kv.1 (f kv.2)) m).lookup k =
        match members.reverse.lookup k with
        | some j => some (f j)
        | none => m.lookup k := by
  induction members with
  | nil => intro m; simp [List.lookup]
  | cons hd tl ih =>
    intro m
    obtain ⟨a, j⟩ := hd
    simp only [List.foldl_cons, ih, List.reverse_cons]
    rw [List.lookup_append]
    cases h : List.lookup k tl.reverse with
    | some j' => simp
    | none =>
      simp only [Option.none_or, lookup_setMapIndex]
      by_cases hk : k = a
      · subst hk; simp [List.lookup]
      · have : (k == a) = false := by simpa using hk
        simp [List.lookup, hk, this]

theorem splitDots_literal (cs : List Char) (h : '.' ∉ cs) (rest cur : List Char) :
    splitDots (cs ++ rest) cur = splitDots rest (cs.reverse ++ cur) := by
  induction cs generalizing cur with
  | nil => simp
  | cons c cs ih =>
    have hc : c ≠ '.' := fun e => h (by simp [e])
    have hcs : '.' ∉ cs := fun e => h (by simp [e])
    simp [splitDots, hc, ih hcs]

theorem splitDots_joinDots (keys : List String) (hne : keys ≠ [])
    (h : ∀ k ∈ keys, '.' ∉ k.data) : splitDots (joinDots keys) [] = keys := by
  induction keys with
  | nil => exact absurd rfl hne
  | cons k ks ih =>
    cases ks with
    | nil =>
      have := splitDots_literal k.data (h k (by simp)) [] []
      simp only [List.append_nil] at this
      simp [joinDots, this, splitDots]
    | cons k' ks' =>
      have h1 := splitDots_literal k.data (h k (by simp)) ('.' :: joinDots (k' :: ks')) []
      have h2 := ih (by simp) (fun x hx => h x (by simp [hx]))
      simp only [List.append_nil] at h1
      simp [joinDots, h1, splitDots, h2]

theorem splitKey_pathString (keys : List String) (hne : keys ≠ [])
    (h : ∀ k ∈ keys, '.' ∉ k.data) : splitKey (pathString keys) = keys := by
  simp [splitKey, pathString, splitDots_joinDots keys hne h]

theorem buildType_literal (T : GoType) (k : String) (ks : List String) (h : IsLiteral k) :
    buildType T (k :: ks) = .map (buildType T ks) := by
  simp [buildType, h.1, h.2.1]

theorem buildType_star (T : GoType) (ks : List String) :
    buildType T ("*" :: ks) = .slice (buildType T ks) := by
  simp [buildType]

theorem decode_map_obj (e : GoType) (members : List (String × JSON)) :
    (decode (.map e) (.obj members)).1 =
      .map (members.foldl (fun m kv => setMapIndex m kv.1 (decode e kv.2).1) []) := by
  simp [decode]

/-- Looking a key up in a decoded object gives the decoded member, or the zero
Value when the document has no such member (also when it is not an object). -/
theorem mapIndex_decode (e : GoType) (j : JSON) (k : String) :
    mapIndex (decode (.map e) j).1 k =
      .ok (match j.member k with
        | some j' => (decode e j').1
        | none => .invalid) := by
  cases j with
  | obj members =>
    rw [decode_map_obj]
    simp only [mapIndex, JSON.member]
    rw [lookup_foldl_setMapIndex (fun j => (decode e j).1)]
    cases List.lookup k members.reverse <;> simp [List.lookup]
  | _ => simp [decode, mapIndex, JSON.member, List.lookup]

theorem collect_literal_cons (x : Val) (k : String) (ks : List String) (h : IsLiteral k) :
    collect x (k :: ks) =
      match mapIndex x k with
      | .error e => .error e
      | .ok x' => collect x' ks := by
  simp only [collect, h.1, h.2.1, if_false, ne_eq, not_false_eq_true, if_true]

/-- Walking literal keys that the document has leads to the decoded member. -/
theorem collect_decode_path (T : GoType) (rest : List String) :
    ∀ (keys : List String) (doc j : JSON), (∀ k ∈ keys, IsLiteral k) → doc.path keys = some j →
      collect (decode (buildType T (keys ++ rest)) doc).1 (keys ++ rest) =
        collect (decode (buildType T rest) j).1 rest := by
  intro keys
  induction keys with
  | nil => intro doc j _ h; simp [JSON.path] at h; simp [h]
  | cons k ks ih =>
    intro doc j hlit h
    have hk := hlit k (by simp)
    simp only [JSON.path] at h
    cases hm : doc.member k with
    | none => simp [hm] at h
    | some j' =>
      simp only [hm, Option.some_bind] at h
      simp only [List.cons_append, buildType_literal _ _ _ hk, collect_literal_cons _ _ _ hk,
        mapIndex_decode, hm]
      exact ih j' j (fun x hx => hlit x (by simp [hx])) h

theorem decode_isValid (T : GoType) (j : JSON) : (decode T j).1.IsValid = true := by
  cases T <;> cases j <;> simp only [decode] <;> (try split) <;> rfl

theorem bind_scalar (T : GoType) (hT : ∀ e, T ≠ .slice e) (v item : Val)
    (hv : item.IsValid = true) : bind T (baseTypeOf T) v item = item := by
  cases T
  case slice e => exact absurd rfl (hT e)
  all_goals simp [bind, hv]

theorem bind_slice (T : GoType) (items : List Val) (item : Val) :
    bind (.slice T) T (.slice items) item =
      .slice (items ++ [if item.IsValid then item else zeroValue T]) := by
  cases h : item.IsValid <;> simp [bind, h]

theorem foldl_bind_slice (T : GoType) (new : List Val) :
    ∀ items : List Val, new.foldl (bind (.slice T) T) (.slice items) =
      .slice (items ++ new.map (fun item => if item.IsValid then item else zeroValue T)) := by
  induction new with
  | nil => intro items; simp
  | cons hd tl ih => intro items; simp [bind_slice, ih]

theorem appendAll_singletons (f : JSON → Val) (items : List JSON) :
    appendAll (items.map (fun e => (Except.ok [f e] : Except Panic (List Val)))) =
      .ok (items.map f) := by
  induction items with
  | nil => rfl
  | cons hd tl ih => simp only [List.map_cons, appendAll, ih]; rfl

theorem collect_nil (x : Val) : collect x [] = .ok [x] := by
  simp [collect]

theorem collect_star (x : Val) (k : List String) :
    collect x ("*" :: k) =
      match elements x with
      | .error e => .error e
      | .ok items => appendAll (items.map (fun item => collect item k)) := by
  simp only [collect, if_true]

theorem decode_slice_arr (e : GoType) (items : List JSON) :
    (decode (.slice e) (.arr items)).1 = .slice (items.map (fun j => (decode e j).1)) := by
  simp [decode]

/-! ## Pairs, responses and the pagination loop -/

theorem arrange_typ {data : Option JSON} {cell cell' : Cell} {key : String}
    (h : arrange data cell key = .ok cell') : cell'.typ = cell.typ := by
  unfold arrange at h
  simp only at h
  split at h
  · cases h
  · cases h; rfl

theorem arrangePairs_length (data : Option JSON) (dest : List Arg) (mem : List Cell) :
    (arrangePairs data dest mem).1.length = mem.length := by
  induction dest, mem using arrangePairs.induct data with
  | case1 target rest mem a => simp [arrangePairs]
  | case2 target rest mem T => simp [arrangePairs]
  | case3 rest mem k s => simp [arrangePairs]
  | case4 rest mem k T p h => simp [arrangePairs, h]
  | case5 rest mem k T h ih => simp [arrangePairs, h, ih]
  | case6 rest mem k i h => simp [arrangePairs, h]
  | case7 rest mem k i cell h e he => simp [arrangePairs, h, he]
  | case8 rest mem k i cell h cell' he ih => simp [arrangePairs, h, he, ih]
  | case9 dest mem h => 
    rw [arrangePairs]
    intro a b c hx
    exact absurd hx (by simpa using h a b c)

theorem arrangePairs_typ (data : Option JSON) (dest : List Arg) (mem : List Cell) :
    (arrangePairs data dest mem).1.map Cell.typ = mem.map Cell.typ := by
  induction dest, mem using arrangePairs.induct data with
  | case1 target rest mem a => simp [arrangePairs]
  | case2 target rest mem T => simp [arrangePairs]
  | case3 rest mem k s => simp [arrangePairs]
  | case4 rest mem k T p h => simp [arrangePairs, h]
  | case5 rest mem k T h ih => simp [arrangePairs, h, ih]
  | case6 rest mem k i h => simp [arrangePairs, h]
  | case7 rest mem k i cell h e he => simp [arrangePairs, h, he]
  | case8 rest mem k i cell h cell' he ih =>
    simp only [arrangePairs, h, he, ih]
    rw [List.map_set, arrange_typ he]
    apply List.ext_getElem? 
    intro j
    by_cases hj : i = j
    · subst hj
      rw [List.getElem?_set_self' ]
      simp [h]
    · rw [List.getElem?_set_ne hj]
  | case9 dest mem h =>
    rw [arrangePairs]
    intro a b c hx
    exact absurd hx (by simpa using h a b c)

/-- A variable that no pointer of `dest` addresses keeps its value. -/
theorem arrangePairs_frame (data : Option JSON) (j : Nat) (dest : List Arg) (mem : List Cell)
    (hj : Arg.ptr j ∉ dest) : (arrangePairs data dest mem).1[j]? = mem[j]? := by
  induction dest, mem using arrangePairs.induct data with
  | case1 target rest mem a => simp [arrangePairs]
  | case2 target rest mem T => simp [arrangePairs]
  | case3 rest mem k s => simp [arrangePairs]
  | case4 rest mem k T p h => simp [arrangePairs, h]
  | case5 rest mem k T h ih =>
    simp only [arrangePairs, h]
    exact ih (fun hx => hj (by simp [hx]))
  | case6 rest mem k i h => simp [arrangePairs, h]
  | case7 rest mem k i cell h e he => simp [arrangePairs, h, he]
  | case8 rest mem k i cell h cell' he ih =>
    simp only [arrangePairs, h, he]
    have hij : i ≠ j := by
      intro e; subst e; exact hj (by simp)
    rw [ih (fun hx => hj (by simp [hx])), List.getElem?_set_ne hij]
  | case9 dest mem h =>
    rw [arrangePairs]
    intro a b c hx
    exact absurd hx (by simpa using h a b c)

/-- Variables behind the ones `dest` addresses do not take part. -/
theorem arrangePairs_append_mem (data : Option JSON) (extra : List Cell) (dest : List Arg)
    (mem : List Cell) (hv : ValidDest mem.length dest) :
    arrangePairs data dest (mem ++ extra) =
      ((arrangePairs data dest mem).1 ++ extra, (arrangePairs data dest mem).2) := by
  induction dest, mem using arrangePairs.induct data with
  | case1 target rest mem a => simp [arrangePairs]
  | case2 target rest mem T => simp [arrangePairs]
  | case3 rest mem k s => simp [arrangePairs]
  | case4 rest mem k T p h => simp [arrangePairs, h]
  | case5 rest mem k T h ih =>
    have hv' : ValidDest mem.length rest := by
      intro x hx
      exact hv x (by simp [hx])
    simp only [arrangePairs, h]
    exact ih hv'
  | case6 rest mem k i h =>
    have := hv i (by simp)
    have := List.getElem?_eq_none_iff.mp h
    omega
  | case7 rest mem k i cell h e he =>
    have hi := hv i (by simp)
    simp [arrangePairs, h, he, List.getElem?_append_left hi]
  | case8 rest mem k i cell h cell' he ih =>
    have hi := hv i (by simp)
    have hv' : ValidDest (mem.set i cell').length rest := by
      intro x hx
      simpa using hv x (by simp [hx])
    simp only [arrangePairs, h, he, List.getElem?_append_left hi]
    rw [← ih hv', List.set_append_left _ _ hi]
  | case9 dest mem h =>
    rw [arrangePairs, arrangePairs]
    · intro a b c hx
      exact absurd hx (by simpa using h a b c)
    · intro a b c hx
      exact absurd hx (by simpa using h a b c)

/-- The pairs of an even `dest` are visited before anything appended to it. -/
theorem arrangePairs_append (data : Option JSON) (extra : List Arg) (dest : List Arg)
    (mem : List Cell) (he : dest.length % 2 = 0) :
    arrangePairs data (dest ++ extra) mem =
      match arrangePairs data dest mem with
      | (mem', some p) => (mem', some p)
      | (mem', none) => arrangePairs data extra mem' := by
  induction dest, mem using arrangePairs.induct data with
  | case1 target rest mem a => simp [arrangePairs]
  | case2 target rest mem T => simp [arrangePairs]
  | case3 rest mem k s => simp [arrangePairs]
  | case4 rest mem k T p h => simp [arrangePairs, h]
  | case5 rest mem k T h ih =>
    have : rest.length % 2 = 0 := by
      simp only [List.length_cons] at he; omega
    simp only [List.cons_append, arrangePairs, h]
    exact ih this
  | case6 rest mem k i h => simp [arrangePairs, h]
  | case7 rest mem k i cell h e he' => simp [arrangePairs, h, he']
  | case8 rest mem k i cell h cell' he' ih =>
    have : rest.length % 2 = 0 := by
      simp only [List.length_cons] at he; omega
    simp only [List.cons_append, arrangePairs, h, he']
    exact ih this
  | case9 dest mem h =>
    match dest, h, he with
    | [], _, _ => simp [arrangePairs]
    | [_], _, he => simp at he
    | a :: b :: c, h, _ => exact absurd rfl (h a b c)

theorem decode_int_val (j : JSON) : (decode .int j).1 = .int (decode .int j).1.toInt := by
  cases j <;> simp only [decode] <;> (try split) <;> rfl

theorem splitKey_literal (key : String) (hk : IsLiteral key) : splitKey key = [key] := by
  have := splitKey_pathString [key] (by simp) (by simpa using hk.2.2)
  simpa [pathString, joinDots] using this

/-- A one-key path into an `int` never panics: it binds the counter. -/
theorem arrange_counter (body : Option JSON) (v : Val) (key : String) (hk : IsLiteral key) :
    arrange body ⟨.int, v⟩ key = .ok ⟨.int, .int (counterOf body key)⟩ := by
  unfold arrange
  simp only [splitKey_literal key hk, baseTypeOf, buildType_literal _ _ _ hk,
    collect_literal_cons _ _ _ hk]
  cases body with
  | none =>
    simp [unmarshal, zeroValue, mapIndex, List.lookup, collect_nil, bind, Val.IsValid, counterOf]
  | some j =>
    simp only [unmarshal, mapIndex_decode, counterOf]
    cases j.member key with
    | none => simp [collect_nil, bind, Val.IsValid, zeroValue]
    | some j' =>
      have hv := decode_isValid .int j'
      simp only [buildType, List.foldr_nil, collect_nil, List.foldl_cons, List.foldl_nil, bind, hv]
      simp [← decode_int_val]

theorem getElem?_loc0 (m : List Cell) (x y z : Cell) : (m ++ [x, y, z])[m.length]? = some x := by
  rw [List.getElem?_append_right (le_refl _)]
  simp

theorem getElem?_loc1 (m : List Cell) (x y z : Cell) :
    (m ++ [x, y, z])[m.length + 1]? = some y := by
  rw [List.getElem?_append_right (by omega)]
  simp

theorem getElem?_loc2 (m : List Cell) (x y z : Cell) :
    (m ++ [x, y, z])[m.length + 2]? = some z := by
  rw [List.getElem?_append_right (by omega)]
  simp

theorem set_loc0 (m : List Cell) (x y z v : Cell) :
    (m ++ [x, y, z]).set m.length v = m ++ [v, y, z] := by
  rw [List.set_append_right _ _ (by omega)]
  simp

theorem set_loc1 (m : List Cell) (x y z v : Cell) :
    (m ++ [x, y, z]).set (m.length + 1) v = m ++ [x, v, z] := by
  rw [List.set_append_right _ _ (by omega)]
  simp

theorem set_loc2 (m : List Cell) (x y z v : Cell) :
    (m ++ [x, y, z]).set (m.length + 2) v = m ++ [x, y, v] := by
  rw [List.set_append_right _ _ (by omega)]
  simp

/-- The three cells of the locals of `GetAll` after the counter pairs. -/
theorem arrangePairs_localArgs (body : Option JSON) (m : List Cell) (a b c : Val) :
    arrangePairs body (localArgs m.length) (m ++ [⟨.int, a⟩, ⟨.int, b⟩, ⟨.int, c⟩]) =
      (m ++ [⟨.int, .int (counterOf body "PageNumber")⟩,
        ⟨.int, .int (counterOf body "TotalCount")⟩,
        ⟨.int, .int (counterOf body "PageSize")⟩], none) := by
  have h1 : IsLiteral "PageNumber" := by decide
  have h2 : IsLiteral "TotalCount" := by decide
  have h3 : IsLiteral "PageSize" := by decide
  simp only [localArgs, arrangePairs, getElem?_loc0, arrange_counter _ _ _ h1, set_loc0,
    getElem?_loc1, arrange_counter _ _ _ h2, set_loc1, getElem?_loc2,
    arrange_counter _ _ _ h3, set_loc2]

theorem handleResponse_pairs (w : World) (body : Option JSON) (dest : List Arg)
    (mem : List Cell) (hlen : 2 ≤ dest.length) (hcode : (decodeEnvelope body).Code = "") :
    handleResponse w 200 body dest mem =
      ((arrangePairs body dest mem).1, Outcome.ofPanic (arrangePairs body dest mem).2) := by
  match dest, hlen with
  | x :: y :: rest, _ => simp [handleResponse, hcode]

theorem handleResponse_failure (w : World) (status : Int) (body : Option JSON) (dest : List Arg)
    (mem : List Cell) (e : GoError) (h : (Exchange.response status body).failure = some e) :
    handleResponse w status body dest mem = (mem, .error e) := by
  simp only [Exchange.failure] at h
  simp only [handleResponse]
  by_cases hc : (decodeEnvelope body).Code ≠ ""
  · rw [if_pos hc] at h
    simp only [Option.some.injEq] at h
    simp only [if_pos hc, h]
  · by_cases hs : status ≠ 200
    · rw [if_neg hc, if_pos hs] at h
      simp only [Option.some.injEq] at h
      simp only [if_neg hc, if_pos hs, h]
    · simp [hc, hs] at h

theorem failure_none {status : Int} {body : Option JSON}
    (h : (Exchange.response status body).failure = none) :
    status = 200 ∧ (decodeEnvelope body).Code = "" := by
  simp only [Exchange.failure] at h
  by_cases hc : (decodeEnvelope body).Code ≠ ""
  · simp [hc] at h
  · by_cases hs : status ≠ 200
    · simp [hc, hs] at h
    · exact ⟨not_not.mp hs, not_not.mp hc⟩

theorem Get_failure (w : World) (client : Client) (dest : List Arg) (s : State) (e : GoError)
    (h : (w.transport s.requests.length
      (requestParams w client s.requests.length s.params)).failure = some e) :
    Get w client dest s =
      (⟨requestParams w client s.requests.length s.params, s.mem,
        s.requests ++ [requestParams w client s.requests.length s.params]⟩, .error e) := by
  cases hex : w.transport s.requests.length (requestParams w client s.requests.length s.params) with
  | failed msg =>
    rw [hex] at h
    simp only [Exchange.failure, Option.some.injEq] at h
    simp only [Get, hex, h]
  | response status body =>
    rw [hex] at h
    simp only [Get, hex, handleResponse_failure w status body dest s.mem e h]

theorem Get_locals (w : World) (client : Client) (dest : List Arg) (s : State) (m : List Cell)
    (a b c : Val) (hmem : s.mem = m ++ [⟨.int, a⟩, ⟨.int, b⟩, ⟨.int, c⟩])
    (he : dest.length % 2 = 0) (hv : ValidDest m.length dest)
    (h : (w.transport s.requests.length
      (requestParams w client s.requests.length s.params)).failure = none) :
    Get w client (dest ++ localArgs m.length) s =
      (⟨requestParams w client s.requests.length s.params,
        (arrangePairs (w.transport s.requests.length
            (requestParams w client s.requests.length s.params)).body dest m).1 ++
          (if (arrangePairs (w.transport s.requests.length
              (requestParams w client s.requests.length s.params)).body dest m).2 = none then
            [⟨.int, .int (counterOf (w.transport s.requests.length
                (requestParams w client s.requests.length s.params)).body "PageNumber")⟩,
              ⟨.int, .int (counterOf (w.transport s.requests.length
                (requestParams w client s.requests.length s.params)).body "TotalCount")⟩,
              ⟨.int, .int (counterOf (w.transport s.requests.length
                (requestParams w client s.requests.length s.params)).body "PageSize")⟩]
          else [⟨.int, a⟩, ⟨.int, b⟩, ⟨.int, c⟩]),
        s.requests ++ [requestParams w client s.requests.length s.params]⟩,
        Outcome.ofPanic (arrangePairs (w.transport s.requests.length
          (requestParams w client s.requests.length s.params)).body dest m).2) := by
  cases hex : w.transport s.requests.length (requestParams w client s.requests.length s.params) with
  | failed msg =>
    rw [hex] at h
    simp [Exchange.failure] at h
  | response status body =>
    rw [hex] at h
    obtain ⟨hs, hc⟩ := failure_none h
    subst hs
    have hlen : 2 ≤ (dest ++ localArgs m.length).length := by
      simp [localArgs]
    simp only [Get, hex, handleResponse_pairs w body _ _ hlen hc, Exchange.body, hmem]
    rw [arrangePairs_append _ _ _ _ he, arrangePairs_append_mem _ _ _ _ hv]
    cases hr : (arrangePairs body dest m).2 with
    | some p => simp [Outcome.ofPanic]
    | none =>
      have hl := arrangePairs_length body dest m
      simp only
      rw [← hl, arrangePairs_localArgs]
      simp [Outcome.ofPanic]

theorem currentPage_read (m : List Cell) (n : Nat) (hn : m.length = n) (a b c : Int) :
    ((m ++ localCells a b c)[n]?.map (fun cell => cell.val.toInt)).getD 0 = a := by
  subst hn
  rw [localCells, getElem?_loc0]
  rfl

theorem totalCount_read (m : List Cell) (n : Nat) (hn : m.length = n) (a b c : Int) :
    ((m ++ localCells a b c)[n + 1]?.map (fun cell => cell.val.toInt)).getD 0 = b := by
  subst hn
  rw [localCells, getElem?_loc1]
  rfl

theorem pageSize_read (m : List Cell) (n : Nat) (hn : m.length = n) (a b c : Int) :
    ((m ++ localCells a b c)[n + 2]?.map (fun cell => cell.val.toInt)).getD 0 = c := by
  subst hn
  rw [localCells, getElem?_loc2]
  rfl

theorem loop_exit (w : World) (client : Client) (dest : List Arg) (fuel : Nat) (tp : Int)
    (params : Values) (m : List Cell) (a b c : Int) (reqs : List Values) (h : ¬ a < tp) :
    getAllLoop w client dest m.length fuel tp ⟨params, m ++ localCells a b c, reqs⟩ =
      some (⟨params, m ++ localCells a b c, reqs⟩, .ok) := by
  cases fuel <;> simp only [getAllLoop, currentPage_read m _ rfl, if_neg h]

theorem loop_stalled (w : World) (client : Client) (dest : List Arg) (tp : Int)
    (params : Values) (m : List Cell) (a b c : Int) (reqs : List Values) (h : a < tp) :
    getAllLoop w client dest m.length 0 tp ⟨params, m ++ localCells a b c, reqs⟩ = none := by
  simp only [getAllLoop, currentPage_read m _ rfl, if_pos h]

theorem loop_fail (w : World) (client : Client) (dest : List Arg) (fuel : Nat) (tp : Int)
    (params : Values) (m : List Cell) (a b c : Int) (reqs : List Values) (e : GoError)
    (h : a < tp)
    (hf : (w.transport reqs.length (pageRequest w client reqs.length params a)).failure =
      some e) :
    getAllLoop w client dest m.length (fuel + 1) tp ⟨params, m ++ localCells a b c, reqs⟩ =
      some (⟨pageRequest w client reqs.length params a, m ++ localCells a b c,
        reqs ++ [pageRequest w client reqs.length params a]⟩, .error e) := by
  simp only [getAllLoop, currentPage_read m _ rfl, if_pos h]
  rw [Get_failure w client dest _ e (by simpa [pageRequest] using hf)]
  simp [pageRequest]

theorem loop_panic (w : World) (client : Client) (dest : List Arg) (fuel : Nat) (tp : Int)
    (params : Values) (m : List Cell) (a b c : Int) (reqs : List Values) (p : Panic)
    (he : dest.length % 2 = 0) (hv : ValidDest m.length dest) (h : a < tp)
    (hf : (w.transport reqs.length (pageRequest w client reqs.length params a)).failure = none)
    (hp : (arrangePairs (w.transport reqs.length
      (pageRequest w client reqs.length params a)).body dest m).2 = some p) :
    getAllLoop w client (dest ++ localArgs m.length) m.length (fuel + 1) tp
        ⟨params, m ++ localCells a b c, reqs⟩ =
      some (⟨pageRequest w client reqs.length params a,
        (arrangePairs (w.transport reqs.length
          (pageRequest w client reqs.length params a)).body dest m).1 ++ localCells a b c,
        reqs ++ [pageRequest w client reqs.length params a]⟩, .panic p) := by
  simp only [getAllLoop, currentPage_read m _ rfl, if_pos h]
  rw [Get_locals w client dest _ m (.int a) (.int b) (.int c) rfl he hv
    (by simpa [pageRequest] using hf)]
  simp only [pageRequest] at hp
  simp [pageRequest, hp, Outcome.ofPanic, localCells]

theorem loop_page (w : World) (client : Client) (dest : List Arg) (fuel : Nat) (tp : Int)
    (params : Values) (m : List Cell) (a b c : Int) (reqs : List Values)
    (he : dest.length % 2 = 0) (hv : ValidDest m.length dest) (h : a < tp)
    (hf : (w.transport reqs.length (pageRequest w client reqs.length params a)).failure = none)
    (hp : (arrangePairs (w.transport reqs.length
      (pageRequest w client reqs.length params a)).body dest m).2 = none) :
    getAllLoop w client (dest ++ localArgs m.length) m.length (fuel + 1) tp
        ⟨params, m ++ localCells a b c, reqs⟩ =
      if counterOf (w.transport reqs.length
            (pageRequest w client reqs.length params a)).body "TotalCount" = 0 ∨
          counterOf (w.transport reqs.length
            (pageRequest w client reqs.length params a)).body "PageSize" = 0 then
        some (⟨pageRequest w client reqs.length params a,
          (arrangePairs (w.transport reqs.length
            (pageRequest w client reqs.length params a)).body dest m).1 ++
            localCells
              (counterOf (w.transport reqs.length
                (pageRequest w client reqs.length params a)).body "PageNumber")
              (counterOf (w.transport reqs.length
                (pageRequest w client reqs.length params a)).body "TotalCount")
              (counterOf (w.transport reqs.length
                (pageRequest w client reqs.length params a)).body "PageSize"),
          reqs ++ [pageRequest w client reqs.length params a]⟩, .ok)
      else
        getAllLoop w client (dest ++ localArgs m.length) m.length fuel
          (ceilDiv w.intOfFloat
            (counterOf (w.transport reqs.length
              (pageRequest w client reqs.length params a)).body "TotalCount")
            (counterOf (w.transport reqs.length
              (pageRequest w client reqs.length params a)).body "PageSize"))
          ⟨pageRequest w client reqs.length params a,
            (arrangePairs (w.transport reqs.length
              (pageRequest w client reqs.length params a)).body dest m).1 ++
              localCells
                (counterOf (w.transport reqs.length
                  (pageRequest w client reqs.length params a)).body "PageNumber")
                (counterOf (w.transport reqs.length
                  (pageRequest w client reqs.length params a)).body "TotalCount")
                (counterOf (w.transport reqs.length
                  (pageRequest w client reqs.length params a)).body "PageSize"),
            reqs ++ [pageRequest w client reqs.length params a]⟩ := by
  simp only [getAllLoop, currentPage_read m _ rfl, if_pos h]
  rw [Get_locals w client dest _ m (.int a) (.int b) (.int c) rfl he hv
    (by simpa [pageRequest] using hf)]
  simp only [pageRequest] at hp
  have hl := arrangePairs_length
    (w.transport reqs.length (requestParams w client reqs.length
      (merge params [Page (wrapInt (a + 1)) []]))).body dest m
  simp only [pageRequest, hp, Outcome.ofPanic, if_true]
  rw [← localCells, totalCount_read _ _ hl, pageSize_read _ _ hl]

theorem bindPages_cons (dest : List Arg) (body : Option JSON) (bodies : List (Option JSON))
    (m : List Cell) :
    bindPages dest (body :: bodies) m = bindPages dest bodies (arrangePairs body dest m).1 := by
  simp [bindPages]

/-- What a finished run of the loop has done, read off the requests it sent. -/
theorem loop_trace (w : World) (client : Client) (dest : List Arg) (he : dest.length % 2 = 0)
    (base : Nat) (hv : ValidDest base dest) :
    ∀ (fuel : Nat) (tp : Int) (params : Values) (m : List Cell) (a b c : Int)
      (reqs : List Values) (s' : State) (out : Outcome), m.length = base →
      getAllLoop w client (dest ++ localArgs base) base fuel tp
        ⟨params, m ++ localCells a b c, reqs⟩ = some (s', out) →
      ∃ (new : List Values) (m' : List Cell) (a' b' c' : Int),
        s'.requests = reqs ++ new ∧ s'.mem = m' ++ localCells a' b' c' ∧ m'.length = base ∧
        (out = .ok →
          (∀ ex ∈ exchanges w reqs.length new, ex.failure = none) ∧
          m' = bindPages dest ((exchanges w reqs.length new).map Exchange.body) m) ∧
        (∀ e, out = .error e →
          ∃ pre last, new = pre ++ [last] ∧
            (∀ ex ∈ exchanges w reqs.length pre, ex.failure = none) ∧
            (w.transport (reqs.length + pre.length) last).failure = some e ∧
            m' = bindPages dest ((exchanges w reqs.length pre).map Exchange.body) m) := by
  intro fuel
  induction fuel with
  | zero =>
    intro tp params m a b c reqs s' out hm h
    subst hm
    by_cases hlt : a < tp
    · rw [loop_stalled w client _ tp params m a b c reqs hlt] at h
      cases h
    · rw [loop_exit w client _ 0 tp params m a b c reqs hlt] at h
      simp only [Option.some.injEq, Prod.mk.injEq] at h
      obtain ⟨hs, ho⟩ := h
      subst hs ho
      refine ⟨[], m, a, b, c, by simp, rfl, rfl, ?_, ?_⟩
      · intro _; simp [exchanges, bindPages]
      · intro e' he'; cases he'
  | succ fuel ih =>
    intro tp params m a b c reqs s' out hm h
    subst hm
    by_cases hlt : a < tp
    · cases hf : (w.transport reqs.length (pageRequest w client reqs.length params a)).failure with
      | some e =>
        rw [loop_fail w client _ fuel tp params m a b c reqs e hlt hf] at h
        simp only [Option.some.injEq, Prod.mk.injEq] at h
        obtain ⟨hs, ho⟩ := h
        subst hs ho
        refine ⟨[pageRequest w client reqs.length params a], m, a, b, c, rfl, rfl, rfl, ?_, ?_⟩
        · intro hc; cases hc
        · intro e' he'
          cases he'
          exact ⟨[], _, rfl, by simp [exchanges], by simpa using hf, by simp [exchanges, bindPages]⟩
      | none =>
        cases hp : (arrangePairs (w.transport reqs.length
            (pageRequest w client reqs.length params a)).body dest m).2 with
        | some p =>
          rw [loop_panic w client dest fuel tp params m a b c reqs p he hv hlt hf hp] at h
          simp only [Option.some.injEq, Prod.mk.injEq] at h
          obtain ⟨hs, ho⟩ := h
          subst hs ho
          refine ⟨[pageRequest w client reqs.length params a], _, a, b, c, rfl, rfl,
            arrangePairs_length _ _ _, ?_, ?_⟩
          · intro hc; cases hc
          · intro e' he'; cases he'
        | none =>
          rw [loop_page w client dest fuel tp params m a b c reqs he hv hlt hf hp] at h
          have hl := arrangePairs_length (w.transport reqs.length
            (pageRequest w client reqs.length params a)).body dest m
          split at h
          · simp only [Option.some.injEq, Prod.mk.injEq] at h
            obtain ⟨hs, ho⟩ := h
            subst hs ho
            refine ⟨[pageRequest w client reqs.length params a], _, _, _, _, rfl, rfl, hl, ?_, ?_⟩
            · intro _
              refine ⟨?_, ?_⟩
              · intro ex hex
                simp only [exchanges, List.mem_singleton] at hex
                subst hex
                exact hf
              · simp [exchanges, bindPages]
            · intro e' he'; cases he'
          · obtain ⟨new, m', a', b', c', hreq, hmem, hlen, hok, herr⟩ :=
              ih _ _ _ _ _ _ _ s' out hl h
            refine ⟨pageRequest w client reqs.length params a :: new, m', a', b', c',
              by simp [hreq], hmem, hlen, ?_, ?_⟩
            · intro ho
              obtain ⟨h1, h2⟩ := hok ho
              simp only [List.length_append, List.length_singleton] at h1 h2
              refine ⟨?_, ?_⟩
              · intro ex hex
                simp only [exchanges, List.mem_cons] at hex
                rcases hex with hex | hex
                · subst hex; exact hf
                · exact h1 ex hex
              · simp only [exchanges, List.map_cons, bindPages_cons]
                exact h2
            · intro e' he'
              obtain ⟨pre, last, h1, h2, h3, h4⟩ := herr e' he'
              simp only [List.length_append, List.length_singleton] at h2 h3 h4
              refine ⟨pageRequest w client reqs.length params a :: pre, last, by simp [h1],
                ?_, ?_, ?_⟩
              · intro ex hex
                simp only [exchanges, List.mem_cons] at hex
                rcases hex with hex | hex
                · subst hex; exact hf
                · exact h2 ex hex
              · simpa [Nat.add_assoc, Nat.add_comm 1] using h3
              · simp only [exchanges, List.map_cons, bindPages_cons]
                exact h4
    · rw [loop_exit w client _ (fuel + 1) tp params m a b c reqs hlt] at h
      simp only [Option.some.injEq, Prod.mk.injEq] at h
      obtain ⟨hs, ho⟩ := h
      subst hs ho
      refine ⟨[], m, a, b, c, by simp, rfl, rfl, ?_, ?_⟩
      · intro _; simp [exchanges, bindPages]
      · intro e' he'; cases he'

/-- One response through a single pair with a slice destination appends what the
walk collects. -/
theorem arrangePairs_single_slice (body : Option JSON) (i : Nat) (path : String) (T : GoType)
    (cur : List Val) (m : List Cell) (hcell : m[i]? = some ⟨.slice T, .slice cur⟩) :
    (arrangePairs body [.ptr i, .str path] m).1[i]? =
      some ⟨.slice T, .slice (cur ++ collected T path body)⟩ := by
  have hi : i < m.length := by
    by_contra hc
    rw [List.getElem?_eq_none (by omega)] at hcell
    cases hcell
  simp only [arrangePairs, hcell, arrange, collected, baseTypeOf]
  cases collect (unmarshal (buildType T (splitKey path)) body).1 (splitKey path) with
  | error e => simp [hcell]
  | ok items =>
    simp only [foldl_bind_slice, arrangePairs]
    rw [List.getElem?_set_self hi]

theorem bindPages_single_slice (i : Nat) (path : String) (T : GoType)
    (bodies : List (Option JSON)) :
    ∀ (cur : List Val) (m : List Cell), m[i]? = some ⟨.slice T, .slice cur⟩ →
      (bindPages [.ptr i, .str path] bodies m)[i]? =
        some ⟨.slice T, .slice (cur ++ bodies.flatMap (collected T path))⟩ := by
  induction bodies with
  | nil => intro cur m h; simpa [bindPages] using h
  | cons body rest ih =>
    intro cur m h
    rw [bindPages_cons, ih _ _ (arrangePairs_single_slice body i path T cur m h)]
    simp [List.append_assoc]

theorem GetAll_pair (w : World) (client : Client) (x y : Arg) (fuel : Nat) (s : State) :
    GetAll w client [x, y] fuel s =
      (getAllLoop w client ([x, y] ++ localArgs s.mem.length) s.mem.length fuel 1
        ⟨s.params, s.mem ++ localCells 0 0 0, s.requests⟩).map
        (fun r => ({ r.1 with mem := r.1.mem.take s.mem.length }, r.2)) := by
  simp only [GetAll, localCells]
  cases getAllLoop w client ([x, y] ++ localArgs s.mem.length) s.mem.length fuel 1
    ⟨s.params, s.mem ++ [⟨.int, .int 0⟩, ⟨.int, .int 0⟩, ⟨.int, .int 0⟩], s.requests⟩ with
  | none => rfl
  | some r => rfl

theorem Values.Get_Set_self (p : Values) (k v : String) : (p.Set k v).Get k = v := by
  induction p with
  | nil => simp [Values.Set, Values.Get, List.lookup]
  | cons hd tl ih =>
    obtain ⟨k', vs⟩ := hd
    by_cases h : k' = k
    · simp [Values.Set, h, Values.Get, List.lookup]
    · have hb : (k == k') = false := by simpa using fun e => h e.symm
      simp only [Values.Set, h, if_false, Values.Get, List.lookup, hb]
      exact ih

theorem Values.Get_Set_ne (p : Values) (k k' v : String) (hne : k' ≠ k) :
    (p.Set k v).Get k' = p.Get k' := by
  induction p with
  | nil =>
    have hb : (k' == k) = false := by simpa using hne
    simp [Values.Set, Values.Get, List.lookup, hb]
  | cons hd tl ih =>
    obtain ⟨k0, vs⟩ := hd
    by_cases h : k0 = k
    · subst h
      have hb : (k' == k0) = false := by simpa using hne
      simp [Values.Set, Values.Get, List.lookup, hb]
    · simp only [Values.Set, h, if_false, Values.Get, List.lookup]
      cases hb : (k' == k0) with
      | true => rfl
      | false => exact ih

theorem requestParams_Get_PageNumber (w : World) (client : Client) (n : Nat) (p : Values) :
    (requestParams w client n p).Get "PageNumber" = p.Get "PageNumber" := by
  simp only [requestParams]
  repeat rw [Values.Get_Set_ne _ _ _ _ (by decide)]

theorem pageRequest_Get_PageNumber (w : World) (client : Client) (n : Nat) (p : Values)
    (a : Int) : (pageRequest w client n p a).Get "PageNumber" = itoa (wrapInt (a + 1)) := by
  simp only [pageRequest, requestParams_Get_PageNumber, merge, Page, List.foldl_cons,
    List.foldl_nil, Values.Set]
  rw [Values.Get_Set_self]
  simp [Values.Get, List.lookup]

theorem wrapInt_small (n : Int) (h0 : 0 ≤ n) (h1 : n < 2 ^ 63) : wrapInt n = n := by
  unfold wrapInt
  norm_num at h1 ⊢
  omega

theorem log2Aux_eq : ∀ (fuel n : Nat), n ≤ fuel → log2Aux fuel n = Nat.log2 n := by
  intro fuel
  induction fuel with
  | zero =>
    intro n h
    have : n = 0 := by omega
    subst this
    rw [Nat.log2]
    simp [log2Aux]
  | succ fuel ih =>
    intro n h
    rw [Nat.log2]
    by_cases h2 : n < 2
    · simp [log2Aux, h2, Nat.not_le.mpr h2]
    · have h2' : n ≥ 2 := by omega
      simp only [log2Aux, h2, if_false, h2', if_true]
      rw [ih (n / 2) (by omega)]

theorem log2_le (n : Nat) (h : n ≠ 0) : 2 ^ log2 n ≤ n := by
  rw [log2, log2Aux_eq n n le_rfl]
  exact Nat.log2_self_le h

theorem lt_log2 (n : Nat) : n < 2 ^ (log2 n + 1) := by
  rw [log2, log2Aux_eq n n le_rfl]
  exact Nat.lt_log2_self

theorem toFloat64_small (n : Nat) (h : n < 2 ^ 53) : toFloat64 n = n := by
  unfold toFloat64
  rw [if_pos h]

/-- Below `2 ^ 53` the quotient is scaled up by a power of two that brings it to
at least `2 ^ 52`, and rounded there. -/
theorem float64Quotient_small (A B : Nat) (hA : 0 < A) (hA53 : A < 2 ^ 53) (hB : 0 < B) :
    ∃ k, float64Quotient A B = (roundHalfEven (A * 2 ^ k) B, 2 ^ k) ∧
      2 ^ 52 * B ≤ A * 2 ^ k := by
  have h1 := log2_le A (by omega)
  have h2 := lt_log2 B
  have hla : log2 A ≤ 52 := by
    by_contra hc
    have : 2 ^ 53 ≤ 2 ^ log2 A := Nat.pow_le_pow_right (by norm_num) (by omega)
    omega
  have hdown : log2 A - (log2 B + 52) = 0 := by omega
  have hup : log2 A + (log2 B + 52 - log2 A) = log2 B + 52 := by omega
  have hN0 : 2 ^ (log2 B + 52) ≤ A * 2 ^ (log2 B + 52 - log2 A) := by
    calc 2 ^ (log2 B + 52) = 2 ^ log2 A * 2 ^ (log2 B + 52 - log2 A) := by
          rw [← pow_add, hup]
      _ ≤ A * 2 ^ (log2 B + 52 - log2 A) := Nat.mul_le_mul_right _ h1
  refine ⟨log2 B + 52 - log2 A +
    (if A * 2 ^ (log2 B + 52 - log2 A) / (B * 2 ^ 0) < 2 ^ 52 then 1 else 0), ?_, ?_⟩
  · simp only [float64Quotient, hdown, pow_zero, mul_one]
  · simp only [pow_zero, mul_one]
    split_ifs with hlt
    · have hB' : 2 ^ 52 * B < 2 ^ 52 * 2 ^ (log2 B + 1) :=
        (Nat.mul_lt_mul_left (by positivity)).mpr h2
      have e1 : (2 : Nat) ^ 52 * 2 ^ (log2 B + 1) = 2 * 2 ^ (log2 B + 52) := by
        rw [← pow_add, ← pow_succ']
        congr 1
        omega
      have e2 : A * 2 ^ (log2 B + 52 - log2 A + 1) =
          2 * (A * 2 ^ (log2 B + 52 - log2 A)) := by
        rw [pow_succ]
        ring
      rw [e2]
      omega
    · rw [Nat.add_zero]
      exact (Nat.le_div_iff_mul_le hB).mp (Nat.not_lt.mp hlt)

/-- The ceiling `c` of a rounded quotient `m' / P`, where `m'` is the quotient
`A * P / B` rounded to a whole number and `B < 2 * P`, is the ceiling of
`A / B`. -/
theorem ceil_round_core (A B P m r m' c x : Nat) (hB : 0 < B) (hB2P : B < 2 * P)
    (hdm : B * m + r = A * P) (hml : r < B) (hm1 : 1 ≤ m)
    (hround : m' = if B < 2 * r ∨ (2 * r = B ∧ m % 2 = 1) then m + 1 else m)
    (hcd : P * c + x = m' + P - 1) (hcl : x < P) :
    (c - 1) * B < A ∧ A ≤ c * B ∧ 1 ≤ c := by
  have hmm' : m ≤ m' := by rw [hround]; split_ifs <;> omega
  have hc1 : 1 ≤ c := by
    by_contra h0
    have h0 : c = 0 := by omega
    subst h0
    omega
  have hup : m' ≤ P * c := by omega
  have hPc : P * c = P * (c - 1) + P := by
    obtain ⟨d, rfl⟩ : ∃ d, c = d + 1 := ⟨c - 1, by omega⟩
    simp [Nat.mul_succ]
  have hlo : P * (c - 1) < m' := by omega
  refine ⟨?_, ?_, hc1⟩
  · by_contra hcon
    have hcon : A ≤ (c - 1) * B := Nat.not_lt.mp hcon
    have h1 : A * P ≤ (c - 1) * B * P := Nat.mul_le_mul_right P hcon
    have e1 : (c - 1) * B * P = B * (P * (c - 1)) := by ring
    have h2 : B * m ≤ B * (P * (c - 1)) := by omega
    have h3 : m ≤ P * (c - 1) := Nat.le_of_mul_le_mul_left h2 hB
    have h5 : m = P * (c - 1) := by
      rw [hround] at hlo
      split_ifs at hlo <;> omega
    have h6 : r = 0 := by
      rw [h5] at hdm
      omega
    rw [hround] at hlo
    subst h6
    split_ifs at hlo with hcond
    · rcases hcond with hcond | hcond <;> omega
    · omega
  · by_contra hcon
    have hcon : c * B + 1 ≤ A := by omega
    have h1 : (c * B + 1) * P ≤ A * P := Nat.mul_le_mul_right P hcon
    have e1 : (c * B + 1) * P = B * (P * c) + P := by ring
    have h2 : B * (P * c) + P ≤ B * m + r := by omega
    have h3 : P * c ≤ m := by
      by_contra hlt
      have hlt : m + 1 ≤ P * c := by omega
      have h4 : B * (m + 1) ≤ B * (P * c) := Nat.mul_le_mul_left B hlt
      have e2 : B * (m + 1) = B * m + B := by ring
      omega
    have h5 : m = P * c := by omega
    have h4 : m' = m := by omega
    have h6 : P ≤ r := by
      rw [h5] at h2
      omega
    rw [hround] at h4
    split_ifs at h4 with hcond
    · omega
    · simp only [not_or] at hcond
      omega

theorem ceil_round (A B P : Nat) (hA53 : A < 2 ^ 53) (hB : 0 < B) (hP : 0 < P)
    (hnorm : 2 ^ 52 * B ≤ A * P) :
    ((roundHalfEven (A * P) B + P - 1) / P - 1) * B < A ∧
      A ≤ (roundHalfEven (A * P) B + P - 1) / P * B ∧
      1 ≤ (roundHalfEven (A * P) B + P - 1) / P := by
  have hB2P : B < 2 * P := by
    have h1 : A * P < 2 ^ 53 * P := (Nat.mul_lt_mul_right hP).mpr hA53
    have h2 : 2 ^ 52 * B < 2 ^ 52 * (2 * P) := by
      calc 2 ^ 52 * B ≤ A * P := hnorm
        _ < 2 ^ 53 * P := h1
        _ = 2 ^ 52 * (2 * P) := by ring
    exact Nat.lt_of_mul_lt_mul_left h2
  have hm52 : 2 ^ 52 ≤ A * P / B := (Nat.le_div_iff_mul_le hB).mpr hnorm
  exact ceil_round_core A B P (A * P / B) (A * P % B) (roundHalfEven (A * P) B) _ _ hB hB2P
    (Nat.div_add_mod (A * P) B) (Nat.mod_lt (A * P) hB)
    (le_trans (by norm_num) hm52) rfl
    (Nat.div_add_mod (roundHalfEven (A * P) B + P - 1) P)
    (Nat.mod_lt _ hP)

/-- Below `2 ^ 53` the `float64` computation of alidns.go:129 is exact: its result
`c` is the whole number with `(c - 1) * b < a ≤ c * b`. -/
theorem ceilDiv_small (big : Int → Int) (a b : Int) (ha : 0 < a) (ha53 : a < 2 ^ 53)
    (hb : 0 < b) (hb53 : b < 2 ^ 53) :
    (ceilDiv big a b - 1) * b < a ∧ a ≤ ceilDiv big a b * b ∧ 1 ≤ ceilDiv big a b ∧
      ceilDiv big a b ≤ a := by
  obtain ⟨A, rfl⟩ : ∃ A : Nat, a = A := ⟨a.toNat, by omega⟩
  obtain ⟨B, rfl⟩ : ∃ B : Nat, b = B := ⟨b.toNat, by omega⟩
  have hA : 0 < A := by exact_mod_cast ha
  have hB : 0 < B := by exact_mod_cast hb
  have hA53 : A < 2 ^ 53 := by exact_mod_cast ha53
  have hB53 : B < 2 ^ 53 := by exact_mod_cast hb53
  obtain ⟨k, hq, hnorm⟩ := float64Quotient_small A B hA hA53 hB
  obtain ⟨h1, h2, h3⟩ := ceil_round A B (2 ^ k) hA53 hB (by positivity) hnorm
  have hsa : ¬ ((A : Int) < 0) := by omega
  have hsb : ¬ ((B : Int) < 0) := by omega
  simp only [ceilDiv, Int.natAbs_ofNat, toFloat64_small A hA53, toFloat64_small B hB53, hq,
    hsa, hsb, decide_False, if_true, Nat.pos_iff_ne_zero.mp hB, if_false]
  obtain ⟨c, hc⟩ : ∃ c, c = (roundHalfEven (A * 2 ^ k) B + 2 ^ k - 1) / 2 ^ k := ⟨_, rfl⟩
  rw [← hc] at h1 h2 h3 ⊢
  have hcA : c ≤ A := by
    by_contra hcon
    have h4 : A ≤ c - 1 := by omega
    have h5 : A * 1 ≤ (c - 1) * B := Nat.mul_le_mul h4 hB
    omega
  have hrange : -(2 : Int) ^ 63 ≤ (c : Int) ∧ (c : Int) < 2 ^ 63 := by
    constructor
    · have h4 : (0 : Int) ≤ c := Int.natCast_nonneg c
      have h5 : -(2 : Int) ^ 63 ≤ 0 := by norm_num
      omega
    · have h4 : (A : Int) < 2 ^ 53 := ha53
      have h5 : (c : Int) ≤ A := by exact_mod_cast hcA
      have h6 : (2 : Int) ^ 53 < 2 ^ 63 := by norm_num
      omega
  rw [if_pos hrange]
  refine ⟨?_, by exact_mod_cast h2, by exact_mod_cast h3, by exact_mod_cast hcA⟩
  have h4 : (((c - 1 : Nat) : Int)) * B < A := by exact_mod_cast h1
  rw [Nat.cast_sub h3] at h4
  simpa using h4

theorem ceilDiv_pos (big : Int → Int) (a b : Int) (ha : 0 < a) (ha53 : a < 2 ^ 53)
    (hb : 0 < b) (hb53 : b < 2 ^ 53) : 1 ≤ ceilDiv big a b ∧ ceilDiv big a b ≤ a :=
  (ceilDiv_small big a b ha ha53 hb hb53).2.2

theorem ceilDiv_eq_ceil (big : Int → Int) (a b : Int) (ha : 0 < a) (ha53 : a < 2 ^ 53)
    (hb : 0 < b) (hb53 : b < 2 ^ 53) : ceilDiv big a b = ⌈(a : ℚ) / (b : ℚ)⌉ := by
  obtain ⟨h1, h2, _, _⟩ := ceilDiv_small big a b ha ha53 hb hb53
  have hbq : (0 : ℚ) < (b : ℚ) := by exact_mod_cast hb
  symm
  rw [Int.ceil_eq_iff]
  constructor
  · rw [lt_div_iff₀ hbq]
    exact_mod_cast h1
  · rw [div_le_iff₀ hbq]
    exact_mod_cast h2

theorem counterOf_reports (body : Option JSON) (key : String) (n : Int)
    (h : Reports body key n) (hr : inIntRange n = true) : counterOf body key = n := by
  obtain ⟨j, hj, hm⟩ := h
  subst hj
  simp [counterOf, hm, decode, hr, Val.toInt]

theorem GetAll_even (w : World) (client : Client) (dest : List Arg) (fuel : Nat) (s : State)
    (he : dest.length % 2 = 0) :
    GetAll w client dest fuel s =
      (getAllLoop w client (dest ++ localArgs s.mem.length) s.mem.length fuel 1
        ⟨s.params, s.mem ++ localCells 0 0 0, s.requests⟩).map
        (fun r => ({ r.1 with mem := r.1.mem.take s.mem.length }, r.2)) := by
  match dest, he with
  | [], _ =>
    simp only [GetAll, localCells]
    cases getAllLoop w client ([] ++ localArgs s.mem.length) s.mem.length fuel 1
      ⟨s.params, s.mem ++ [⟨.int, .int 0⟩, ⟨.int, .int 0⟩, ⟨.int, .int 0⟩], s.requests⟩ <;> rfl
  | [_], he => simp at he
  | x :: y :: rest, _ =>
    simp only [GetAll, localCells]
    cases getAllLoop w client (x :: y :: rest ++ localArgs s.mem.length) s.mem.length fuel 1
      ⟨s.params, s.mem ++ [⟨.int, .int 0⟩, ⟨.int, .int 0⟩, ⟨.int, .int 0⟩], s.requests⟩ <;> rfl

theorem inIntRange_of_bounds (n : Int) (h0 : 0 ≤ n) (h1 : n < 2 ^ 63) : inIntRange n = true := by
  unfold inIntRange
  norm_num at h1 ⊢
  omega

/-- One round of the loop against a transport that answers by page number. -/
theorem loop_round (w : World) (client : Client) (dest : List Arg) (resp : String → Option JSON)
    (t sz : Int) (he : dest.length % 2 = 0)
    (htr : ∀ n ps, w.transport n ps = .response 200 (resp (ps.Get "PageNumber")))
    (hcode : ∀ p, (decodeEnvelope (resp p)).Code = "")
    (htotal : ∀ p, Reports (resp p) "TotalCount" t)
    (hsize : ∀ p, Reports (resp p) "PageSize" sz)
    (ht : 0 < t) (ht' : t < 2 ^ 63) (hs : 0 < sz) (hs' : sz < 2 ^ 63)
    (fuel : Nat) (tp : Int) (params : Values) (m : List Cell) (i : Nat) (b c : Int)
    (reqs : List Values) (hv : ValidDest m.length dest)
    (hlt : (i : Int) < tp) (hi : ((i : Int) + 1) < 2 ^ 63)
    (hpage : Reports (resp (itoa ((i : Int) + 1))) "PageNumber" ((i : Int) + 1))
    (hdest : (arrangePairs (resp (itoa ((i : Int) + 1))) dest m).2 = none) :
    getAllLoop w client (dest ++ localArgs m.length) m.length (fuel + 1) tp
        ⟨params, m ++ localCells i b c, reqs⟩ =
      getAllLoop w client (dest ++ localArgs m.length) m.length fuel (ceilDiv w.intOfFloat t sz)
        ⟨pageRequest w client reqs.length params i,
          (arrangePairs (resp (itoa ((i : Int) + 1))) dest m).1 ++
            localCells ((i + 1 : Nat) : Int) t sz,
          reqs ++ [pageRequest w client reqs.length params i]⟩ := by
  have hpn : (pageRequest w client reqs.length params i).Get "PageNumber" =
      itoa ((i : Int) + 1) := by
    rw [pageRequest_Get_PageNumber, wrapInt_small _ (by omega) hi]
  have hex : w.transport reqs.length (pageRequest w client reqs.length params i) =
      .response 200 (resp (itoa ((i : Int) + 1))) := by
    rw [htr, hpn]
  have hf : (w.transport reqs.length (pageRequest w client reqs.length params i)).failure =
      none := by
    rw [hex]
    simp [Exchange.failure, hcode]
  have hbody : (w.transport reqs.length (pageRequest w client reqs.length params i)).body =
      resp (itoa ((i : Int) + 1)) := by
    rw [hex]; rfl
  rw [loop_page w client dest fuel tp params m i b c reqs he hv hlt hf (by rw [hbody]; exact hdest)]
  rw [hbody, counterOf_reports _ _ _ (htotal _) (inIntRange_of_bounds t (le_of_lt ht) ht'),
    counterOf_reports _ _ _ (hsize _) (inIntRange_of_bounds sz (le_of_lt hs) hs'),
    counterOf_reports _ _ _ hpage (inIntRange_of_bounds _ (by omega) hi)]
  have : ¬ (t = 0 ∨ sz = 0) := by omega
  rw [if_neg this]
  push_cast
  rfl

/-- The rounds after the first one, up to the last page. -/
theorem loop_pages (w : World) (client : Client) (dest : List Arg) (resp : String → Option JSON)
    (t sz : Int) (he : dest.length % 2 = 0)
    (htr : ∀ n ps, w.transport n ps = .response 200 (resp (ps.Get "PageNumber")))
    (hcode : ∀ p, (decodeEnvelope (resp p)).Code = "")
    (htotal : ∀ p, Reports (resp p) "TotalCount" t)
    (hsize : ∀ p, Reports (resp p) "PageSize" sz)
    (ht : 0 < t) (ht53 : t < 2 ^ 53) (hs : 0 < sz) (hs53 : sz < 2 ^ 53)
    (types : List GoType)
    (hpage : ∀ i : Nat, 0 < i → (i : Int) ≤ ceilDiv w.intOfFloat t sz →
      Reports (resp (itoa (i : Int))) "PageNumber" (i : Int))
    (hdest : ∀ p m, m.map Cell.typ = types → (arrangePairs (resp p) dest m).2 = none)
    (base : Nat) (hv : ValidDest base dest) :
    ∀ (d i x : Nat) (params : Values) (m : List Cell) (reqs : List Values),
      ((i + d : Nat) : Int) = ceilDiv w.intOfFloat t sz → m.length = base → m.map Cell.typ = types →
      ∃ s', getAllLoop w client (dest ++ localArgs base) base (d + x) (ceilDiv w.intOfFloat t sz)
          ⟨params, m ++ localCells i t sz, reqs⟩ = some (s', .ok) ∧
        ∃ new, s'.requests = reqs ++ new ∧
          new.map (fun ps => ps.Get "PageNumber") =
            (List.range' (i + 1) d).map (fun j : Nat => itoa (j : Int)) := by
  have ht' : t < 2 ^ 63 := lt_trans ht53 (by norm_num)
  have hs' : sz < 2 ^ 63 := lt_trans hs53 (by norm_num)
  intro d
  induction d with
  | zero =>
    intro i x params m reqs hk hm _
    subst hm
    have hnot : ¬ (i : Int) < ceilDiv w.intOfFloat t sz := by
      rw [← hk]; simp
    refine ⟨⟨params, m ++ localCells i t sz, reqs⟩, ?_, [], by simp, by simp⟩
    rw [loop_exit w client _ _ _ params m i t sz reqs hnot]
  | succ d ih =>
    intro i x params m reqs hk hm hty
    subst hm
    have hkt := (ceilDiv_pos w.intOfFloat t sz ht ht53 hs hs53).2
    have hlt : (i : Int) < ceilDiv w.intOfFloat t sz := by
      rw [← hk]; push_cast; omega
    have hi : ((i : Int) + 1) < 2 ^ 63 := by omega
    have hp := hpage (i + 1) (by omega) (by rw [← hk]; push_cast; omega)
    push_cast at hp
    have hfuel : d + 1 + x = (d + x) + 1 := by omega
    rw [hfuel, loop_round w client dest resp t sz he htr hcode htotal hsize ht ht' hs hs'
      (d + x) _ params m i t sz reqs hv hlt hi hp (hdest _ _ hty)]
    have hl := arrangePairs_length (resp (itoa ((i : Int) + 1))) dest m
    have hty' := (arrangePairs_typ (resp (itoa ((i : Int) + 1))) dest m).trans hty
    obtain ⟨s', hrun, new, hreq, hnew⟩ := ih (i + 1) x (pageRequest w client reqs.length params i)
      _ (reqs ++ [pageRequest w client reqs.length params i])
      (by rw [← hk]; push_cast; omega) hl hty'
    refine ⟨s', hrun, pageRequest w client reqs.length params i :: new, by simp [hreq], ?_⟩
    rw [List.map_cons, hnew, pageRequest_Get_PageNumber, wrapInt_small _ (by omega) hi,
      List.range'_succ]
    simp

/-- Pagination below `2 ^ 53`. Let the transport answer every request with status
200 and the body `resp p`, where `p` is the `PageNumber` parameter of the
request; let no body carry an error code, let the body for page `i` report
`PageNumber = i`, and let every body report the same `TotalCount = t > 0` and
`PageSize = sz > 0`, both below `2 ^ 53`, where the `float64` arithmetic of
the source is exact. Then `GetAll`, for every caller params (with or without
a `PageNumber` entry) and every list of destination pairs whose extraction
does not panic, returns success after exactly `⌈t / sz⌉` requests, whose
`PageNumber` parameters are `1, 2, …, ⌈t / sz⌉` in this order. -/
theorem GetAll_pages_exact (w : World) (client : Client) (dest : List Arg) (s : State)
    (resp : String → Option JSON) (t sz : Int) (fuel : Nat)
    (he : dest.length % 2 = 0) (hv : ValidDest s.mem.length dest)
    (htr : ∀ n ps, w.transport n ps = .response 200 (resp (ps.Get "PageNumber")))
    (hcode : ∀ p, (decodeEnvelope (resp p)).Code = "")
    (hpage : ∀ i : Nat, 0 < i → (i : Int) ≤ ceilDiv w.intOfFloat t sz →
      Reports (resp (itoa (i : Int))) "PageNumber" (i : Int))
    (htotal : ∀ p, Reports (resp p) "TotalCount" t)
    (hsize : ∀ p, Reports (resp p) "PageSize" sz)
    (ht : 0 < t) (ht53 : t < 2 ^ 53) (hs : 0 < sz) (hs53 : sz < 2 ^ 53)
    (hdest : ∀ p m, m.map Cell.typ = s.mem.map Cell.typ →
      (arrangePairs (resp p) dest m).2 = none)
    (hfuel : (ceilDiv w.intOfFloat t sz).toNat ≤ fuel) :
    ceilDiv w.intOfFloat t sz = ⌈(t : ℚ) / (sz : ℚ)⌉ ∧
      ∃ s', GetAll w client dest fuel s = some (s', .ok) ∧
        ∃ new, s'.requests = s.requests ++ new ∧
          new.length = (ceilDiv w.intOfFloat t sz).toNat ∧
          new.map (fun ps => ps.Get "PageNumber") =
            (List.range' 1 (ceilDiv w.intOfFloat t sz).toNat).map (fun j : Nat => itoa (j : Int)) := by
  refine ⟨ceilDiv_eq_ceil w.intOfFloat t sz ht ht53 hs hs53, ?_⟩
  have ht' : t < 2 ^ 63 := lt_trans ht53 (by norm_num)
  have hs' : sz < 2 ^ 63 := lt_trans hs53 (by norm_num)
  obtain ⟨hk1, hkt⟩ := ceilDiv_pos w.intOfFloat t sz ht ht53 hs hs53
  obtain ⟨d, hd⟩ : ∃ d, (ceilDiv w.intOfFloat t sz).toNat = d + 1 := ⟨(ceilDiv w.intOfFloat t sz).toNat - 1, by omega⟩
  obtain ⟨x, hx⟩ : ∃ x, fuel = (d + x) + 1 := ⟨fuel - (d + 1), by omega⟩
  have hkd : ((1 + d : Nat) : Int) = ceilDiv w.intOfFloat t sz := by
    have := Int.toNat_of_nonneg (by omega : 0 ≤ ceilDiv w.intOfFloat t sz)
    omega
  rw [GetAll_even w client dest fuel s he, hx]
  have hp1 := hpage 1 (by omega) (by simpa using hk1)
  have hround := loop_round w client dest resp t sz he htr hcode htotal hsize ht ht' hs hs'
    (d + x) 1 s.params s.mem 0 0 0 s.requests hv (by simp) (by norm_num)
    (by simpa using hp1) (hdest _ _ rfl)
  simp only [Nat.cast_zero, zero_add, Nat.cast_one] at hround
  rw [hround]
  have hl := arrangePairs_length (resp (itoa 1)) dest s.mem
  have hty := arrangePairs_typ (resp (itoa 1)) dest s.mem
  obtain ⟨s', hrun, new, hreq, hnew⟩ :=
    loop_pages w client dest resp t sz he htr hcode htotal hsize ht ht53 hs hs53
      (s.mem.map Cell.typ) hpage hdest s.mem.length hv d 1 x
      (pageRequest w client s.requests.length s.params 0) _
      (s.requests ++ [pageRequest w client s.requests.length s.params 0]) hkd hl hty
  simp only [Nat.cast_one] at hrun
  rw [hrun]
  refine ⟨_, rfl, pageRequest w client s.requests.length s.params 0 :: new, by simp [hreq],
    ?_, ?_⟩
  · have := congrArg List.length hnew
    simp only [List.length_map, List.length_range'] at this
    simp [this, hd]
  · rw [hd, List.range'_succ, List.map_cons, hnew, pageRequest_Get_PageNumber]
    simp [wrapInt]

/-- The listing of the specification: `t = 7` and `sz = 3` fetch exactly the pages
1, 2, 3, although the caller's params ask for page 9. -/
theorem GetAll_pages_exact_listing :
    (ceilDiv listingWorld.intOfFloat 7 3 = ⌈((7 : Int) : ℚ) / ((3 : Int) : ℚ)⌉ ∧
      ∃ s', GetAll listingWorld testClient listingDest 3 listingStart = some (s', .ok) ∧
        ∃ new, s'.requests = listingStart.requests ++ new ∧
          new.length = (ceilDiv listingWorld.intOfFloat 7 3).toNat ∧
          new.map (fun ps => ps.Get "PageNumber") =
            (List.range' 1 (ceilDiv listingWorld.intOfFloat 7 3).toNat).map (fun j : Nat => itoa (j : Int))) ∧
      (ceilDiv listingWorld.intOfFloat 7 3).toNat = 3 ∧
      (List.range' 1 3).map (fun j : Nat => itoa (j : Int)) = ["1", "2", "3"] ∧
      listingStart.params.Get "PageNumber" = "9" :=
  ⟨GetAll_pages_exact listingWorld testClient listingDest listingStart listingPage 7 3 3
      (by decide)
      (by intro i hi; simp [listingDest] at hi; simp [listingStart, hi])
      (fun _ _ => rfl)
      (by intro p; unfold listingPage; split_ifs <;> rfl)
      (by
        intro i h0 h3
        have h3' : i ≤ 3 := by
          have : ceilDiv listingWorld.intOfFloat 7 3 = 3 := by decide
          omega
        interval_cases i <;> exact ⟨_, rfl, rfl⟩)
      (by intro p; unfold listingPage; split_ifs <;> exact ⟨_, rfl, rfl⟩)
      (by intro p; unfold listingPage; split_ifs <;> exact ⟨_, rfl, rfl⟩)
      (by decide) (by decide) (by decide) (by decide)
      (by
        intro p m hm
        match m, hm with
        | [⟨_, v⟩], hm =>
          simp only [listingStart, List.map_cons, List.map_nil, List.cons.injEq, and_true] at hm
          subst hm
          unfold listingPage
          split_ifs <;> rfl)
      (by decide),
    by decide, by decide, by decide⟩

theorem buildType_filter (T : GoType) (keys : List String) :
    buildType T keys = buildType T (keys.filter (fun k => k ≠ "")) := by
  induction keys with
  | nil => rfl
  | cons k ks ih =>
    by_cases hk : k = ""
    · subst hk
      have : buildType T ("" :: ks) = buildType T ks := by simp [buildType]
      rw [this, ih]
      simp
    · have hf : (k :: ks).filter (fun k => k ≠ "") = k :: ks.filter (fun k => k ≠ "") := by
        simp [hk]
      rw [hf]
      simp only [buildType, List.foldr_cons] at ih ⊢
      rw [ih]

theorem collect_filter (keys : List String) :
    ∀ x : Val, collect x keys = collect x (keys.filter (fun k => k ≠ "")) := by
  induction keys with
  | nil => intro x; rfl
  | cons k ks ih =>
    intro x
    by_cases hk : k = ""
    · subst hk
      have : collect x ("" :: ks) = collect x ks := by simp [collect]
      rw [this, ih]
      simp
    · have hf : (k :: ks).filter (fun k => k ≠ "") = k :: ks.filter (fun k => k ≠ "") := by
        simp [hk]
      rw [hf]
      by_cases hs : k = "*"
      · subst hs
        rw [collect_star, collect_star]
        have : (fun item => collect item ks) =
            fun item => collect item (ks.filter (fun k => k ≠ "")) := by
          funext item; exact ih item
        rw [this]
      · simp only [collect, hs, hk, if_false, ne_eq, not_false_eq_true, if_true]
        cases mapIndex x k with
        | error e => rfl
        | ok x' => exact ih x'

theorem arrange_congr (data : Option JSON) (cell : Cell) (p q : String)
    (h : (splitKey p).filter (fun k => k ≠ "") = (splitKey q).filter (fun k => k ≠ "")) :
    arrange data cell p = arrange data cell q := by
  unfold arrange
  simp only
  rw [buildType_filter _ (splitKey p), buildType_filter _ (splitKey q),
    collect_filter (splitKey p), collect_filter (splitKey q), h]

theorem splitDots_noDot (cs : List Char) :
    ∀ cur : List Char, '.' ∉ cur → ∀ seg ∈ splitDots cs cur, '.' ∉ seg.data := by
  induction cs with
  | nil =>
    intro cur hcur seg hseg
    simp only [splitDots, List.mem_singleton] at hseg
    subst hseg
    simpa using hcur
  | cons c cs ih =>
    intro cur hcur seg hseg
    by_cases hc : c = '.'
    · simp only [splitDots, hc, if_true, List.mem_cons] at hseg
      rcases hseg with hseg | hseg
      · subst hseg; simpa using hcur
      · exact ih [] (by simp) seg hseg
    · simp only [splitDots, hc, if_false] at hseg
      exact ih (c :: cur) (by simp [hcur, Ne.symm hc]) seg hseg

theorem splitKey_deleteEmpty (p : String) :
    (splitKey (deleteEmpty p)).filter (fun k => k ≠ "") =
      (splitKey p).filter (fun k => k ≠ "") := by
  unfold deleteEmpty
  cases hf : (splitKey p).filter (fun k => k ≠ "") with
  | nil => decide
  | cons k ks =>
    rw [splitKey_pathString (k :: ks) (by simp)]
    · rw [← hf, List.filter_filter]
      simp
    · intro seg hseg
      rw [← hf] at hseg
      exact splitDots_noDot p.data [] (by simp) seg (List.mem_of_mem_filter hseg)

theorem zeroValue_isValid (T : GoType) : (zeroValue T).IsValid = true := by
  cases T <;> rfl

theorem unmarshal_isValid (T : GoType) (data : Option JSON) :
    (unmarshal T data).1.IsValid = true := by
  cases data with
  | none => exact zeroValue_isValid T
  | some j => exact decode_isValid T j

theorem bind_scalar_orZero (T : GoType) (hT : ∀ e, T ≠ .slice e) (v item : Val) :
    bind T (baseTypeOf T) v item = orZero T item := by
  have hbase : baseTypeOf T = T := by
    cases T <;> first | rfl | exact absurd rfl (hT _)
  rw [hbase]
  cases T
  case slice e => exact absurd rfl (hT e)
  all_goals cases h : item.IsValid <;> simp [bind, orZero, h]

theorem foldl_bind_scalar (T : GoType) (hT : ∀ e, T ≠ .slice e) (items : List Val) :
    ∀ d : Val, ([d] ++ items.map (orZero T)).getLast? =
      some (items.foldl (bind T (baseTypeOf T)) d) := by
  induction items with
  | nil => intro d; rfl
  | cons item rest ih =>
    intro d
    rw [List.foldl_cons, bind_scalar_orZero T hT, ← ih]
    simp [List.getLast?_cons_cons]

theorem splitKey_empty : splitKey "" = [""] := by decide

theorem Values.lookup_Set (p : Values) (k k' x : String) :
    (p.Set k x).lookup k' = if k' = k then some [x] else p.lookup k' := by
  induction p with
  | nil =>
    by_cases h : k' = k
    · simp [Values.Set, List.lookup, h]
    · have hb : (k' == k) = false := by simpa using h
      simp [Values.Set, List.lookup, h, hb]
  | cons hd tl ih =>
    obtain ⟨k0, vs⟩ := hd
    by_cases h0 : k0 = k
    · subst h0
      by_cases h : k' = k0
      · simp [Values.Set, List.lookup, h]
      · have hb : (k' == k0) = false := by simpa using h
        simp [Values.Set, List.lookup, h, hb]
    · simp only [Values.Set, h0, if_false, List.lookup]
      cases hb : (k' == k0) with
      | true =>
        have : k' = k0 := by simpa using hb
        have hne : k' ≠ k := by rw [this]; exact h0
        simp [hne]
      | false => simpa using ih

/-- One overlay: a key of the overlay is bound to the overlay's first value, any
other key keeps its values. -/
theorem lookup_overlay (g : String → String) (es : List (String × List String)) (k : String) :
    ∀ p : Values, (es.foldl (fun p e => p.Set e.1 (g e.1)) p).lookup k =
      if (es.lookup k).isSome then some [g k] else p.lookup k := by
  induction es with
  | nil => intro p; simp [List.lookup]
  | cons e rest ih =>
    intro p
    obtain ⟨k0, vs⟩ := e
    rw [List.foldl_cons, ih, Values.lookup_Set]
    cases hb : (k == k0) with
    | true =>
      have hk : k = k0 := by simpa using hb
      subst hk
      simp [List.lookup]
    | false =>
      have hk : k ≠ k0 := by simpa using hb
      simp only [List.lookup, hb, hk, if_false]

theorem merge_append_one (p : Values) (values : List Values) (v : Values) :
    merge p (values ++ [v]) =
      v.foldl (fun p e => p.Set e.1 (v.Get e.1)) (merge p values) := by
  simp [merge, List.foldl_append]

theorem lookup_merge_one (p : Values) (values : List Values) (v : Values) (k : String) :
    (merge p (values ++ [v])).lookup k =
      if v.hasKey k then some [v.Get k] else (merge p values).lookup k := by
  rw [merge_append_one, lookup_overlay (fun key => v.Get key)]
  rfl

theorem lookup_merge_untouched (p : Values) (values : List Values) (k : String)
    (h : Untouched values k) : (merge p values).lookup k = p.lookup k := by
  induction values using List.reverseRecOn with
  | nil => rfl
  | append_singleton vs v ih =>
    rw [lookup_merge_one, h v (by simp)]
    simpa using ih (fun u hu => h u (by simp [hu]))

theorem Get_merge_untouched (p : Values) (values : List Values) (k : String)
    (h : Untouched values k) : (merge p values).Get k = p.Get k := by
  simp only [Values.Get, lookup_merge_untouched p values k h]

theorem lookup_merge_last (p : Values) (pre post : List Values) (v : Values) (k : String)
    (hv : v.hasKey k = true) (h : Untouched post k) :
    (merge p (pre ++ v :: post)).lookup k = some [v.Get k] := by
  have hm : merge p (pre ++ v :: post) = merge (merge p (pre ++ [v])) post := by
    simp [merge, List.foldl_append]
  rw [hm, lookup_merge_untouched _ post k h, lookup_merge_one, hv]
  rfl

theorem hasKey_merge (p : Values) (values : List Values) (k : String)
    (h : p.hasKey k = true) : (merge p values).hasKey k = true := by
  induction values using List.reverseRecOn with
  | nil => exact h
  | append_singleton vs v ih =>
    unfold Values.hasKey at ih ⊢
    rw [lookup_merge_one]
    cases v.hasKey k <;> simp [ih]

theorem Get_builder (p : Values) (values : List Values) (k x : String)
    (hp : p.Get k = x) (h : Untouched values k) : (merge p values).Get k = x := by
  rw [Get_merge_untouched p values k h, hp]

theorem charsLe_total : ∀ a b : List Char, charsLe a b = true ∨ charsLe b a = true
  | [], _ => Or.inl rfl
  | _ :: _, [] => Or.inr rfl
  | a :: as, b :: bs => by
    simp only [charsLe]
    rcases Nat.lt_trichotomy a.toNat b.toNat with h | h | h
    · left; simp [h]
    · rcases charsLe_total as bs with h' | h'
      · left; simp [h, h']
      · right; simp [h, h']
    · right; simp [h]

theorem charsLe_trans : ∀ a b c : List Char, charsLe a b = true → charsLe b c = true →
    charsLe a c = true
  | [], _, _, _, _ => rfl
  | _ :: _, [], _, h, _ => by simp [charsLe] at h
  | _ :: _, _ :: _, [], _, h => by simp [charsLe] at h
  | a :: as, b :: bs, c :: cs, h1, h2 => by
    simp only [charsLe] at h1 h2 ⊢
    by_cases hab : a.toNat < b.toNat
    · by_cases hbc : b.toNat < c.toNat
      · have : a.toNat < c.toNat := by omega
        simp [this]
      · by_cases hbc' : b.toNat = c.toNat
        · have : a.toNat < c.toNat := by omega
          simp [this]
        · simp [hbc, hbc'] at h2
    · by_cases hab' : a.toNat = b.toNat
      · rw [if_neg hab, if_pos hab'] at h1
        by_cases hbc : b.toNat < c.toNat
        · have : a.toNat < c.toNat := by omega
          simp [this]
        · by_cases hbc' : b.toNat = c.toNat
          · rw [if_neg hbc, if_pos hbc'] at h2
            have hlt : ¬ a.toNat < c.toNat := by omega
            have heq : a.toNat = c.toNat := by omega
            rw [if_neg hlt, if_pos heq]
            exact charsLe_trans as bs cs h1 h2
          · simp [hbc, hbc'] at h2
      · simp [hab, hab'] at h1

theorem Char.eq_of_toNat_eq {a b : Char} (h : a.toNat = b.toNat) : a = b := by
  rw [← Char.ofNat_toNat a, ← Char.ofNat_toNat b, h]

theorem charsLe_antisymm : ∀ a b : List Char, charsLe a b = true → charsLe b a = true → a = b
  | [], [], _, _ => rfl
  | [], _ :: _, _, h => by simp [charsLe] at h
  | _ :: _, [], h, _ => by simp [charsLe] at h
  | a :: as, b :: bs, h1, h2 => by
    simp only [charsLe] at h1 h2
    by_cases hab : a.toNat < b.toNat
    · have h3 : ¬ b.toNat < a.toNat := by omega
      have h4 : ¬ b.toNat = a.toNat := by omega
      simp [h3, h4] at h2
    · by_cases hab' : a.toNat = b.toNat
      · have h3 : ¬ b.toNat < a.toNat := by omega
        rw [if_neg hab, if_pos hab'] at h1
        rw [if_neg h3, if_pos hab'.symm] at h2
        rw [Char.eq_of_toNat_eq hab', charsLe_antisymm as bs h1 h2]
      · simp [hab, hab'] at h1

theorem keyLe_isTotal : IsTotal String keyLe :=
  ⟨fun a b => charsLe_total a.data b.data⟩

theorem keyLe_isTrans : IsTrans String keyLe :=
  ⟨fun a b c => charsLe_trans a.data b.data c.data⟩

theorem keyLe_isAntisymm : IsAntisymm String keyLe :=
  ⟨fun a b h1 h2 => String.ext (charsLe_antisymm a.data b.data h1 h2)⟩

theorem sortStrings_eq (keys : List String) : sortStrings keys = keys.insertionSort keyLe := by
  unfold sortStrings
  congr

theorem sortStrings_sorted (keys : List String) : (sortStrings keys).Sorted keyLe := by
  haveI := keyLe_isTotal
  haveI := keyLe_isTrans
  rw [sortStrings_eq]
  exact List.sorted_insertionSort keyLe keys

theorem sortStrings_perm (keys : List String) : (sortStrings keys).Perm keys := by
  rw [sortStrings_eq]
  exact List.perm_insertionSort keyLe keys

theorem sortStrings_congr {keys keys' : List String} (h : keys.Perm keys') :
    sortStrings keys = sortStrings keys' := by
  haveI := keyLe_isAntisymm
  exact List.eq_of_perm_of_sorted (r := keyLe)
    ((sortStrings_perm keys).trans (h.trans (sortStrings_perm keys').symm))
    (sortStrings_sorted keys) (sortStrings_sorted keys')

theorem lookup_perm {l l' : Values} (h : l.Perm l') (hnd : (l.map Prod.fst).Nodup)
    (k : String) : l.lookup k = l'.lookup k := by
  induction h with
  | nil => rfl
  | cons x _ ih =>
    simp only [List.map_cons, List.nodup_cons] at hnd
    simp only [List.lookup]
    cases k == x.1 with
    | true => rfl
    | false => exact ih hnd.2
  | swap x y l =>
    simp only [List.map_cons, List.nodup_cons, List.mem_cons, not_or] at hnd
    simp only [List.lookup]
    cases hx : k == x.1 with
    | false => rfl
    | true =>
      cases hy : k == y.1 with
      | false => rfl
      | true =>
        have h1 : k = x.1 := by simpa using hx
        have h2 : k = y.1 := by simpa using hy
        exact absurd (h2.symm.trans h1) hnd.1.1
  | trans h1 _ ih1 ih2 =>
    exact (ih1 hnd).trans (ih2 ((h1.map Prod.fst).nodup_iff.mp hnd))

theorem Get_perm {l l' : Values} (h : l.Perm l') (hnd : (l.map Prod.fst).Nodup)
    (k : String) : Values.Get l k = Values.Get l' k := by
  simp only [Values.Get, lookup_perm h hnd k]

theorem buildQueryString_eq (params : Values) :
    buildQueryString params = "&".intercalate
      ((sortStrings ((params.map Prod.fst).filter (fun k => k ≠ "Signature"))).map
        (queryEntry params)) := by
  rfl

theorem keys_Set_Signature (params : Values) (v : String) :
    ((params.Set "Signature" v).map Prod.fst).filter (fun k => k ≠ "Signature") =
      (params.map Prod.fst).filter (fun k => k ≠ "Signature") := by
  induction params with
  | nil => simp [Values.Set]
  | cons e rest ih =>
    obtain ⟨k, vs⟩ := e
    by_cases hk : k = "Signature"
    · simp [Values.Set, hk]
    · simp only [Values.Set, hk, if_false, List.map_cons, List.filter_cons, ih]

theorem lookup_filter_ne (params : Values) (k : String) (hk : k ≠ "Signature") :
    (params.filter (fun e => e.1 ≠ "Signature")).lookup k = params.lookup k := by
  induction params with
  | nil => rfl
  | cons e rest ih =>
    obtain ⟨k0, vs⟩ := e
    by_cases h0 : k0 = "Signature"
    · subst h0
      have hb : (k == "Signature") = false := by simpa using hk
      rw [List.filter_cons_of_neg (by simp), ih]
      simp only [List.lookup, hb]
    · rw [List.filter_cons_of_pos (by simpa using h0)]
      simp only [List.lookup, ih]

theorem mem_sortStrings_ne (params : Values) (k : String)
    (h : k ∈ sortStrings ((params.map Prod.fst).filter (fun k => k ≠ "Signature"))) :
    k ≠ "Signature" := by
  have := (sortStrings_perm _).mem_iff.mp h
  simpa using (List.mem_filter.mp this).2

theorem buildQueryString_perm (params params' : Values) (h : params'.Perm params)
    (hnd : (params.map Prod.fst).Nodup) :
    buildQueryString params' = buildQueryString params := by
  have hnd' : (params'.map Prod.fst).Nodup := (h.map Prod.fst).nodup_iff.mpr hnd
  rw [buildQueryString_eq, buildQueryString_eq,
    sortStrings_congr ((h.map Prod.fst).filter (fun k => k ≠ "Signature"))]
  congr 1
  apply List.map_congr_left
  intro k _
  simp only [queryEntry, Get_perm h hnd' k]

theorem buildQueryString_Set_Signature (params : Values) (v : String) :
    buildQueryString (params.Set "Signature" v) = buildQueryString params := by
  rw [buildQueryString_eq, buildQueryString_eq, keys_Set_Signature]
  congr 1
  apply List.map_congr_left
  intro k hk
  simp only [queryEntry, Values.Get_Set_ne _ _ _ _ (mem_sortStrings_ne params k hk)]

theorem buildQueryString_without_Signature (params : Values) :
    buildQueryString (params.filter (fun e => e.1 ≠ "Signature")) =
      buildQueryString params := by
  have hkeys : ((params.filter (fun e => e.1 ≠ "Signature")).map Prod.fst).filter
      (fun k => k ≠ "Signature") = (params.map Prod.fst).filter (fun k => k ≠ "Signature") := by
    induction params with
    | nil => rfl
    | cons e rest ih =>
      obtain ⟨k, vs⟩ := e
      by_cases hk : k = "Signature"
      · subst hk
        rw [List.filter_cons_of_neg (by simp), ih, List.map_cons,
          List.filter_cons_of_neg (by simp)]
      · rw [List.filter_cons_of_pos (by simpa using hk), List.map_cons, List.map_cons,
          List.filter_cons_of_pos (by simpa using hk),
          List.filter_cons_of_pos (by simpa using hk), ih]
  rw [buildQueryString_eq, buildQueryString_eq, hkeys]
  congr 1
  apply List.map_congr_left
  intro k hk
  simp only [queryEntry, Values.Get, lookup_filter_ne params k (mem_sortStrings_ne params k hk)]

theorem mem_of_lookup {β : Type} (l : List (String × β)) (k : String) (v : β)
    (h : l.lookup k = some v) : (k, v) ∈ l := by
  induction l with
  | nil => simp [List.lookup] at h
  | cons e rest ih =>
    obtain ⟨k0, v0⟩ := e
    simp only [List.lookup] at h
    cases hb : k == k0 with
    | true =>
      rw [hb] at h
      have hk : k = k0 := by simpa using hb
      simp only [Option.some.injEq] at h
      simp [hk, h]
    | false =>
      rw [hb] at h
      exact List.mem_cons_of_mem _ (ih h)

theorem appendAll_ok (P : Val → Prop) (f : Val → Except Panic (List Val)) (items : List Val)
    (h : ∀ item ∈ items, ∃ out, f item = .ok out ∧ ∀ v ∈ out, P v) :
    ∃ out, appendAll (items.map f) = .ok out ∧ ∀ v ∈ out, P v := by
  induction items with
  | nil => exact ⟨[], rfl, by simp⟩
  | cons item rest ih =>
    obtain ⟨o1, h1, hp1⟩ := h item (by simp)
    obtain ⟨o2, h2, hp2⟩ := ih (fun i hi => h i (by simp [hi]))
    refine ⟨o1 ++ o2, ?_, ?_⟩
    · simp only [List.map_cons, h1, appendAll, h2]
    · intro v hv
      rcases List.mem_append.mp hv with hv | hv
      · exact hp1 v hv
      · exact hp2 v hv

theorem setMapIndex_all (P : Val → Bool) (m : List (String × Val)) (k : String) (v : Val)
    (hm : m.all (fun entry => P entry.2) = true) (hv : P v = true) :
    (setMapIndex m k v).all (fun entry => P entry.2) = true := by
  induction m with
  | nil => simp [setMapIndex, hv]
  | cons e rest ih =>
    obtain ⟨k0, v0⟩ := e
    simp only [List.all_cons, Bool.and_eq_true] at hm
    by_cases h : k0 = k
    · simp [setMapIndex, h, hv, hm.2]
    · simp only [setMapIndex, h, if_false, List.all_cons, Bool.and_eq_true]
      exact ⟨hm.1, ih hm.2⟩

theorem foldl_setMapIndex_all (P : Val → Bool) (f : JSON → Val) (hf : ∀ j, P (f j) = true)
    (members : List (String × JSON)) :
    ∀ m : List (String × Val), m.all (fun entry => P entry.2) = true →
      (members.foldl (fun m kv => setMapIndex m kv.1 (f kv.2)) m).all
        (fun entry => P entry.2) = true := by
  induction members with
  | nil => intro m hm; exact hm
  | cons kv rest ih =>
    intro m hm
    exact ih _ (setMapIndex_all P m kv.1 (f kv.2) hm (hf kv.2))

/-- What the decoder produces is a well-formed instance of the type it decodes
into. -/
theorem decode_hasType (T : GoType) : ∀ j : JSON, hasType T (decode T j).1 = true := by
  induction T with
  | string => intro j; cases j <;> rfl
  | int =>
    intro j
    cases j with
    | num n =>
      simp only [decode]
      cases h : inIntRange n with
      | true => simp [hasType, h]
      | false => simp [hasType]; decide
    | _ => simp only [decode, hasType]; decide
  | bool => intro j; cases j <;> rfl
  | slice e ih =>
    intro j
    cases j with
    | arr items => simp [decode, hasType, ih]
    | _ => rfl
  | map e ih =>
    intro j
    cases j with
    | obj members =>
      simp only [decode, hasType]
      exact foldl_setMapIndex_all (fun v => hasType e v) (fun j => (decode e j).1) ih members []
        rfl
    | _ => rfl

/-- Walking literal keys that are all found leads to the value they reach. -/
theorem collect_walk (rest : List String) :
    ∀ (keys : List String) (x y : Val), (∀ k ∈ keys, IsLiteral k) → x.walk keys = some y →
      collect x (keys ++ rest) = collect y rest := by
  intro keys
  induction keys with
  | nil =>
    intro x y _ h
    cases x <;> simp only [Val.walk, Option.some.injEq] at h <;> subst h <;> rfl
  | cons k ks ih =>
    intro x y hlit h
    have hk := hlit k (by simp)
    cases x with
    | map entries =>
      simp only [Val.walk] at h
      cases hl : entries.lookup k with
      | none => rw [hl] at h; cases h
      | some v =>
        rw [hl] at h
        rw [List.cons_append, collect_literal_cons _ _ _ hk]
        simp only [mapIndex, hl]
        exact ih v y (fun q hq => hlit q (by simp [hq])) h
    | _ => simp [Val.walk] at h

theorem appendAll_flatten (f : Val → Except Panic (List Val)) (outer : List Val) :
    ∀ results : List (List Val),
      outer.map f = results.map (fun r => (Except.ok r : Except Panic (List Val))) →
      appendAll (outer.map f) = .ok results.flatten := by
  induction outer with
  | nil =>
    intro results h
    cases results with
    | nil => rfl
    | cons r rs => simp at h
  | cons o os ih =>
    intro results h
    cases results with
    | nil => simp at h
    | cons r rs =>
      simp only [List.map_cons, List.cons.injEq] at h
      simp only [List.map_cons, h.1, appendAll, ih rs h.2, List.flatten_cons]

theorem flatten_singletons (f : Val → Val) (l : List Val) :
    (l.map (fun e => [f e])).flatten = l.map f := by
  induction l with
  | nil => rfl
  | cons e rest ih => rw [List.map_cons, List.flatten_cons, ih]; rfl

theorem flatten_map_map (f : Val → Val) (ls : List (List Val)) :
    (ls.map (fun l => l.map f)).flatten = ls.flatten.map f := by
  induction ls with
  | nil => rfl
  | cons l rest ih =>
    rw [List.map_cons, List.flatten_cons, List.flatten_cons, List.map_append, ih]

theorem length_flatten_eq_sum (ls : List (List Val)) :
    ls.flatten.length = (ls.map List.length).sum := by
  induction ls with
  | nil => rfl
  | cons l rest ih => simp [ih]

theorem Val.walk_nil (x : Val) : x.walk [] = some x := by
  cases x <;> rfl

/-- A path of literal keys into a scalar variable binds what the member at the end
of the path decodes to, which is the zero value of `T` when the member is not
of the kind of `T`. -/
theorem arrange_literal_path (T : GoType) (old : Val) (keys : List String) (doc j : JSON)
    (hne : keys ≠ []) (hlit : ∀ k ∈ keys, IsLiteral k) (hT : ∀ e, T ≠ .slice e)
    (hpath : doc.path keys = some j) :
    arrange (some doc) ⟨T, old⟩ (pathString keys) = .ok ⟨T, (decode T j).1⟩ := by
  have hsplit := splitKey_pathString keys hne (fun k hk => (hlit k hk).2.2)
  have hwalk := collect_decode_path T [] keys doc j hlit hpath
  simp only [List.append_nil] at hwalk
  have hbase : baseTypeOf T = T := by
    cases T <;> first | rfl | exact absurd rfl (hT _)
  have hbind := bind_scalar T hT old (decode T j).1 (decode_isValid T j)
  rw [hbase] at hbind
  unfold arrange
  simp only [hsplit, hbase, unmarshal]
  rw [hwalk]
  simp only [buildType, List.foldr_nil, collect_nil, List.foldl_cons, List.foldl_nil, hbind]

/-- From a body that is not valid JSON a one-key path binds the zero value. -/
theorem arrange_invalid_body (T : GoType) (old : Val) (key : String) (hk : IsLiteral key)
    (hT : ∀ e, T ≠ .slice e) : arrange none ⟨T, old⟩ key = .ok ⟨T, zeroValue T⟩ := by
  have hbase : baseTypeOf T = T := by
    cases T <;> first | rfl | exact absurd rfl (hT _)
  unfold arrange
  simp only [splitKey_literal key hk, hbase, buildType_literal _ _ _ hk,
    collect_literal_cons _ _ _ hk]
  simp only [unmarshal, zeroValue, mapIndex, List.lookup, buildType, List.foldr_nil, collect_nil,
    List.foldl_cons, List.foldl_nil]
  cases T
  case slice e => exact absurd rfl (hT e)
  all_goals simp [bind, Val.IsValid, zeroValue]

theorem arrangePairs_one (body : Option JSON) (i : Nat) (key : String) (mem : List Cell)
    (cell cell' : Cell) (hcell : mem[i]? = some cell)
    (h : arrange body cell key = .ok cell') :
    arrangePairs body [.ptr i, .str key] mem = (mem.set i cell', none) := by
  simp [arrangePairs, hcell, h]

theorem next_zero (w : World) (client : Client) (dest : List Arg) (tp : Int)
    (params : Values) (m : List Cell) (a b c : Int) (reqs : List Values) :
    nextRequestLoop w client dest m.length 0 tp ⟨params, m ++ localCells a b c, reqs⟩ =
      if a < tp then some (pageRequest w client reqs.length params a) else none := by
  simp only [nextRequestLoop, currentPage_read m _ rfl, pageRequest]

theorem next_exit (w : World) (client : Client) (dest : List Arg) (k : Nat) (tp : Int)
    (params : Values) (m : List Cell) (a b c : Int) (reqs : List Values) (h : ¬ a < tp) :
    nextRequestLoop w client dest m.length k tp ⟨params, m ++ localCells a b c, reqs⟩ = none := by
  cases k <;> simp only [nextRequestLoop, currentPage_read m _ rfl, if_neg h]

theorem next_fail (w : World) (client : Client) (dest : List Arg) (k : Nat) (tp : Int)
    (params : Values) (m : List Cell) (a b c : Int) (reqs : List Values) (e : GoError)
    (hf : (w.transport reqs.length (pageRequest w client reqs.length params a)).failure =
      some e) :
    nextRequestLoop w client dest m.length (k + 1) tp ⟨params, m ++ localCells a b c, reqs⟩ =
      none := by
  simp only [nextRequestLoop, currentPage_read m _ rfl]
  split
  · rw [Get_failure w client dest _ e (by simpa [pageRequest] using hf)]
  · rfl

theorem next_panic (w : World) (client : Client) (dest : List Arg) (k : Nat) (tp : Int)
    (params : Values) (m : List Cell) (a b c : Int) (reqs : List Values) (p : Panic)
    (he : dest.length % 2 = 0) (hv : ValidDest m.length dest)
    (hf : (w.transport reqs.length (pageRequest w client reqs.length params a)).failure = none)
    (hp : (arrangePairs (w.transport reqs.length
      (pageRequest w client reqs.length params a)).body dest m).2 = some p) :
    nextRequestLoop w client (dest ++ localArgs m.length) m.length (k + 1) tp
        ⟨params, m ++ localCells a b c, reqs⟩ = none := by
  simp only [nextRequestLoop, currentPage_read m _ rfl]
  split
  · rw [Get_locals w client dest _ m (.int a) (.int b) (.int c) rfl he hv
      (by simpa [pageRequest] using hf)]
    simp only [pageRequest] at hp
    simp [hp, Outcome.ofPanic]
  · rfl

theorem next_page (w : World) (client : Client) (dest : List Arg) (k : Nat) (tp : Int)
    (params : Values) (m : List Cell) (a b c : Int) (reqs : List Values)
    (he : dest.length % 2 = 0) (hv : ValidDest m.length dest) (h : a < tp)
    (hf : (w.transport reqs.length (pageRequest w client reqs.length params a)).failure = none)
    (hp : (arrangePairs (w.transport reqs.length
      (pageRequest w client reqs.length params a)).body dest m).2 = none) :
    nextRequestLoop w client (dest ++ localArgs m.length) m.length (k + 1) tp
        ⟨params, m ++ localCells a b c, reqs⟩ =
      if counterOf (w.transport reqs.length
            (pageRequest w client reqs.length params a)).body "TotalCount" = 0 ∨
          counterOf (w.transport reqs.length
            (pageRequest w client reqs.length params a)).body "PageSize" = 0 then
        none
      else
        nextRequestLoop w client (dest ++ localArgs m.length) m.length k
          (ceilDiv w.intOfFloat
            (counterOf (w.transport reqs.length
              (pageRequest w client reqs.length params a)).body "TotalCount")
            (counterOf (w.transport reqs.length
              (pageRequest w client reqs.length params a)).body "PageSize"))
          ⟨pageRequest w client reqs.length params a,
            (arrangePairs (w.transport reqs.length
              (pageRequest w client reqs.length params a)).body dest m).1 ++
              localCells
                (counterOf (w.transport reqs.length
                  (pageRequest w client reqs.length params a)).body "PageNumber")
                (counterOf (w.transport reqs.length
                  (pageRequest w client reqs.length params a)).body "TotalCount")
                (counterOf (w.transport reqs.length
                  (pageRequest w client reqs.length params a)).body "PageSize"),
            reqs ++ [pageRequest w client reqs.length params a]⟩ := by
  simp only [nextRequestLoop, currentPage_read m _ rfl, if_pos h]
  rw [Get_locals w client dest _ m (.int a) (.int b) (.int c) rfl he hv
    (by simpa [pageRequest] using hf)]
  simp only [pageRequest] at hp
  have hl := arrangePairs_length
    (w.transport reqs.length (requestParams w client reqs.length
      (merge params [Page (wrapInt (a + 1)) []]))).body dest m
  simp only [pageRequest, hp, Outcome.ofPanic, if_true]
  rw [← localCells, totalCount_read _ _ hl, pageSize_read _ _ hl]

theorem nextRequest_pair (w : World) (client : Client) (x y : Arg) (k : Nat) (s : State) :
    nextRequest w client [x, y] k s =
      nextRequestLoop w client ([x, y] ++ localArgs s.mem.length) s.mem.length k 1
        ⟨s.params, s.mem ++ localCells 0 0 0, s.requests⟩ := by
  rfl

/-- When the request of round `k + 1` fails, the loop returns that failure as soon
as it is given one more round, and the failed request is the last one sent. -/
theorem loop_fails_at (w : World) (client : Client) (dest : List Arg)
    (he : dest.length % 2 = 0) (base : Nat) (hv : ValidDest base dest) (e : GoError)
    (last : Values) :
    ∀ (k : Nat) (tp : Int) (params : Values) (m : List Cell) (a b c : Int)
      (reqs : List Values), m.length = base →
      nextRequestLoop w client (dest ++ localArgs base) base k tp
        ⟨params, m ++ localCells a b c, reqs⟩ = some last →
      (w.transport (reqs.length + k) last).failure = some e →
      ∀ x, ∃ s', getAllLoop w client (dest ++ localArgs base) base (k + 1 + x) tp
          ⟨params, m ++ localCells a b c, reqs⟩ = some (s', .error e) ∧
        s'.requests.length = reqs.length + k + 1 ∧ s'.requests.getLast? = some last := by
  intro k
  induction k with
  | zero =>
    intro tp params m a b c reqs hm hnext hfail x
    subst hm
    rw [next_zero] at hnext
    split at hnext
    · rename_i hlt
      simp only [Option.some.injEq] at hnext
      subst hnext
      have hfuel : 0 + 1 + x = x + 1 := by omega
      rw [hfuel, loop_fail w client _ x tp params m a b c reqs e hlt (by simpa using hfail)]
      exact ⟨_, rfl, by simp, by simp⟩
    · cases hnext
  | succ k ih =>
    intro tp params m a b c reqs hm hnext hfail x
    subst hm
    have hlt : a < tp := by
      by_contra hc
      rw [next_exit w client _ (k + 1) tp params m a b c reqs hc] at hnext
      cases hnext
    cases hf : (w.transport reqs.length (pageRequest w client reqs.length params a)).failure with
    | some e' =>
      rw [next_fail w client _ k tp params m a b c reqs e' hf] at hnext
      cases hnext
    | none =>
      cases hp : (arrangePairs (w.transport reqs.length
          (pageRequest w client reqs.length params a)).body dest m).2 with
      | some p =>
        rw [next_panic w client dest k tp params m a b c reqs p he hv hf hp] at hnext
        cases hnext
      | none =>
        have hl := arrangePairs_length (w.transport reqs.length
          (pageRequest w client reqs.length params a)).body dest m
        rw [next_page w client dest k tp params m a b c reqs he hv hlt hf hp] at hnext
        have hfuel : k + 1 + 1 + x = (k + 1 + x) + 1 := by omega
        rw [hfuel, loop_page w client dest (k + 1 + x) tp params m a b c reqs he hv hlt hf hp]
        split at hnext
        · cases hnext
        · rename_i hz
          rw [if_neg hz]
          have hfail' : (w.transport
              ((reqs ++ [pageRequest w client reqs.length params a]).length + k) last).failure =
              some e := by
            simpa [Nat.add_assoc, Nat.add_comm 1 k] using hfail
          obtain ⟨s', hrun, hlen, hlast⟩ := ih _ _ _ _ _ _ _ hl hnext hfail' x
          refine ⟨s', hrun, ?_, hlast⟩
          rw [hlen]
          simp
          omega

/-- Against responses without `PageNumber` but with a `TotalCount` and a `PageSize`
whose quotient is positive the loop never returns: `currentPage` is bound to 0
by every response. -/
theorem loop_never_returns (w : World) (client : Client) (dest : List Arg)
    (he : dest.length % 2 = 0) (base : Nat) (hv : ValidDest base dest)
    (body : Option JSON) (t sz : Int) (types : List GoType)
    (htr : ∀ n ps, w.transport n ps = .response 200 body)
    (hcode : (decodeEnvelope body).Code = "")
    (hpage : counterOf body "PageNumber" = 0)
    (htotal : counterOf body "TotalCount" = t) (hsize : counterOf body "PageSize" = sz)
    (ht : t ≠ 0) (hs : sz ≠ 0) (hceil : 0 < ceilDiv w.intOfFloat t sz)
    (hdest : ∀ m : List Cell, m.map Cell.typ = types → (arrangePairs body dest m).2 = none) :
    ∀ (fuel : Nat) (tp : Int) (params : Values) (m : List Cell) (b c : Int)
      (reqs : List Values), m.length = base → m.map Cell.typ = types → 0 < tp →
      getAllLoop w client (dest ++ localArgs base) base fuel tp
        ⟨params, m ++ localCells 0 b c, reqs⟩ = none := by
  intro fuel
  induction fuel with
  | zero =>
    intro tp params m b c reqs hm _ htp
    subst hm
    exact loop_stalled w client _ tp params m 0 b c reqs htp
  | succ fuel ih =>
    intro tp params m b c reqs hm hty htp
    subst hm
    have hf : (w.transport reqs.length (pageRequest w client reqs.length params 0)).failure =
        none := by
      rw [htr]; simp [Exchange.failure, hcode]
    have hbody : (w.transport reqs.length (pageRequest w client reqs.length params 0)).body =
        body := by
      rw [htr]; rfl
    rw [loop_page w client dest fuel tp params m 0 b c reqs he hv htp hf
      (by rw [hbody]; exact hdest m hty)]
    rw [hbody, hpage, htotal, hsize]
    have hz : ¬ (t = 0 ∨ sz = 0) := by
      intro h
      rcases h with h | h
      · exact ht h
      · exact hs h
    rw [if_neg hz]
    exact ih _ _ _ _ _ _ (arrangePairs_length body dest m)
      ((arrangePairs_typ body dest m).trans hty) hceil

/-! ## The claims -/

/-- C1: for a path `k1.….km.*.b` of literal keys around one wildcard and a
document in which `doc[k1]…[km]` is an array `elems` of `N` entries, `arrange`
into an empty slice destination `[]T` produces one element per entry, in array
order: the value under `b` of the entry decoded as a `T`, or the zero value of
`T` when the entry has no member `b`. The result has `N` elements, never fewer. -/
theorem C1_wildcard_slice (T : GoType) (keys : List String) (b : String) (doc : JSON)
    (elems : List JSON) (hlit : ∀ k ∈ keys, IsLiteral k) (hb : IsLiteral b)
    (hpath : doc.path keys = some (.arr elems)) :
    arrange (some doc) ⟨.slice T, .slice []⟩ (pathString (keys ++ ["*", b])) =
      .ok ⟨.slice T, .slice (elems.map (fun e =>
        match e.member b with
        | some j => (decode T j).1
        | none => zeroValue T))⟩ := by
  have hsplit : splitKey (pathString (keys ++ ["*", b])) = keys ++ ["*", b] := by
    apply splitKey_pathString _ (by simp)
    intro k hk
    simp only [List.mem_append, List.mem_cons, List.mem_singleton, List.not_mem_nil,
      or_false] at hk
    rcases hk with hk | hk | hk
    · exact (hlit k hk).2.2
    · subst hk; decide
    · subst hk; exact hb.2.2
  have hwalk := collect_decode_path T ["*", b] keys doc _ hlit hpath
  have hinner : ∀ e : JSON, collect (decode (.map T) e).1 [b] =
      .ok [match e.member b with
        | some j => (decode T j).1
        | none => .invalid] := by
    intro e
    rw [collect_literal_cons _ _ _ hb, mapIndex_decode]
    rfl
  have hcol : collect (decode (buildType T ["*", b]) (.arr elems)).1 ["*", b] =
      .ok (elems.map (fun e =>
        match e.member b with
        | some j => (decode T j).1
        | none => .invalid)) := by
    rw [buildType_star, buildType_literal _ _ _ hb, collect_star, decode_slice_arr]
    simp only [buildType, List.foldr_nil, elements, List.map_map]
    have : ((fun item => collect item [b]) ∘ fun j => (decode T.map j).1) =
        fun e => Except.ok [match e.member b with
          | some j => (decode T j).1
          | none => Val.invalid] := by
      funext e; exact hinner e
    rw [this, appendAll_singletons]
  unfold arrange
  simp only [hsplit, baseTypeOf, unmarshal]
  rw [hwalk, hcol]
  simp only [foldl_bind_slice, List.nil_append, List.map_map]
  congr 3
  apply List.map_congr_left
  intro e _
  simp only [Function.comp]
  cases e.member b with
  | none => simp [Val.IsValid]
  | some j => simp [decode_isValid]

/-- C1, witness: the scenario of the specification gives `["a.com", "b.com"]`, and
an entry without `DomainName` keeps its place with the zero value. -/
theorem C1_wildcard_slice_witness :
    arrange (some domainsDoc) ⟨.slice .string, .slice []⟩ "Domains.Domain.*.DomainName" =
        .ok ⟨.slice .string, .slice [.str "a.com", .str "b.com"]⟩ ∧
      arrange (some gappedDoc) ⟨.slice .string, .slice []⟩ "Domains.Domain.*.DomainName" =
        .ok ⟨.slice .string, .slice [.str "a.com", .str "", .str "c.com"]⟩ :=
  ⟨C1_wildcard_slice .string ["Domains", "Domain"] "DomainName" domainsDoc
      [.obj [("DomainName", .str "a.com")], .obj [("DomainName", .str "b.com")]]
      (by decide) (by decide) rfl,
    C1_wildcard_slice .string ["Domains", "Domain"] "DomainName" gappedDoc
      [.obj [("DomainName", .str "a.com")], .obj [("RR", .str "www")],
        .obj [("DomainName", .str "c.com")]]
      (by decide) (by decide) rfl⟩

/-- C2: for a path `k1.….kn` of literal keys (`n ≥ 1`) and a document that has the
member chain `doc[k1]…[kn] = j`, `arrange` into a scalar destination of type `T`
(any type that is not a slice), whatever it held before, leaves in it exactly
the value `j` decodes to as a `T`: the result of the direct field access. What
else the document holds beside the chain does not matter. -/
theorem C2_literal_path_scalar (T : GoType) (old : Val) (keys : List String) (doc j : JSON)
    (hne : keys ≠ []) (hlit : ∀ k ∈ keys, IsLiteral k) (hT : ∀ e, T ≠ .slice e)
    (hpath : doc.path keys = some j) :
    arrange (some doc) ⟨T, old⟩ (pathString keys) = .ok ⟨T, (decode T j).1⟩ := by
  have hsplit := splitKey_pathString keys hne (fun k hk => (hlit k hk).2.2)
  have hwalk := collect_decode_path T [] keys doc j hlit hpath
  simp only [List.append_nil] at hwalk
  have hbase : baseTypeOf T = T := by
    cases T <;> first | rfl | exact absurd rfl (hT _)
  have hbind := bind_scalar T hT old (decode T j).1 (decode_isValid T j)
  rw [hbase] at hbind
  unfold arrange
  simp only [hsplit, hbase, unmarshal]
  rw [hwalk]
  simp only [buildType, List.foldr_nil, collect_nil, List.foldl_cons, List.foldl_nil, hbind]

/-- C2, witness: `RecordId` of an `AddDomainRecord` response, and a nested page
counter read as an `int`. -/
theorem C2_literal_path_scalar_witness :
    arrange (some recordDoc) ⟨.string, .str ""⟩ "RecordId" = .ok ⟨.string, .str "9999"⟩ ∧
      arrange (some recordDoc) ⟨.int, .int 5⟩ "Paging.Page.Number" = .ok ⟨.int, .int 2⟩ :=
  ⟨C2_literal_path_scalar .string (.str "") ["RecordId"] recordDoc (.str "9999")
      (by decide) (by decide) (by simp) rfl,
    C2_literal_path_scalar .int (.int 5) ["Paging", "Page", "Number"] recordDoc (.num 2)
      (by decide) (by decide) (by simp) rfl⟩

/-- C3, the code at the failing input: every response has status 200 and no
error code, reports the page that was requested and the same
`TotalCount = 2 ^ 53 + 1` and `PageSize = 2 ^ 53`, so that `⌈t / s⌉ = 2`. The
conversion `float64(totalCount)` of alidns.go:129 rounds `2 ^ 53 + 1` to
`2 ^ 53`, the quotient is `1.0` and `totalPages` becomes 1: for every positive
bound on the rounds `GetAll` returns success after the one request for page
1, and page 2 is never fetched. -/
theorem C3_float_ceiling_loses_a_page :
    (∀ p, (decodeEnvelope (hugePage p)).Code = "") ∧
      (∀ p, Reports (hugePage p) "TotalCount" (2 ^ 53 + 1)) ∧
      (∀ p, Reports (hugePage p) "PageSize" (2 ^ 53)) ∧
      Reports (hugePage "1") "PageNumber" 1 ∧ Reports (hugePage "2") "PageNumber" 2 ∧
      ⌈(((2 : Int) ^ 53 + 1 : Int) : ℚ) / (((2 : Int) ^ 53 : Int) : ℚ)⌉ = 2 ∧
      toFloat64 (2 ^ 53 + 1) = 2 ^ 53 ∧
      ceilDiv hugeWorld.intOfFloat (2 ^ 53 + 1) (2 ^ 53) = 1 ∧
      ∀ fuel : Nat, (GetAll hugeWorld testClient listingDest (fuel + 1) listingStart).map
        (fun r => (r.1.requests.map (fun ps => ps.Get "PageNumber"), r.1.mem.map Cell.val,
          r.2)) = some (["1"], [.slice [.str "old.com", .str "a.com"]], .ok) := by
  refine ⟨?_, ?_, ?_, ⟨_, rfl, rfl⟩, ⟨_, rfl, rfl⟩, ?_, by decide, by decide, ?_⟩
  · intro p; unfold hugePage; split_ifs <;> rfl
  · intro p; unfold hugePage; split_ifs <;> exact ⟨_, rfl, rfl⟩
  · intro p; unfold hugePage; split_ifs <;> exact ⟨_, rfl, rfl⟩
  · rw [Int.ceil_eq_iff]
    norm_num
  · intro fuel
    have hv : ValidDest listingStart.mem.length listingDest := by
      intro i hi
      simp [listingDest] at hi
      simp [listingStart, hi]
    have hpage := loop_page hugeWorld testClient listingDest fuel 1 listingStart.params
      listingStart.mem 0 0 0 listingStart.requests (by decide) hv (by decide) rfl rfl
    have hbody : (hugeWorld.transport listingStart.requests.length
        (pageRequest hugeWorld testClient listingStart.requests.length listingStart.params
          0)).body = some (hugeDoc 1 ["a.com"]) := rfl
    rw [hbody] at hpage
    have hc1 : counterOf (some (hugeDoc 1 ["a.com"])) "PageNumber" = 1 := by decide
    have hc2 : counterOf (some (hugeDoc 1 ["a.com"])) "TotalCount" = 2 ^ 53 + 1 := by decide
    have hc3 : counterOf (some (hugeDoc 1 ["a.com"])) "PageSize" = 2 ^ 53 := by decide
    have hceil : ceilDiv hugeWorld.intOfFloat (2 ^ 53 + 1) (2 ^ 53) = 1 := by decide
    rw [hc1, hc2, hc3, if_neg (by decide), hceil] at hpage
    have hl := arrangePairs_length (some (hugeDoc 1 ["a.com"])) listingDest listingStart.mem
    have hexit := loop_exit hugeWorld testClient (listingDest ++ localArgs listingStart.mem.length)
      fuel 1 (pageRequest hugeWorld testClient listingStart.requests.length listingStart.params 0)
      (arrangePairs (some (hugeDoc 1 ["a.com"])) listingDest listingStart.mem).1 1 (2 ^ 53 + 1)
      (2 ^ 53)
      (listingStart.requests ++
        [pageRequest hugeWorld testClient listingStart.requests.length listingStart.params 0])
      (by decide)
    rw [hl] at hexit
    rw [hexit] at hpage
    rw [GetAll_even hugeWorld testClient listingDest (fuel + 1) listingStart (by decide), hpage]
    rfl

/-- C4: when the first exchange of `GetAll` gives status 200 and a body without
error code, the caller's pairs are extracted without panic, and the body binds
`TotalCount` to 0 or `PageSize` to 0 (a missing member binds 0 too), `GetAll`
returns success after this one request, for every positive bound on the
rounds and whatever the body holds for the other counters; the caller's
variables are the ones this single response filled. -/
theorem C4_zero_counter_stops (w : World) (client : Client) (dest : List Arg) (s : State)
    (body : Option JSON) (fuel : Nat)
    (he : dest.length % 2 = 0) (hv : ValidDest s.mem.length dest)
    (hex : w.transport s.requests.length
      (pageRequest w client s.requests.length s.params 0) = .response 200 body)
    (hcode : (decodeEnvelope body).Code = "")
    (hdest : (arrangePairs body dest s.mem).2 = none)
    (hzero : arrange body ⟨.int, .int 0⟩ "TotalCount" = .ok ⟨.int, .int 0⟩ ∨
      arrange body ⟨.int, .int 0⟩ "PageSize" = .ok ⟨.int, .int 0⟩) :
    GetAll w client dest (fuel + 1) s =
      some (⟨pageRequest w client s.requests.length s.params 0,
        (arrangePairs body dest s.mem).1,
        s.requests ++ [pageRequest w client s.requests.length s.params 0]⟩, .ok) := by
  have hf : (w.transport s.requests.length
      (pageRequest w client s.requests.length s.params 0)).failure = none := by
    rw [hex]; simp [Exchange.failure, hcode]
  have hbody : (w.transport s.requests.length
      (pageRequest w client s.requests.length s.params 0)).body = body := by
    rw [hex]; rfl
  have hz : counterOf body "TotalCount" = 0 ∨ counterOf body "PageSize" = 0 := by
    rw [arrange_counter body _ "TotalCount" (by decide),
      arrange_counter body _ "PageSize" (by decide)] at hzero
    simpa using hzero
  rw [GetAll_even w client dest _ s he,
    loop_page w client dest fuel 1 s.params s.mem 0 0 0 s.requests he hv (by decide) hf
      (by rw [hbody]; exact hdest), hbody, if_pos hz]
  have hl := arrangePairs_length body dest s.mem
  simp [← hl]

/-- C4, witness: an empty listing without counters ends the run after one
request and leaves the caller's slice as it was. -/
theorem C4_zero_counter_stops_witness :
    GetAll (worldOf (fun _ _ => .response 200 (some emptyDoc))) testClient listingDest 4
        listingStart =
      some (⟨pageRequest (worldOf (fun _ _ => .response 200 (some emptyDoc))) testClient 0
          listingStart.params 0,
        [⟨.slice .string, .slice [.str "old.com"]⟩],
        [pageRequest (worldOf (fun _ _ => .response 200 (some emptyDoc))) testClient 0
          listingStart.params 0]⟩, .ok) :=
  C4_zero_counter_stops (worldOf (fun _ _ => .response 200 (some emptyDoc))) testClient
    listingDest listingStart (some emptyDoc) 3 (by decide)
    (by intro i hi; simp [listingDest] at hi; simp [listingStart, hi])
    rfl rfl rfl (Or.inl rfl)

/-- C5: whatever the status code and the destinations, when the envelope of the
response body decodes to a non-empty `Code`, `Get` returns the `ResponseError`
with exactly the decoded `Code` and `Message`, and no variable of the caller is
written. -/
theorem C5_error_code_first (w : World) (client : Client) (dest : List Arg) (s : State)
    (status : Int) (body : Option JSON)
    (hex : w.transport s.requests.length
      (requestParams w client s.requests.length s.params) = .response status body)
    (hcode : (decodeEnvelope body).Code ≠ "") :
    (Get w client dest s).2 = .error (.response (decodeEnvelope body)) ∧
      (Get w client dest s).1.mem = s.mem := by
  have hf : (w.transport s.requests.length
      (requestParams w client s.requests.length s.params)).failure =
      some (.response (decodeEnvelope body)) := by
    rw [hex]; simp [Exchange.failure, hcode]
  rw [Get_failure w client dest s _ hf]
  exact ⟨rfl, rfl⟩

/-- C5, witness: the `InvalidAccessKeyId.NotFound` envelope under status 200 is
returned as the error and the destination keeps its old value. -/
theorem C5_error_code_first_witness :
    (Get errorWorld testClient [.ptr 0, .str "RecordId"] ⟨[], [⟨.string, .str "old"⟩], []⟩).2 =
        .error (.response
          ⟨"Specified access key is not found.", "InvalidAccessKeyId.NotFound"⟩) ∧
      (Get errorWorld testClient [.ptr 0, .str "RecordId"]
        ⟨[], [⟨.string, .str "old"⟩], []⟩).1.mem = [⟨.string, .str "old"⟩] :=
  C5_error_code_first errorWorld testClient [.ptr 0, .str "RecordId"]
    ⟨[], [⟨.string, .str "old"⟩], []⟩ 200 (some errorDoc) rfl (by decide)

/-- C6: `GetAll` with exactly one destination argument returns the arity error
for every params, every argument and every bound on the rounds; the state it
returns is the state it was given, so no request was sent and no variable
written. -/
theorem C6_single_dest_rejected (w : World) (client : Client) (target : Arg) (fuel : Nat)
    (s : State) : GetAll w client [target] fuel s = some (s, .error .arity) := by
  rfl

/-- C7, the code at the failing inputs: with the document `{}` the walk of `a.b`
and of `a.*` stops with the panic of a `reflect` call on the zero Value that
the lookup of the absent key `a` returned, and so does `arrange`; only an
absent last key is bound to the zero value. -/
theorem C7_absent_inner_key_panics :
    collect (unmarshal (buildType .string (splitKey "a.b")) (some (.obj []))).1 (splitKey "a.b") =
        .error .zeroValue ∧
      arrange (some (.obj [])) ⟨.string, .str "old"⟩ "a.b" = .error .zeroValue ∧
      arrange (some (.obj [])) ⟨.slice .string, .slice []⟩ "a.*" = .error .zeroValue ∧
      arrange (some (.obj [("a", .obj [])])) ⟨.string, .str "old"⟩ "a.b" =
        .ok ⟨.string, .str ""⟩ :=
  ⟨rfl, rfl, rfl, rfl⟩

/-- C8, counterexample: a body whose `RecordId` is a number, and a body that is not
JSON at all, both make `json.Unmarshal` inside `arrange` report an error for
the pair `(&recordId, "RecordId")`; the responses carry no error code and
status 200, and `Get` returns `nil`. -/
theorem C8_decode_error_is_not_surfaced :
    (unmarshal (buildType .string (splitKey "RecordId")) (some mismatchDoc)).2 = true ∧
      (decodeEnvelope (some mismatchDoc)).Code = "" ∧
      (Get (worldOf (fun _ _ => .response 200 (some mismatchDoc))) testClient
        [.ptr 0, .str "RecordId"] ⟨[], [⟨.string, .str "old"⟩], []⟩).2 = .ok ∧
      (unmarshal (buildType .string (splitKey "RecordId")) none).2 = true ∧
      (Get (worldOf (fun _ _ => .response 200 none)) testClient
        [.ptr 0, .str "RecordId"] ⟨[], [⟨.string, .str "old"⟩], []⟩).2 = .ok :=
  ⟨rfl, rfl, rfl, rfl, rfl⟩

/-- C8, as amended: for a response with status 200 and no error code, `Get` with
at least one `(sink, path)` pair never returns an error, whether or not the
body decodes into the shapes derived for the pairs: the error of
`json.Unmarshal` is dropped. `Get` returns `nil` when every walk completes, it
ends with the panic of the first walk that does not, and the caller's
variables are the ones the pairs have filled from what was decoded. In
particular a scalar sink with a path of literal keys that leads to the member
`j` is left holding `j` decoded as its type `T`, the zero value of `T` when
`j` is of another kind, whatever else in the body did not decode; and from a
body that is not valid JSON a scalar sink with a path of one key is left
holding the zero value of `T`. In both cases the result is `nil`. -/
theorem C8_decode_error_dropped (w : World) (client : Client) (dest : List Arg) (s : State)
    (body : Option JSON) (hlen : 2 ≤ dest.length) (hv : ValidDest s.mem.length dest)
    (hex : w.transport s.requests.length
      (requestParams w client s.requests.length s.params) = .response 200 body)
    (hcode : (decodeEnvelope body).Code = "") :
    (Get w client dest s).2 = Outcome.ofPanic (arrangePairs body dest s.mem).2 ∧
      (∀ e, (Get w client dest s).2 ≠ .error e) ∧
      (Get w client dest s).1.mem = (arrangePairs body dest s.mem).1 ∧
      (∀ (i : Nat) (T : GoType) (old : Val) (keys : List String) (doc j : JSON),
        dest = [.ptr i, .str (pathString keys)] → body = some doc →
        s.mem[i]? = some ⟨T, old⟩ → keys ≠ [] → (∀ k ∈ keys, IsLiteral k) →
        (∀ e, T ≠ .slice e) → doc.path keys = some j →
        (Get w client dest s).2 = .ok ∧
          (Get w client dest s).1.mem = s.mem.set i ⟨T, (decode T j).1⟩) ∧
      (∀ (i : Nat) (T : GoType) (old : Val) (key : String),
        dest = [.ptr i, .str key] → body = none → s.mem[i]? = some ⟨T, old⟩ →
        IsLiteral key → (∀ e, T ≠ .slice e) →
        (Get w client dest s).2 = .ok ∧
          (Get w client dest s).1.mem = s.mem.set i ⟨T, zeroValue T⟩) := by
  have h : Get w client dest s =
      (⟨requestParams w client s.requests.length s.params, (arrangePairs body dest s.mem).1,
        s.requests ++ [requestParams w client s.requests.length s.params]⟩,
        Outcome.ofPanic (arrangePairs body dest s.mem).2) := by
    simp only [Get, hex, handleResponse_pairs w body dest s.mem hlen hcode]
  rw [h]
  refine ⟨rfl, ?_, rfl, ?_, ?_⟩
  · intro e
    cases (arrangePairs body dest s.mem).2 <;> simp [Outcome.ofPanic]
  · intro i T old keys doc j hd hb hcell hne hlit hT hpath
    subst hd hb
    rw [arrangePairs_one (some doc) i _ s.mem _ _ hcell
      (arrange_literal_path T old keys doc j hne hlit hT hpath)]
    exact ⟨rfl, rfl⟩
  · intro i T old key hd hb hcell hk hT
    subst hd hb
    rw [arrangePairs_one none i _ s.mem _ _ hcell (arrange_invalid_body T old key hk hT)]
    exact ⟨rfl, rfl⟩

/-- C8, witness of the amended claim: the body whose `RecordId` is a number gives
`nil` and leaves the empty string in the `string` that held `old`. -/
theorem C8_decode_error_dropped_witness :
    (unmarshal (buildType .string (splitKey "RecordId")) (some mismatchDoc)).2 = true ∧
      (Get (worldOf (fun _ _ => .response 200 (some mismatchDoc))) testClient
        [.ptr 0, .str "RecordId"] ⟨[], [⟨.string, .str "old"⟩], []⟩).2 = .ok ∧
      (Get (worldOf (fun _ _ => .response 200 (some mismatchDoc))) testClient
        [.ptr 0, .str "RecordId"] ⟨[], [⟨.string, .str "old"⟩], []⟩).1.mem =
        [⟨.string, .str ""⟩] :=
  ⟨rfl,
    ((C8_decode_error_dropped (worldOf (fun _ _ => .response 200 (some mismatchDoc))) testClient
      [.ptr 0, .str "RecordId"] ⟨[], [⟨.string, .str "old"⟩], []⟩ (some mismatchDoc)
      (by decide) (by intro i hi; simp at hi; simp [hi]) rfl rfl).2.2.2.1 0 .string (.str "old")
      ["RecordId"] mismatchDoc (.num 5) rfl rfl rfl (by decide) (by decide) (by simp) rfl).1,
    ((C8_decode_error_dropped (worldOf (fun _ _ => .response 200 (some mismatchDoc))) testClient
      [.ptr 0, .str "RecordId"] ⟨[], [⟨.string, .str "old"⟩], []⟩ (some mismatchDoc)
      (by decide) (by intro i hi; simp at hi; simp [hi]) rfl rfl).2.2.2.1 0 .string (.str "old")
      ["RecordId"] mismatchDoc (.num 5) rfl rfl rfl (by decide) (by decide) (by simp) rfl).2⟩

/-- C9: in every run of `GetAll` with a `(slice destination, path)` pair that ends
in success, the requests sent are the old ones followed by `new`, every one of
them was answered without failure, and the destination ends as its initial
contents followed by what the walk collected from the first response, then
from the second, and so on in the order of the fetches; inside one response
the order of the walk is kept. -/
theorem C9_pages_appended_in_order (w : World) (client : Client) (i : Nat) (path : String)
    (T : GoType) (init : List Val) (fuel : Nat) (s s' : State)
    (hcell : s.mem[i]? = some ⟨.slice T, .slice init⟩)
    (hrun : GetAll w client [.ptr i, .str path] fuel s = some (s', .ok)) :
    ∃ new : List Values, s'.requests = s.requests ++ new ∧
      (∀ ex ∈ exchanges w s.requests.length new, ex.failure = none) ∧
      s'.mem[i]? = some ⟨.slice T, .slice (init ++
        (exchanges w s.requests.length new).flatMap (fun ex => collected T path ex.body))⟩ := by
  have hi : i < s.mem.length := by
    by_contra hc
    rw [List.getElem?_eq_none (by omega)] at hcell
    cases hcell
  have hv : ValidDest s.mem.length [.ptr i, .str path] := by
    intro j hj
    simp only [List.mem_cons, Arg.ptr.injEq, List.mem_singleton, List.not_mem_nil,
      or_false] at hj
    rcases hj with hj | hj
    · omega
    · cases hj
  rw [GetAll_pair] at hrun
  cases hloop : getAllLoop w client ([.ptr i, .str path] ++ localArgs s.mem.length) s.mem.length
      fuel 1 ⟨s.params, s.mem ++ localCells 0 0 0, s.requests⟩ with
  | none => rw [hloop] at hrun; cases hrun
  | some r =>
    obtain ⟨s1, out⟩ := r
    rw [hloop] at hrun
    simp only [Option.map_some', Option.some.injEq, Prod.mk.injEq] at hrun
    obtain ⟨hs, ho⟩ := hrun
    subst ho
    obtain ⟨new, m', a', b', c', hreq, hmem, hlen, hok, _⟩ :=
      loop_trace w client [.ptr i, .str path] (by simp) s.mem.length hv fuel 1 s.params s.mem 0 0 0
        s.requests s1 .ok rfl hloop
    obtain ⟨hall, hm'⟩ := hok rfl
    refine ⟨new, by rw [← hs]; exact hreq, hall, ?_⟩
    rw [← hs]
    simp only [hmem, ← hlen, List.take_left']
    rw [hm', bindPages_single_slice i path T _ init s.mem hcell, List.flatMap_map]

/-- C9, witness: three pages of a listing are appended, in order, behind the name
the slice held before. -/
theorem C9_pages_appended_in_order_witness :
    (∃ new : List Values, listingEnd.requests = listingStart.requests ++ new ∧
      (∀ ex ∈ exchanges listingWorld listingStart.requests.length new, ex.failure = none) ∧
      listingEnd.mem[0]? = some ⟨.slice .string, .slice ([.str "old.com"] ++
        (exchanges listingWorld listingStart.requests.length new).flatMap
          (fun ex => collected .string "Domains.Domain.*.DomainName" ex.body))⟩) ∧
      listingEnd.requests.length = 3 ∧
      listingEnd.mem[0]? = some ⟨.slice .string,
        .slice [.str "old.com", .str "a.com", .str "b.com", .str "c.com", .str "d.com",
          .str "e.com", .str "f.com", .str "g.com"]⟩ :=
  ⟨C9_pages_appended_in_order listingWorld testClient 0 "Domains.Domain.*.DomainName" .string
      [.str "old.com"] 4 listingStart listingEnd rfl rfl,
    rfl, rfl⟩

/-- C10: let a run of `GetAll` with a `(slice destination, path)` pair get to its
round `k + 1` (`k` pages were fetched and extracted, and the loop asks for
another one), let `last` be the request of that round, and let the exchange
of `last` fail with `e` (transport error, error code, or status other than
200). Then, for every bound on the rounds above `k`, `GetAll` returns exactly
`e`; the requests sent are the old ones, the `k` requests `pre` that were
answered without failure, and the failed request `last`, with nothing after
it; the destination holds its initial contents followed by the items of the
`k` answered pages, in order: nothing of the failed page, nothing taken
back. -/
theorem C10_first_error_aborts (w : World) (client : Client) (i : Nat) (path : String)
    (T : GoType) (init : List Val) (s : State) (k fuel : Nat) (e : GoError) (last : Values)
    (hcell : s.mem[i]? = some ⟨.slice T, .slice init⟩)
    (hnext : nextRequest w client [.ptr i, .str path] k s = some last)
    (hfail : (w.transport (s.requests.length + k) last).failure = some e)
    (hfuel : k < fuel) :
    ∃ (s' : State) (pre : List Values),
      GetAll w client [.ptr i, .str path] fuel s = some (s', .error e) ∧
      s'.requests = s.requests ++ pre ++ [last] ∧ pre.length = k ∧
      (∀ ex ∈ exchanges w s.requests.length pre, ex.failure = none) ∧
      s'.mem[i]? = some ⟨.slice T, .slice (init ++
        (exchanges w s.requests.length pre).flatMap (fun ex => collected T path ex.body))⟩ := by
  have hi : i < s.mem.length := by
    by_contra hc
    rw [List.getElem?_eq_none (by omega)] at hcell
    cases hcell
  have hv : ValidDest s.mem.length [.ptr i, .str path] := by
    intro j hj
    simp only [List.mem_cons, Arg.ptr.injEq, List.mem_singleton, List.not_mem_nil,
      or_false] at hj
    rcases hj with hj | hj
    · omega
    · cases hj
  rw [nextRequest_pair] at hnext
  obtain ⟨x, hx⟩ : ∃ x, fuel = k + 1 + x := ⟨fuel - (k + 1), by omega⟩
  obtain ⟨s1, hrun, hlen, hlast⟩ := loop_fails_at w client [.ptr i, .str path] (by simp)
    s.mem.length hv e last k 1 s.params s.mem 0 0 0 s.requests rfl hnext hfail x
  obtain ⟨new, m', a', b', c', hreq, hmem, hlen', _, herr⟩ :=
    loop_trace w client [.ptr i, .str path] (by simp) s.mem.length hv (k + 1 + x) 1 s.params
      s.mem 0 0 0 s.requests s1 (.error e) rfl hrun
  obtain ⟨pre, last', hnew, hall, _, hm'⟩ := herr e rfl
  have hll : last' = last := by
    rw [hreq, hnew, ← List.append_assoc, List.getLast?_append] at hlast
    simpa using hlast
  subst hll
  have hpl : pre.length = k := by
    have := congrArg List.length hreq
    rw [hlen, hnew] at this
    simp at this
    omega
  refine ⟨{ s1 with mem := s1.mem.take s.mem.length }, pre, ?_, ?_, hpl, hall, ?_⟩
  · rw [GetAll_pair, hx, hrun]; rfl
  · simp [hreq, hnew]
  · simp only [hmem, ← hlen', List.take_left']
    rw [hm', bindPages_single_slice i path T _ init s.mem hcell, List.flatMap_map]

/-- C10, witness: the server is out of order for page 2 and for nothing else; the
error of that exchange is returned, two requests were sent and the slice
holds the old name and the first page. -/
theorem C10_first_error_aborts_witness :
    (∃ (s' : State) (pre : List Values),
      GetAll pageTwoDownWorld testClient [.ptr 0, .str "Domains.Domain.*.DomainName"] 4
        listingStart = some (s', .error (.status 503)) ∧
      s'.requests = listingStart.requests ++ pre ++
        [pageRequest pageTwoDownWorld testClient 1
          (pageRequest pageTwoDownWorld testClient 0 listingStart.params 0) 1] ∧
      pre.length = 1 ∧
      (∀ ex ∈ exchanges pageTwoDownWorld listingStart.requests.length pre, ex.failure = none) ∧
      s'.mem[0]? = some ⟨.slice .string, .slice ([.str "old.com"] ++
        (exchanges pageTwoDownWorld listingStart.requests.length pre).flatMap
          (fun ex => collected .string "Domains.Domain.*.DomainName" ex.body))⟩) ∧
      (GetAll pageTwoDownWorld testClient listingDest 4 listingStart).map
        (fun r => (r.1.requests.map (fun ps => ps.Get "PageNumber"), r.1.mem.map Cell.val,
          r.2)) =
        some (["1", "2"], [.slice [.str "old.com", .str "a.com", .str "b.com", .str "c.com"]],
          .error (.status 503)) ∧
      (pageTwoDownWorld.transport 1 [("PageNumber", ["1"])]).failure = none :=
  ⟨C10_first_error_aborts pageTwoDownWorld testClient 0 "Domains.Domain.*.DomainName" .string
      [.str "old.com"] listingStart 1 4 (.status 503)
      (pageRequest pageTwoDownWorld testClient 1
        (pageRequest pageTwoDownWorld testClient 0 listingStart.params 0) 1)
      rfl rfl rfl (by decide),
    rfl, rfl⟩

/-- C11, the code at the failing input: the listing of the test, answered by
pages with `TotalCount = 7` and `PageSize = 3` that leave `PageNumber` out, so
that the page counter is bound to 0 after every fetch. The stop test of
alidns.go:126 looks at `totalCount` and `pageSize` only, the loop condition
`0 < 3` holds again, and page 1 is fetched once more: `GetAll` is still
running after every number of rounds, and there is no number of rounds after
which it returns. -/
theorem C11_missing_page_number_never_stops :
    (decodeEnvelope (some noPageDoc)).Code = "" ∧
      counterOf (some noPageDoc) "PageNumber" = 0 ∧
      counterOf (some noPageDoc) "TotalCount" = 7 ∧
      counterOf (some noPageDoc) "PageSize" = 3 ∧
      (∀ fuel, GetAll noPageWorld testClient listingDest fuel listingStart = none) ∧
      ¬ ∃ fuel r, GetAll noPageWorld testClient listingDest fuel listingStart = some r := by
  have hloop := loop_never_returns noPageWorld testClient listingDest (by decide)
    listingStart.mem.length
    (by intro i hi; simp [listingDest] at hi; simp [listingStart, hi])
    (some noPageDoc) 7 3 (listingStart.mem.map Cell.typ)
    (fun _ _ => rfl) rfl rfl rfl rfl (by decide) (by decide) (by decide)
    (by
      intro m hm
      match m, hm with
      | [⟨_, v⟩], hm =>
        simp only [listingStart, List.map_cons, List.map_nil, List.cons.injEq, and_true] at hm
        subst hm
        rfl)
  have hall : ∀ fuel, GetAll noPageWorld testClient listingDest fuel listingStart = none := by
    intro fuel
    rw [GetAll_even _ _ listingDest fuel _ (by decide)]
    rw [hloop fuel 1 listingStart.params listingStart.mem 0 0 listingStart.requests rfl rfl
      (by decide)]
    rfl
  refine ⟨rfl, rfl, rfl, rfl, hall, ?_⟩
  rintro ⟨fuel, r, h⟩
  rw [hall fuel] at h
  cases h

/-- C12, the code at the failing input: the destination list
`&domains, "Domains.Domain.*.DomainName", &domains` of three entries is not
rejected. Against the listing server `GetAll`, for every positive bound on
the rounds, hands one request to the transport, appends the names of the
first page to `domains` and then fails at run time, at the type assertion on
the path of the second pair, which is the pointer to the page counter. The
arity error, with which a list of one entry is rejected before any request,
is not returned. -/
theorem C12_odd_list_reaches_the_transport :
    unpairedDest.length = 3 ∧
      (∀ fuel : Nat, (GetAll listingWorld testClient unpairedDest (fuel + 1) listingStart).map
        (fun r => (r.1.requests.length, r.1.mem.map Cell.val, r.2)) =
          some (1, [.slice [.str "old.com", .str "a.com", .str "b.com", .str "c.com"]],
            .panic .typeAssertion)) ∧
      GetAll listingWorld testClient unpairedDest 1 listingStart ≠
        some (listingStart, .error .arity) ∧
      GetAll listingWorld testClient [.ptr 0] 1 listingStart =
        some (listingStart, .error .arity) :=
  ⟨rfl, fun _ => rfl, by
    intro h
    have h2 := congrArg (fun r => r.map (fun x => x.1.requests.length)) h
    revert h2
    decide, rfl⟩

/-- C13: for every path `p`, element type `T`, value, document and destination,
the shape derived from `p`, the sequence collected along `p` and the outcome
of `arrange` with `p` (the destination it leaves, or the panic) are the same
as for `p` with its empty segments deleted. -/
theorem C13_empty_segments_are_skipped (p : String) (T : GoType) (x : Val)
    (data : Option JSON) (target : Cell) :
    buildType T (splitKey p) = buildType T (splitKey (deleteEmpty p)) ∧
      collect x (splitKey p) = collect x (splitKey (deleteEmpty p)) ∧
      arrange data target p = arrange data target (deleteEmpty p) := by
  have h := splitKey_deleteEmpty p
  refine ⟨?_, ?_, arrange_congr data target p _ h.symm⟩
  · rw [buildType_filter _ (splitKey p), buildType_filter _ (splitKey (deleteEmpty p)), h]
  · rw [collect_filter (splitKey p), collect_filter (splitKey (deleteEmpty p)), h]

/-- C13, examples: `a..b`, `.a.b` and `a.b.` become `a.b` when their empty
segments are deleted, and extraction with each of them does what it does
with `a.b`. -/
theorem C13_empty_segments_examples :
    (deleteEmpty "a..b" = "a.b" ∧ deleteEmpty ".a.b" = "a.b" ∧ deleteEmpty "a.b." = "a.b") ∧
      arrange (some chainDoc) ⟨.string, .str ""⟩ "a..b" =
        arrange (some chainDoc) ⟨.string, .str ""⟩ "a.b" ∧
      arrange (some chainDoc) ⟨.string, .str ""⟩ ".a.b" =
        arrange (some chainDoc) ⟨.string, .str ""⟩ "a.b" ∧
      arrange (some chainDoc) ⟨.string, .str ""⟩ "a.b." =
        arrange (some chainDoc) ⟨.string, .str ""⟩ "a.b" ∧
      arrange (some chainDoc) ⟨.string, .str ""⟩ "a.b" = .ok ⟨.string, .str "v"⟩ :=
  ⟨by decide,
    (C13_empty_segments_are_skipped "a..b" .string .invalid (some chainDoc)
      ⟨.string, .str ""⟩).2.2,
    (C13_empty_segments_are_skipped ".a.b" .string .invalid (some chainDoc)
      ⟨.string, .str ""⟩).2.2,
    (C13_empty_segments_are_skipped "a.b." .string .invalid (some chainDoc)
      ⟨.string, .str ""⟩).2.2,
    rfl⟩

/-- C14, as amended: for the empty path the derived shape is the element type
itself, without map or slice around it, and exactly one value is collected,
the whole document decoded as that type. A scalar destination of type `T` is
left holding the whole document decoded as a `T`. A slice destination `[]T`
is left holding its former elements followed by one new element, the whole
document decoded as a `T`. -/
theorem C14_empty_path (T : GoType) (old : Val) (items : List Val) (data : Option JSON) :
    buildType (baseTypeOf T) (splitKey "") = baseTypeOf T ∧
      collect (unmarshal (baseTypeOf T) data).1 (splitKey "") =
        .ok [(unmarshal (baseTypeOf T) data).1] ∧
      ((∀ e, T ≠ .slice e) → arrange data ⟨T, old⟩ "" = .ok ⟨T, (unmarshal T data).1⟩) ∧
      arrange data ⟨.slice T, .slice items⟩ "" =
        .ok ⟨.slice T, .slice (items ++ [(unmarshal T data).1])⟩ := by
  have hshape : ∀ B : GoType, buildType B (splitKey "") = B := by
    intro B; simp [splitKey_empty, buildType]
  have hcol : ∀ x : Val, collect x (splitKey "") = .ok [x] := by
    intro x; simp [splitKey_empty, collect]
  refine ⟨hshape _, hcol _, ?_, ?_⟩
  · intro hT
    have hbase : baseTypeOf T = T := by
      cases T <;> first | rfl | exact absurd rfl (hT _)
    unfold arrange
    simp only [hshape, hcol, List.foldl_cons, List.foldl_nil]
    rw [bind_scalar T hT old _ (by rw [hbase]; exact unmarshal_isValid T data), hbase]
  · unfold arrange
    simp only [baseTypeOf, hshape, hcol, foldl_bind_slice, List.map_cons, List.map_nil,
      unmarshal_isValid, if_true]

/-- C14, counterexample: the document `["a","b"]` with the empty path into an empty
`[]string` leaves the one element `""` (an array does not decode as a
`string`), not the document decoded as a `[]string`, which is `["a","b"]`. -/
theorem C14_slice_gets_one_element :
    arrange (some (.arr [.str "a", .str "b"])) ⟨.slice .string, .slice []⟩ "" =
        .ok ⟨.slice .string, .slice [.str ""]⟩ ∧
      (decode (.slice .string) (.arr [.str "a", .str "b"])).1 =
        .slice [.str "a", .str "b"] ∧
      arrange (some (.arr [.str "a", .str "b"])) ⟨.slice .string, .slice []⟩ "" ≠
        .ok ⟨.slice .string, (decode (.slice .string) (.arr [.str "a", .str "b"])).1⟩ := by
  refine ⟨rfl, rfl, ?_⟩
  intro h
  have h1 : arrange (some (.arr [.str "a", .str "b"])) ⟨.slice .string, .slice []⟩ "" =
      .ok ⟨.slice .string, .slice [.str ""]⟩ := rfl
  rw [h1] at h
  have h2 : (decode (.slice .string) (.arr [.str "a", .str "b"])).1 =
      .slice [.str "a", .str "b"] := rfl
  rw [h2] at h
  simp at h

/-- C14, examples: with the empty path a `string` holding `old` is left holding the
document `"v"`, an `int` is left holding the document `5`, and a `[]int`
holding `[1]` is left holding `[1, 5]`. -/
theorem C14_empty_path_examples :
    arrange (some (.str "v")) ⟨.string, .str "old"⟩ "" = .ok ⟨.string, .str "v"⟩ ∧
      arrange (some (.num 5)) ⟨.int, .int 0⟩ "" = .ok ⟨.int, .int 5⟩ ∧
      arrange (some (.num 5)) ⟨.slice .int, .slice [.int 1]⟩ "" =
        .ok ⟨.slice .int, .slice [.int 1, .int 5]⟩ :=
  ⟨(C14_empty_path .string (.str "old") [] (some (.str "v"))).2.2.1 (by simp),
    (C14_empty_path .int (.int 0) [] (some (.num 5))).2.2.1 (by simp),
    (C14_empty_path .int (.int 0) [.int 1] (some (.num 5))).2.2.2⟩

/-- C15, as amended: each request builder returns params whose `Action` is the
builder's own action name and whose positional fields are the arguments
given, `Page(n)` and `PageSize(n)` the decimal form of `n`, each of these
for every list of overlays none of which has the key in question. -/
theorem C15_builder_fields (values : List Values) (domainName id record typeValue value : String)
    (n : Int) :
    (Untouched values "Action" →
      (GetDomains values).Get "Action" = "DescribeDomains" ∧
      (GetDomainRecords domainName values).Get "Action" = "DescribeDomainRecords" ∧
      (GetDomainRecord id values).Get "Action" = "DescribeDomainRecordInfo" ∧
      (AddDomainRecord record domainName typeValue value values).Get "Action" =
        "AddDomainRecord" ∧
      (UpdateDomainRecord id record typeValue value values).Get "Action" =
        "UpdateDomainRecord" ∧
      (DeleteDomainRecord id values).Get "Action" = "DeleteDomainRecord") ∧
    (Untouched values "DomainName" →
      (GetDomainRecords domainName values).Get "DomainName" = domainName ∧
      (AddDomainRecord record domainName typeValue value values).Get "DomainName" =
        domainName) ∧
    (Untouched values "RecordId" →
      (GetDomainRecord id values).Get "RecordId" = id ∧
      (UpdateDomainRecord id record typeValue value values).Get "RecordId" = id ∧
      (DeleteDomainRecord id values).Get "RecordId" = id) ∧
    (Untouched values "RR" →
      (AddDomainRecord record domainName typeValue value values).Get "RR" = record ∧
      (UpdateDomainRecord id record typeValue value values).Get "RR" = record) ∧
    (Untouched values "Type" →
      (AddDomainRecord record domainName typeValue value values).Get "Type" = typeValue ∧
      (UpdateDomainRecord id record typeValue value values).Get "Type" = typeValue) ∧
    (Untouched values "Value" →
      (AddDomainRecord record domainName typeValue value values).Get "Value" = value ∧
      (UpdateDomainRecord id record typeValue value values).Get "Value" = value) ∧
    (Untouched values "PageNumber" → (Page n values).Get "PageNumber" = itoa n) ∧
    (Untouched values "PageSize" → (PageSize n values).Get "PageSize" = itoa n) := by
  refine ⟨fun h => ⟨?_, ?_, ?_, ?_, ?_, ?_⟩, fun h => ⟨?_, ?_⟩, fun h => ⟨?_, ?_, ?_⟩,
    fun h => ⟨?_, ?_⟩, fun h => ⟨?_, ?_⟩, fun h => ⟨?_, ?_⟩, fun h => ?_, fun h => ?_⟩
  all_goals
    first
    | exact Get_builder _ values _ _ (Values.Get_Set_self _ _ _) h
    | exact Get_builder _ values _ _
        ((Values.Get_Set_ne _ _ _ _ (by decide)).trans (Values.Get_Set_self _ _ _)) h
    | exact Get_builder _ values _ _
        ((Values.Get_Set_ne _ _ _ _ (by decide)).trans
          ((Values.Get_Set_ne _ _ _ _ (by decide)).trans (Values.Get_Set_self _ _ _))) h
    | exact Get_builder _ values _ _
        ((Values.Get_Set_ne _ _ _ _ (by decide)).trans
          ((Values.Get_Set_ne _ _ _ _ (by decide)).trans
            ((Values.Get_Set_ne _ _ _ _ (by decide)).trans (Values.Get_Set_self _ _ _)))) h
    | exact Get_builder _ values _ _
        ((Values.Get_Set_ne _ _ _ _ (by decide)).trans
          ((Values.Get_Set_ne _ _ _ _ (by decide)).trans
            ((Values.Get_Set_ne _ _ _ _ (by decide)).trans
              ((Values.Get_Set_ne _ _ _ _ (by decide)).trans (Values.Get_Set_self _ _ _))))) h

/-- C15, counterexample: an overlay that has the key `Action`, or `DomainName`,
replaces what the builder set. -/
theorem C15_overlay_replaces_action :
    (GetDomains [[("Action", ["DeleteDomain"])]]).Get "Action" = "DeleteDomain" ∧
      (GetDomains [[("Action", ["DeleteDomain"])]]).Get "Action" ≠ "DescribeDomains" ∧
      (GetDomainRecords "a.com" [[("DomainName", ["b.com"])]]).Get "DomainName" = "b.com" ∧
      (GetDomainRecords "a.com" [[("DomainName", ["b.com"])]]).Get "DomainName" ≠ "a.com" := by
  decide

/-- C15, examples: the call `GetDomains(PageSize(2))` of the test, and
`AddDomainRecord` under an overlay that names only a line. -/
theorem C15_builder_examples :
    (GetDomains [PageSize 2 []]).Get "Action" = "DescribeDomains" ∧
      (AddDomainRecord "hello" "a.com" "TXT" "world" [[("Line", ["default"])]]).Get "Value" =
        "world" ∧
      (Page 3 []).Get "PageNumber" = "3" :=
  ⟨((C15_builder_fields [PageSize 2 []] "" "" "" "" "" 0).1 (by decide)).1,
    ((C15_builder_fields [[("Line", ["default"])]] "a.com" "" "hello" "TXT" "world" 0).2.2.2.2.2.1
      (by decide)).1,
    (C15_builder_fields [] "" "" "" "" "" 3).2.2.2.2.2.2.1 (by decide)⟩

/-- C16: `merge` is last writer wins. When `v` is the last overlay that has the key
`k`, the result's `Get(k)` is `v.Get(k)`; when no overlay has the key `k`,
the result has for `k` the value list that `params` had (also none, when
`params` did not have the key); and a key of `params` is a key of the
result. -/
theorem C16_merge_last_writer_wins (params : Values) (values : List Values) (k : String) :
    (∀ (pre post : List Values) (v : Values), values = pre ++ v :: post →
      v.hasKey k = true → Untouched post k → (merge params values).Get k = v.Get k) ∧
    (Untouched values k → (merge params values).lookup k = params.lookup k) ∧
    (params.hasKey k = true → (merge params values).hasKey k = true) := by
  refine ⟨?_, lookup_merge_untouched params values k, hasKey_merge params values k⟩
  intro pre post v hvals hv hpost
  subst hvals
  simp only [Values.Get, lookup_merge_last params pre post v k hv hpost]

/-- C16, examples: the last overlay that has `PageSize` wins over the earlier one
and over `params`; `Action`, which no overlay has, keeps both its values. -/
theorem C16_merge_examples :
    (merge [("Action", ["A", "B"]), ("PageSize", ["5"])]
        [[("PageSize", ["10", "11"])], [("Lang", ["en"])], [("PageSize", ["20"])],
          [("Type", [])]]).Get "PageSize" = "20" ∧
      (merge [("Action", ["A", "B"]), ("PageSize", ["5"])]
        [[("PageSize", ["10", "11"])], [("Lang", ["en"])], [("PageSize", ["20"])],
          [("Type", [])]]).lookup "Action" = some ["A", "B"] :=
  ⟨(C16_merge_last_writer_wins [("Action", ["A", "B"]), ("PageSize", ["5"])]
      [[("PageSize", ["10", "11"])], [("Lang", ["en"])], [("PageSize", ["20"])], [("Type", [])]]
      "PageSize").1 [[("PageSize", ["10", "11"])], [("Lang", ["en"])]] [[("Type", [])]]
      [("PageSize", ["20"])] rfl rfl (by decide),
    (C16_merge_last_writer_wins [("Action", ["A", "B"]), ("PageSize", ["5"])]
      [[("PageSize", ["10", "11"])], [("Lang", ["en"])], [("PageSize", ["20"])], [("Type", [])]]
      "Action").2.1 (by decide)⟩

/-- C17: for a scalar destination of type `T` holding `d` and a walk that collects
`items`, `arrange` leaves in the destination the last element of `[d]`
followed by the items, each absent item replaced by the zero value of `T`: the
last item wins, and `d` stays when nothing is collected. -/
theorem C17_last_value_wins (T : GoType) (d : Val) (data : Option JSON) (key : String)
    (items : List Val) (hT : ∀ e, T ≠ .slice e)
    (hcol : collect (unmarshal (buildType T (splitKey key)) data).1 (splitKey key) =
      .ok items) :
    ∃ v, arrange data ⟨T, d⟩ key = .ok ⟨T, v⟩ ∧
      ([d] ++ items.map (orZero T)).getLast? = some v := by
  have hbase : baseTypeOf T = T := by
    cases T <;> first | rfl | exact absurd rfl (hT _)
  refine ⟨items.foldl (bind T (baseTypeOf T)) d, ?_, foldl_bind_scalar T hT items d⟩
  unfold arrange
  simp only [hbase, hcol]

/-- C17, witness: the wildcard over `[1,2,3]` into an `int` holding 9 gives 3; over
the empty array the 9 stays. -/
theorem C17_last_value_wins_witness :
    (∃ v, arrange (some (.arr [.num 1, .num 2, .num 3])) ⟨.int, .int 9⟩ "*" = .ok ⟨.int, v⟩ ∧
      ([Val.int 9] ++ [Val.int 1, Val.int 2, Val.int 3].map (orZero .int)).getLast? = some v) ∧
    arrange (some (.arr [.num 1, .num 2, .num 3])) ⟨.int, .int 9⟩ "*" = .ok ⟨.int, .int 3⟩ ∧
    arrange (some (.arr [])) ⟨.int, .int 9⟩ "*" = .ok ⟨.int, .int 9⟩ :=
  ⟨C17_last_value_wins .int (.int 9) (some (.arr [.num 1, .num 2, .num 3])) "*"
      [.int 1, .int 2, .int 3] (by simp) rfl, rfl, rfl⟩

/-- C18: for every element type `T`, every path `keys` and every value `x` that is
a well-formed instance of the shape derived from `T` and `keys` and has every
literal key of the path wherever the walk looks it up, `collect` ends without
panic, so it never calls `MapIndex` on something that is not a map nor `Len`
or `Index` on something that is not a slice (the indices run below `Len`),
and every value it returns is a well-formed `T`. -/
theorem C18_walk_is_well_typed (T : GoType) (keys : List String) :
    ∀ x : Val, hasType (buildType T keys) x = true → keysPresent keys x = true →
      ∃ items, collect x keys = .ok items ∧ ∀ v ∈ items, hasType T v = true := by
  induction keys with
  | nil =>
    intro x hty _
    exact ⟨[x], rfl, by simpa [buildType] using hty⟩
  | cons key k ih =>
    intro x hty hkeys
    by_cases hs : key = "*"
    · subst hs
      rw [buildType_star] at hty
      rw [collect_star]
      cases x with
      | slice items =>
        simp only [hasType, List.all_eq_true] at hty
        simp only [keysPresent, if_true, List.all_eq_true] at hkeys
        simp only [elements]
        exact appendAll_ok (fun v => hasType T v = true) (fun item => collect item k) items
          (fun item hi => ih item (hty item hi) (hkeys item hi))
      | _ => simp [hasType] at hty
    · by_cases he : key = ""
      · subst he
        have hb : buildType T ("" :: k) = buildType T k := by simp [buildType]
        have hc : collect x ("" :: k) = collect x k := by simp [collect]
        have hk' : keysPresent ("" :: k) x = keysPresent k x := by simp [keysPresent]
        rw [hb] at hty
        rw [hk'] at hkeys
        rw [hc]
        exact ih x hty hkeys
      · have hb : buildType T (key :: k) = .map (buildType T k) := by
          simp [buildType, hs, he]
        rw [hb] at hty
        cases x with
        | map entries =>
          simp only [hasType, List.all_eq_true] at hty
          simp only [keysPresent, hs, he, if_false, ne_eq, not_false_eq_true, if_true] at hkeys
          cases hl : entries.lookup key with
          | none => rw [hl] at hkeys; cases hkeys
          | some v =>
            rw [hl] at hkeys
            have hc : collect (.map entries) (key :: k) = collect v k := by
              simp [collect, hs, he, mapIndex, hl]
            rw [hc]
            exact ih v (hty (key, v) (mem_of_lookup entries key v hl)) hkeys
        | _ => simp [hasType] at hty

/-- C18, witness: the decoded listing of the scenario is an instance of the shape
of `Domains.Domain.*.DomainName` with every key present; the walk completes
and returns strings. -/
theorem C18_walk_is_well_typed_witness :
    ∃ items,
      collect (decode (buildType .string (splitKey "Domains.Domain.*.DomainName")) domainsDoc).1
        (splitKey "Domains.Domain.*.DomainName") = .ok items ∧
      ∀ v ∈ items, hasType .string v = true :=
  C18_walk_is_well_typed .string (splitKey "Domains.Domain.*.DomainName")
    (decode (buildType .string (splitKey "Domains.Domain.*.DomainName")) domainsDoc).1
    rfl rfl

/-- C19: for a path `ks1.*.ks2.*.ks3` with two wildcards between literal keys
(each of `ks1`, `ks2`, `ks3` may be empty), a value in which `ks1` leads to
the outer array, `ks2` leads from every outer element to its inner array, and
`ks3` leads from every inner element `e` to `leaf e`, `collect` returns the
leaves of the inner elements, outer element by outer element and inside each
in the order of its inner array. Their number is the sum of the lengths of
the inner arrays. For a path that ends with the second wildcard the leaves
are the inner elements themselves. -/
theorem C19_two_wildcards_flatten (ks1 ks2 ks3 : List String) (x : Val) (outer : List Val)
    (inners : List (List Val)) (leaf : Val → Val)
    (h1 : ∀ k ∈ ks1, IsLiteral k) (h2 : ∀ k ∈ ks2, IsLiteral k) (h3 : ∀ k ∈ ks3, IsLiteral k)
    (houter : x.walk ks1 = some (.slice outer))
    (hinner : outer.map (fun o => o.walk ks2) = inners.map (fun is => some (.slice is)))
    (hleaf : ∀ is ∈ inners, ∀ e ∈ is, e.walk ks3 = some (leaf e)) :
    collect x (ks1 ++ "*" :: (ks2 ++ "*" :: ks3)) = .ok (inners.flatten.map leaf) ∧
      (inners.flatten.map leaf).length = (inners.map List.length).sum := by
  refine ⟨?_, by rw [List.length_map, length_flatten_eq_sum]⟩
  have hleafc : ∀ e : Val, (∃ is ∈ inners, e ∈ is) → collect e ks3 = .ok [leaf e] := by
    intro e ⟨is, his, he⟩
    have := collect_walk [] ks3 e (leaf e) h3 (hleaf is his e he)
    simpa [collect_nil] using this
  have hin : ∀ is ∈ inners, appendAll (is.map (fun e => collect e ks3)) = .ok (is.map leaf) := by
    intro is his
    have hm : is.map (fun e => collect e ks3) =
        (is.map (fun e => [leaf e])).map
          (fun r => (Except.ok r : Except Panic (List Val))) := by
      rw [List.map_map]
      apply List.map_congr_left
      intro e he
      exact hleafc e ⟨is, his, he⟩
    rw [appendAll_flatten (fun e => collect e ks3) is _ hm, flatten_singletons]
  rw [collect_walk _ ks1 x _ h1 houter, collect_star]
  simp only [elements]
  have hm : outer.map (fun item => collect item (ks2 ++ "*" :: ks3)) =
      (inners.map (fun is => is.map leaf)).map
        (fun r => (Except.ok r : Except Panic (List Val))) := by
    rw [List.map_map]
    clear houter
    induction outer generalizing inners with
    | nil =>
      cases inners with
      | nil => rfl
      | cons r rs => simp at hinner
    | cons o os ih' =>
      cases inners with
      | nil => simp at hinner
      | cons r rs =>
        simp only [List.map_cons, List.cons.injEq] at hinner
        simp only [List.map_cons, Function.comp]
        have ho : collect o (ks2 ++ "*" :: ks3) = .ok (r.map leaf) := by
          rw [collect_walk _ ks2 o _ h2 hinner.1, collect_star]
          simp only [elements]
          exact hin r (by simp)
        rw [ho]
        congr 1
        exact ih' rs hinner.2 (fun is his => hleaf is (by simp [his]))
          (fun e ⟨is, his, he⟩ => hleafc e ⟨is, by simp [his], he⟩)
          (fun is his => hin is (by simp [his]))
  rw [appendAll_flatten _ outer _ hm, flatten_map_map]

/-- C19, witness: `a.*.b.*` over three outer entries with inner arrays of two, no
and one element collects the three elements in order, and `*.*` flattens an
array of arrays. -/
theorem C19_two_wildcards_flatten_witness :
    (collect (decode (buildType .int (splitKey "a.*.b.*")) nestedDoc).1
        (["a"] ++ "*" :: (["b"] ++ "*" :: [])) =
        .ok (([[Val.int 1, Val.int 2], [], [Val.int 3]] : List (List Val)).flatten.map id) ∧
      (([[Val.int 1, Val.int 2], [], [Val.int 3]] : List (List Val)).flatten.map id).length =
        (([[Val.int 1, Val.int 2], [], [Val.int 3]] : List (List Val)).map List.length).sum) ∧
    arrange (some nestedDoc) ⟨.slice .int, .slice []⟩ "a.*.b.*" =
      .ok ⟨.slice .int, .slice [.int 1, .int 2, .int 3]⟩ ∧
    arrange (some (.arr [.arr [.str "x"], .arr [.str "y", .str "z"]]))
        ⟨.slice .string, .slice []⟩ "*.*" =
      .ok ⟨.slice .string, .slice [.str "x", .str "y", .str "z"]⟩ :=
  ⟨C19_two_wildcards_flatten ["a"] ["b"] []
      (decode (buildType .int (splitKey "a.*.b.*")) nestedDoc).1
      [.map [("b", .slice [.int 1, .int 2])], .map [("b", .slice [])],
        .map [("b", .slice [.int 3])]]
      [[.int 1, .int 2], [], [.int 3]] id
      (by decide) (by decide) (by decide) rfl rfl (fun _ _ e _ => Val.walk_nil e),
    rfl, rfl⟩

/-- C20: for params whose keys are distinct, as the keys of a map are, the output
of `buildQueryString` is the `&`-joined list of the entries
`urlEncode(k) + "=" + urlEncode(params.Get(k))` over a list `keys` that holds
every key of params other than `Signature` exactly once and is strictly
ascending in the order of `sort.Strings`. The output is the same for every
other order of the entries of params, and it is the same with a `Signature`
entry of any value and without one. -/
theorem C20_query_string_canonical (params : Values) (hnd : (params.map Prod.fst).Nodup) :
    (∃ keys : List String,
      buildQueryString params = "&".intercalate (keys.map (queryEntry params)) ∧
      keys.Perm ((params.map Prod.fst).filter (fun k => k ≠ "Signature")) ∧
      keys.Sorted keyLt) ∧
    (∀ params' : Values, params'.Perm params →
      buildQueryString params' = buildQueryString params) ∧
    (∀ v, buildQueryString (params.Set "Signature" v) = buildQueryString params) ∧
    buildQueryString (params.filter (fun e => e.1 ≠ "Signature")) =
      buildQueryString params := by
  refine ⟨⟨_, buildQueryString_eq params, sortStrings_perm _, ?_⟩,
    fun params' h => buildQueryString_perm params params' h hnd,
    buildQueryString_Set_Signature params, buildQueryString_without_Signature params⟩
  have hs := sortStrings_sorted ((params.map Prod.fst).filter (fun k => k ≠ "Signature"))
  have hn : (sortStrings ((params.map Prod.fst).filter (fun k => k ≠ "Signature"))).Nodup :=
    (sortStrings_perm _).nodup_iff.mpr (hnd.filter _)
  exact (List.Pairwise.and hs hn).imp (fun h => h)

/-- C20, witness: three keys given in descending order and a `Signature` entry
come out ascending, escaped, and without the signature. -/
theorem C20_query_string_canonical_witness :
    ((∃ keys : List String,
      buildQueryString [("b", ["1", "9"]), ("Signature", ["x"]), ("a", ["2 3"]), ("Z", [])] =
        "&".intercalate (keys.map
          (queryEntry [("b", ["1", "9"]), ("Signature", ["x"]), ("a", ["2 3"]), ("Z", [])])) ∧
      keys.Perm (([("b", ["1", "9"]), ("Signature", ["x"]), ("a", ["2 3"]),
        ("Z", ([] : List String))].map Prod.fst).filter (fun k => k ≠ "Signature")) ∧
      keys.Sorted keyLt) ∧
    (∀ params' : Values,
      params'.Perm [("b", ["1", "9"]), ("Signature", ["x"]), ("a", ["2 3"]), ("Z", [])] →
      buildQueryString params' =
        buildQueryString [("b", ["1", "9"]), ("Signature", ["x"]), ("a", ["2 3"]), ("Z", [])]) ∧
    (∀ v, buildQueryString
        (Values.Set [("b", ["1", "9"]), ("Signature", ["x"]), ("a", ["2 3"]), ("Z", [])]
          "Signature" v) =
      buildQueryString [("b", ["1", "9"]), ("Signature", ["x"]), ("a", ["2 3"]), ("Z", [])]) ∧
    buildQueryString (List.filter (fun e => e.1 ≠ "Signature")
        [("b", ["1", "9"]), ("Signature", ["x"]), ("a", ["2 3"]), ("Z", [])]) =
      buildQueryString [("b", ["1", "9"]), ("Signature", ["x"]), ("a", ["2 3"]), ("Z", [])]) ∧
    buildQueryString [("b", ["1", "9"]), ("Signature", ["x"]), ("a", ["2 3"]), ("Z", [])] =
      "Z=&a=2%203&b=1" :=
  ⟨C20_query_string_canonical
      [("b", ["1", "9"]), ("Signature", ["x"]), ("a", ["2 3"]), ("Z", [])] (by decide),
    by decide⟩

end Alidnsslim
